import Mathlib

/-!
Verification development for the Ambarella firmware packer
(`amba_fwpak_yi.py`): a shallow embedding of its checksum engine,
binary layout model, boundary detector, extraction pipeline and
construction pipeline, together with theorems about the documented
properties of those components.

Modelling conventions:
* a byte is a `Nat` (callers keep values below 256) and a byte stream
  is a `List Nat`;
* 32-bit machine arithmetic is `Nat` arithmetic with explicit masking
  by `mask32`;
* loops whose termination is not structural carry an explicit fuel
  argument; a loop of the original program that never terminates is
  modelled by the fuelled function returning `none` for every fuel;
* files are byte lists; the sidecar metadata files are records.
-/

namespace Amba

/-- All-ones 32-bit mask, `0xffffffff` in the original. -/
def mask32 : Nat := 0xffffffff

def crc32_tab : List (List Nat) := [
        [
        0x00000000, 0x77073096, 0xee0e612c, 0x990951ba, 0x076dc419, 0x706af48f, 0xe963a535, 0x9e6495a3,
        0x0edb8832, 0x79dcb8a4, 0xe0d5e91e, 0x97d2d988, 0x09b64c2b, 0x7eb17cbd, 0xe7b82d07, 0x90bf1d91,
        0x1db71064, 0x6ab020f2, 0xf3b97148, 0x84be41de, 0x1adad47d, 0x6ddde4eb, 0xf4d4b551, 0x83d385c7,
        0x136c9856, 0x646ba8c0, 0xfd62f97a, 0x8a65c9ec, 0x14015c4f, 0x63066cd9, 0xfa0f3d63, 0x8d080df5,
        0x3b6e20c8, 0x4c69105e, 0xd56041e4, 0xa2677172, 0x3c03e4d1, 0x4b04d447, 0xd20d85fd, 0xa50ab56b,
        0x35b5a8fa, 0x42b2986c, 0xdbbbc9d6, 0xacbcf940, 0x32d86ce3, 0x45df5c75, 0xdcd60dcf, 0xabd13d59,
        0x26d930ac, 0x51de003a, 0xc8d75180, 0xbfd06116, 0x21b4f4b5, 0x56b3c423, 0xcfba9599, 0xb8bda50f,
        0x2802b89e, 0x5f058808, 0xc60cd9b2, 0xb10be924, 0x2f6f7c87, 0x58684c11, 0xc1611dab, 0xb6662d3d,
        0x76dc4190, 0x01db7106, 0x98d220bc, 0xefd5102a, 0x71b18589, 0x06b6b51f, 0x9fbfe4a5, 0xe8b8d433,
        0x7807c9a2, 0x0f00f934, 0x9609a88e, 0xe10e9818, 0x7f6a0dbb, 0x086d3d2d, 0x91646c97, 0xe6635c01,
        0x6b6b51f4, 0x1c6c6162, 0x856530d8, 0xf262004e, 0x6c0695ed, 0x1b01a57b, 0x8208f4c1, 0xf50fc457,
        0x65b0d9c6, 0x12b7e950, 0x8bbeb8ea, 0xfcb9887c, 0x62dd1ddf, 0x15da2d49, 0x8cd37cf3, 0xfbd44c65,
        0x4db26158, 0x3ab551ce, 0xa3bc0074, 0xd4bb30e2, 0x4adfa541, 0x3dd895d7, 0xa4d1c46d, 0xd3d6f4fb,
        0x4369e96a, 0x346ed9fc, 0xad678846, 0xda60b8d0, 0x44042d73, 0x33031de5, 0xaa0a4c5f, 0xdd0d7cc9,
        0x5005713c, 0x270241aa, 0xbe0b1010, 0xc90c2086, 0x5768b525, 0x206f85b3, 0xb966d409, 0xce61e49f,
        0x5edef90e, 0x29d9c998, 0xb0d09822, 0xc7d7a8b4, 0x59b33d17, 0x2eb40d81, 0xb7bd5c3b, 0xc0ba6cad,
        0xedb88320, 0x9abfb3b6, 0x03b6e20c, 0x74b1d29a, 0xead54739, 0x9dd277af, 0x04db2615, 0x73dc1683,
        0xe3630b12, 0x94643b84, 0x0d6d6a3e, 0x7a6a5aa8, 0xe40ecf0b, 0x9309ff9d, 0x0a00ae27, 0x7d079eb1,
        0xf00f9344, 0x8708a3d2, 0x1e01f268, 0x6906c2fe, 0xf762575d, 0x806567cb, 0x196c3671, 0x6e6b06e7,
        0xfed41b76, 0x89d32be0, 0x10da7a5a, 0x67dd4acc, 0xf9b9df6f, 0x8ebeeff9, 0x17b7be43, 0x60b08ed5,
        0xd6d6a3e8, 0xa1d1937e, 0x38d8c2c4, 0x4fdff252, 0xd1bb67f1, 0xa6bc5767, 0x3fb506dd, 0x48b2364b,
        0xd80d2bda, 0xaf0a1b4c, 0x36034af6, 0x41047a60, 0xdf60efc3, 0xa867df55, 0x316e8eef, 0x4669be79,
        0xcb61b38c, 0xbc66831a, 0x256fd2a0, 0x5268e236, 0xcc0c7795, 0xbb0b4703, 0x220216b9, 0x5505262f,
        0xc5ba3bbe, 0xb2bd0b28, 0x2bb45a92, 0x5cb36a04, 0xc2d7ffa7, 0xb5d0cf31, 0x2cd99e8b, 0x5bdeae1d,
        0x9b64c2b0, 0xec63f226, 0x756aa39c, 0x026d930a, 0x9c0906a9, 0xeb0e363f, 0x72076785, 0x05005713,
        0x95bf4a82, 0xe2b87a14, 0x7bb12bae, 0x0cb61b38, 0x92d28e9b, 0xe5d5be0d, 0x7cdcefb7, 0x0bdbdf21,
        0x86d3d2d4, 0xf1d4e242, 0x68ddb3f8, 0x1fda836e, 0x81be16cd, 0xf6b9265b, 0x6fb077e1, 0x18b74777,
        0x88085ae6, 0xff0f6a70, 0x66063bca, 0x11010b5c, 0x8f659eff, 0xf862ae69, 0x616bffd3, 0x166ccf45,
        0xa00ae278, 0xd70dd2ee, 0x4e048354, 0x3903b3c2, 0xa7672661, 0xd06016f7, 0x4969474d, 0x3e6e77db,
        0xaed16a4a, 0xd9d65adc, 0x40df0b66, 0x37d83bf0, 0xa9bcae53, 0xdebb9ec5, 0x47b2cf7f, 0x30b5ffe9,
        0xbdbdf21c, 0xcabac28a, 0x53b39330, 0x24b4a3a6, 0xbad03605, 0xcdd70693, 0x54de5729, 0x23d967bf,
        0xb3667a2e, 0xc4614ab8, 0x5d681b02, 0x2a6f2b94, 0xb40bbe37, 0xc30c8ea1, 0x5a05df1b, 0x2d02ef8d
        ],
        [
        0x00000000, 0x191B3141, 0x32366282, 0x2B2D53C3, 0x646CC504, 0x7D77F445, 0x565AA786, 0x4F4196C7,
        0xC8D98A08, 0xD1C2BB49, 0xFAEFE88A, 0xE3F4D9CB, 0xACB54F0C, 0xB5AE7E4D, 0x9E832D8E, 0x87981CCF,
        0x4AC21251, 0x53D92310, 0x78F470D3, 0x61EF4192, 0x2EAED755, 0x37B5E614, 0x1C98B5D7, 0x05838496,
        0x821B9859, 0x9B00A918, 0xB02DFADB, 0xA936CB9A, 0xE6775D5D, 0xFF6C6C1C, 0xD4413FDF, 0xCD5A0E9E,
        0x958424A2, 0x8C9F15E3, 0xA7B24620, 0xBEA97761, 0xF1E8E1A6, 0xE8F3D0E7, 0xC3DE8324, 0xDAC5B265,
        0x5D5DAEAA, 0x44469FEB, 0x6F6BCC28, 0x7670FD69, 0x39316BAE, 0x202A5AEF, 0x0B07092C, 0x121C386D,
        0xDF4636F3, 0xC65D07B2, 0xED705471, 0xF46B6530, 0xBB2AF3F7, 0xA231C2B6, 0x891C9175, 0x9007A034,
        0x179FBCFB, 0x0E848DBA, 0x25A9DE79, 0x3CB2EF38, 0x73F379FF, 0x6AE848BE, 0x41C51B7D, 0x58DE2A3C,
        0xF0794F05, 0xE9627E44, 0xC24F2D87, 0xDB541CC6, 0x94158A01, 0x8D0EBB40, 0xA623E883, 0xBF38D9C2,
        0x38A0C50D, 0x21BBF44C, 0x0A96A78F, 0x138D96CE, 0x5CCC0009, 0x45D73148, 0x6EFA628B, 0x77E153CA,
        0xBABB5D54, 0xA3A06C15, 0x888D3FD6, 0x91960E97, 0xDED79850, 0xC7CCA911, 0xECE1FAD2, 0xF5FACB93,
        0x7262D75C, 0x6B79E61D, 0x4054B5DE, 0x594F849F, 0x160E1258, 0x0F152319, 0x243870DA, 0x3D23419B,
        0x65FD6BA7, 0x7CE65AE6, 0x57CB0925, 0x4ED03864, 0x0191AEA3, 0x188A9FE2, 0x33A7CC21, 0x2ABCFD60,
        0xAD24E1AF, 0xB43FD0EE, 0x9F12832D, 0x8609B26C, 0xC94824AB, 0xD05315EA, 0xFB7E4629, 0xE2657768,
        0x2F3F79F6, 0x362448B7, 0x1D091B74, 0x04122A35, 0x4B53BCF2, 0x52488DB3, 0x7965DE70, 0x607EEF31,
        0xE7E6F3FE, 0xFEFDC2BF, 0xD5D0917C, 0xCCCBA03D, 0x838A36FA, 0x9A9107BB, 0xB1BC5478, 0xA8A76539,
        0x3B83984B, 0x2298A90A, 0x09B5FAC9, 0x10AECB88, 0x5FEF5D4F, 0x46F46C0E, 0x6DD93FCD, 0x74C20E8C,
        0xF35A1243, 0xEA412302, 0xC16C70C1, 0xD8774180, 0x9736D747, 0x8E2DE606, 0xA500B5C5, 0xBC1B8484,
        0x71418A1A, 0x685ABB5B, 0x4377E898, 0x5A6CD9D9, 0x152D4F1E, 0x0C367E5F, 0x271B2D9C, 0x3E001CDD,
        0xB9980012, 0xA0833153, 0x8BAE6290, 0x92B553D1, 0xDDF4C516, 0xC4EFF457, 0xEFC2A794, 0xF6D996D5,
        0xAE07BCE9, 0xB71C8DA8, 0x9C31DE6B, 0x852AEF2A, 0xCA6B79ED, 0xD37048AC, 0xF85D1B6F, 0xE1462A2E,
        0x66DE36E1, 0x7FC507A0, 0x54E85463, 0x4DF36522, 0x02B2F3E5, 0x1BA9C2A4, 0x30849167, 0x299FA026,
        0xE4C5AEB8, 0xFDDE9FF9, 0xD6F3CC3A, 0xCFE8FD7B, 0x80A96BBC, 0x99B25AFD, 0xB29F093E, 0xAB84387F,
        0x2C1C24B0, 0x350715F1, 0x1E2A4632, 0x07317773, 0x4870E1B4, 0x516BD0F5, 0x7A468336, 0x635DB277,
        0xCBFAD74E, 0xD2E1E60F, 0xF9CCB5CC, 0xE0D7848D, 0xAF96124A, 0xB68D230B, 0x9DA070C8, 0x84BB4189,
        0x03235D46, 0x1A386C07, 0x31153FC4, 0x280E0E85, 0x674F9842, 0x7E54A903, 0x5579FAC0, 0x4C62CB81,
        0x8138C51F, 0x9823F45E, 0xB30EA79D, 0xAA1596DC, 0xE554001B, 0xFC4F315A, 0xD7626299, 0xCE7953D8,
        0x49E14F17, 0x50FA7E56, 0x7BD72D95, 0x62CC1CD4, 0x2D8D8A13, 0x3496BB52, 0x1FBBE891, 0x06A0D9D0,
        0x5E7EF3EC, 0x4765C2AD, 0x6C48916E, 0x7553A02F, 0x3A1236E8, 0x230907A9, 0x0824546A, 0x113F652B,
        0x96A779E4, 0x8FBC48A5, 0xA4911B66, 0xBD8A2A27, 0xF2CBBCE0, 0xEBD08DA1, 0xC0FDDE62, 0xD9E6EF23,
        0x14BCE1BD, 0x0DA7D0FC, 0x268A833F, 0x3F91B27E, 0x70D024B9, 0x69CB15F8, 0x42E6463B, 0x5BFD777A,
        0xDC656BB5, 0xC57E5AF4, 0xEE530937, 0xF7483876, 0xB809AEB1, 0xA1129FF0, 0x8A3FCC33, 0x9324FD72
        ],
        [
        0x00000000, 0x01C26A37, 0x0384D46E, 0x0246BE59, 0x0709A8DC, 0x06CBC2EB, 0x048D7CB2, 0x054F1685,
        0x0E1351B8, 0x0FD13B8F, 0x0D9785D6, 0x0C55EFE1, 0x091AF964, 0x08D89353, 0x0A9E2D0A, 0x0B5C473D,
        0x1C26A370, 0x1DE4C947, 0x1FA2771E, 0x1E601D29, 0x1B2F0BAC, 0x1AED619B, 0x18ABDFC2, 0x1969B5F5,
        0x1235F2C8, 0x13F798FF, 0x11B126A6, 0x10734C91, 0x153C5A14, 0x14FE3023, 0x16B88E7A, 0x177AE44D,
        0x384D46E0, 0x398F2CD7, 0x3BC9928E, 0x3A0BF8B9, 0x3F44EE3C, 0x3E86840B, 0x3CC03A52, 0x3D025065,
        0x365E1758, 0x379C7D6F, 0x35DAC336, 0x3418A901, 0x3157BF84, 0x3095D5B3, 0x32D36BEA, 0x331101DD,
        0x246BE590, 0x25A98FA7, 0x27EF31FE, 0x262D5BC9, 0x23624D4C, 0x22A0277B, 0x20E69922, 0x2124F315,
        0x2A78B428, 0x2BBADE1F, 0x29FC6046, 0x283E0A71, 0x2D711CF4, 0x2CB376C3, 0x2EF5C89A, 0x2F37A2AD,
        0x709A8DC0, 0x7158E7F7, 0x731E59AE, 0x72DC3399, 0x7793251C, 0x76514F2B, 0x7417F172, 0x75D59B45,
        0x7E89DC78, 0x7F4BB64F, 0x7D0D0816, 0x7CCF6221, 0x798074A4, 0x78421E93, 0x7A04A0CA, 0x7BC6CAFD,
        0x6CBC2EB0, 0x6D7E4487, 0x6F38FADE, 0x6EFA90E9, 0x6BB5866C, 0x6A77EC5B, 0x68315202, 0x69F33835,
        0x62AF7F08, 0x636D153F, 0x612BAB66, 0x60E9C151, 0x65A6D7D4, 0x6464BDE3, 0x662203BA, 0x67E0698D,
        0x48D7CB20, 0x4915A117, 0x4B531F4E, 0x4A917579, 0x4FDE63FC, 0x4E1C09CB, 0x4C5AB792, 0x4D98DDA5,
        0x46C49A98, 0x4706F0AF, 0x45404EF6, 0x448224C1, 0x41CD3244, 0x400F5873, 0x4249E62A, 0x438B8C1D,
        0x54F16850, 0x55330267, 0x5775BC3E, 0x56B7D609, 0x53F8C08C, 0x523AAABB, 0x507C14E2, 0x51BE7ED5,
        0x5AE239E8, 0x5B2053DF, 0x5966ED86, 0x58A487B1, 0x5DEB9134, 0x5C29FB03, 0x5E6F455A, 0x5FAD2F6D,
        0xE1351B80, 0xE0F771B7, 0xE2B1CFEE, 0xE373A5D9, 0xE63CB35C, 0xE7FED96B, 0xE5B86732, 0xE47A0D05,
        0xEF264A38, 0xEEE4200F, 0xECA29E56, 0xED60F461, 0xE82FE2E4, 0xE9ED88D3, 0xEBAB368A, 0xEA695CBD,
        0xFD13B8F0, 0xFCD1D2C7, 0xFE976C9E, 0xFF5506A9, 0xFA1A102C, 0xFBD87A1B, 0xF99EC442, 0xF85CAE75,
        0xF300E948, 0xF2C2837F, 0xF0843D26, 0xF1465711, 0xF4094194, 0xF5CB2BA3, 0xF78D95FA, 0xF64FFFCD,
        0xD9785D60, 0xD8BA3757, 0xDAFC890E, 0xDB3EE339, 0xDE71F5BC, 0xDFB39F8B, 0xDDF521D2, 0xDC374BE5,
        0xD76B0CD8, 0xD6A966EF, 0xD4EFD8B6, 0xD52DB281, 0xD062A404, 0xD1A0CE33, 0xD3E6706A, 0xD2241A5D,
        0xC55EFE10, 0xC49C9427, 0xC6DA2A7E, 0xC7184049, 0xC25756CC, 0xC3953CFB, 0xC1D382A2, 0xC011E895,
        0xCB4DAFA8, 0xCA8FC59F, 0xC8C97BC6, 0xC90B11F1, 0xCC440774, 0xCD866D43, 0xCFC0D31A, 0xCE02B92D,
        0x91AF9640, 0x906DFC77, 0x922B422E, 0x93E92819, 0x96A63E9C, 0x976454AB, 0x9522EAF2, 0x94E080C5,
        0x9FBCC7F8, 0x9E7EADCF, 0x9C381396, 0x9DFA79A1, 0x98B56F24, 0x99770513, 0x9B31BB4A, 0x9AF3D17D,
        0x8D893530, 0x8C4B5F07, 0x8E0DE15E, 0x8FCF8B69, 0x8A809DEC, 0x8B42F7DB, 0x89044982, 0x88C623B5,
        0x839A6488, 0x82580EBF, 0x801EB0E6, 0x81DCDAD1, 0x8493CC54, 0x8551A663, 0x8717183A, 0x86D5720D,
        0xA9E2D0A0, 0xA820BA97, 0xAA6604CE, 0xABA46EF9, 0xAEEB787C, 0xAF29124B, 0xAD6FAC12, 0xACADC625,
        0xA7F18118, 0xA633EB2F, 0xA4755576, 0xA5B73F41, 0xA0F829C4, 0xA13A43F3, 0xA37CFDAA, 0xA2BE979D,
        0xB5C473D0, 0xB40619E7, 0xB640A7BE, 0xB782CD89, 0xB2CDDB0C, 0xB30FB13B, 0xB1490F62, 0xB08B6555,
        0xBBD72268, 0xBA15485F, 0xB853F606, 0xB9919C31, 0xBCDE8AB4, 0xBD1CE083, 0xBF5A5EDA, 0xBE9834ED
        ],
        [
        0x00000000, 0xB8BC6765, 0xAA09C88B, 0x12B5AFEE, 0x8F629757, 0x37DEF032, 0x256B5FDC, 0x9DD738B9,
        0xC5B428EF, 0x7D084F8A, 0x6FBDE064, 0xD7018701, 0x4AD6BFB8, 0xF26AD8DD, 0xE0DF7733, 0x58631056,
        0x5019579F, 0xE8A530FA, 0xFA109F14, 0x42ACF871, 0xDF7BC0C8, 0x67C7A7AD, 0x75720843, 0xCDCE6F26,
        0x95AD7F70, 0x2D111815, 0x3FA4B7FB, 0x8718D09E, 0x1ACFE827, 0xA2738F42, 0xB0C620AC, 0x087A47C9,
        0xA032AF3E, 0x188EC85B, 0x0A3B67B5, 0xB28700D0, 0x2F503869, 0x97EC5F0C, 0x8559F0E2, 0x3DE59787,
        0x658687D1, 0xDD3AE0B4, 0xCF8F4F5A, 0x7733283F, 0xEAE41086, 0x525877E3, 0x40EDD80D, 0xF851BF68,
        0xF02BF8A1, 0x48979FC4, 0x5A22302A, 0xE29E574F, 0x7F496FF6, 0xC7F50893, 0xD540A77D, 0x6DFCC018,
        0x359FD04E, 0x8D23B72B, 0x9F9618C5, 0x272A7FA0, 0xBAFD4719, 0x0241207C, 0x10F48F92, 0xA848E8F7,
        0x9B14583D, 0x23A83F58, 0x311D90B6, 0x89A1F7D3, 0x1476CF6A, 0xACCAA80F, 0xBE7F07E1, 0x06C36084,
        0x5EA070D2, 0xE61C17B7, 0xF4A9B859, 0x4C15DF3C, 0xD1C2E785, 0x697E80E0, 0x7BCB2F0E, 0xC377486B,
        0xCB0D0FA2, 0x73B168C7, 0x6104C729, 0xD9B8A04C, 0x446F98F5, 0xFCD3FF90, 0xEE66507E, 0x56DA371B,
        0x0EB9274D, 0xB6054028, 0xA4B0EFC6, 0x1C0C88A3, 0x81DBB01A, 0x3967D77F, 0x2BD27891, 0x936E1FF4,
        0x3B26F703, 0x839A9066, 0x912F3F88, 0x299358ED, 0xB4446054, 0x0CF80731, 0x1E4DA8DF, 0xA6F1CFBA,
        0xFE92DFEC, 0x462EB889, 0x549B1767, 0xEC277002, 0x71F048BB, 0xC94C2FDE, 0xDBF98030, 0x6345E755,
        0x6B3FA09C, 0xD383C7F9, 0xC1366817, 0x798A0F72, 0xE45D37CB, 0x5CE150AE, 0x4E54FF40, 0xF6E89825,
        0xAE8B8873, 0x1637EF16, 0x048240F8, 0xBC3E279D, 0x21E91F24, 0x99557841, 0x8BE0D7AF, 0x335CB0CA,
        0xED59B63B, 0x55E5D15E, 0x47507EB0, 0xFFEC19D5, 0x623B216C, 0xDA874609, 0xC832E9E7, 0x708E8E82,
        0x28ED9ED4, 0x9051F9B1, 0x82E4565F, 0x3A58313A, 0xA78F0983, 0x1F336EE6, 0x0D86C108, 0xB53AA66D,
        0xBD40E1A4, 0x05FC86C1, 0x1749292F, 0xAFF54E4A, 0x322276F3, 0x8A9E1196, 0x982BBE78, 0x2097D91D,
        0x78F4C94B, 0xC048AE2E, 0xD2FD01C0, 0x6A4166A5, 0xF7965E1C, 0x4F2A3979, 0x5D9F9697, 0xE523F1F2,
        0x4D6B1905, 0xF5D77E60, 0xE762D18E, 0x5FDEB6EB, 0xC2098E52, 0x7AB5E937, 0x680046D9, 0xD0BC21BC,
        0x88DF31EA, 0x3063568F, 0x22D6F961, 0x9A6A9E04, 0x07BDA6BD, 0xBF01C1D8, 0xADB46E36, 0x15080953,
        0x1D724E9A, 0xA5CE29FF, 0xB77B8611, 0x0FC7E174, 0x9210D9CD, 0x2AACBEA8, 0x38191146, 0x80A57623,
        0xD8C66675, 0x607A0110, 0x72CFAEFE, 0xCA73C99B, 0x57A4F122, 0xEF189647, 0xFDAD39A9, 0x45115ECC,
        0x764DEE06, 0xCEF18963, 0xDC44268D, 0x64F841E8, 0xF92F7951, 0x41931E34, 0x5326B1DA, 0xEB9AD6BF,
        0xB3F9C6E9, 0x0B45A18C, 0x19F00E62, 0xA14C6907, 0x3C9B51BE, 0x842736DB, 0x96929935, 0x2E2EFE50,
        0x2654B999, 0x9EE8DEFC, 0x8C5D7112, 0x34E11677, 0xA9362ECE, 0x118A49AB, 0x033FE645, 0xBB838120,
        0xE3E09176, 0x5B5CF613, 0x49E959FD, 0xF1553E98, 0x6C820621, 0xD43E6144, 0xC68BCEAA, 0x7E37A9CF,
        0xD67F4138, 0x6EC3265D, 0x7C7689B3, 0xC4CAEED6, 0x591DD66F, 0xE1A1B10A, 0xF3141EE4, 0x4BA87981,
        0x13CB69D7, 0xAB770EB2, 0xB9C2A15C, 0x017EC639, 0x9CA9FE80, 0x241599E5, 0x36A0360B, 0x8E1C516E,
        0x866616A7, 0x3EDA71C2, 0x2C6FDE2C, 0x94D3B949, 0x090481F0, 0xB1B8E695, 0xA30D497B, 0x1BB12E1E,
        0x43D23E48, 0xFB6E592D, 0xE9DBF6C3, 0x516791A6, 0xCCB0A91F, 0x740CCE7A, 0x66B96194, 0xDE0506F1
        ]
]

/-- Lookup `crc32_tab[t][i]` (out-of-range indices, which the original
program never produces for in-range inputs, default to 0). -/
def tabGet (t i : Nat) : Nat := (crc32_tab.getD t []).getD i 0

/-- One slice-by-four step of `amba_calculate_crc32h_part`, consuming
four bytes `b0..b3` of the buffer. -/
def crc32h_step4 (crc b0 b1 b2 b3 : Nat) : Nat :=
  tabGet 3 ((crc ^^^ b0) &&& 0xff) ^^^
  tabGet 2 (((crc >>> 8) ^^^ b1) &&& 0xff) ^^^
  tabGet 1 (((crc >>> 16) ^^^ b2) &&& 0xff) ^^^
  tabGet 0 ((crc >>> 24) ^^^ b3)

/-- The `while (len_buf >= 4)` loop of `amba_calculate_crc32h_part`:
processes the buffer in 4-byte groups, leaving the trailing 0-3 bytes
untouched. -/
def crc32h_groups : List Nat → Nat → Nat
  | b0 :: b1 :: b2 :: b3 :: rest, crc => crc32h_groups rest (crc32h_step4 crc b0 b1 b2 b3)
  | _, crc => crc

/-- The trailing bytes of a buffer left over by the 4-byte-group loop. -/
def crc32h_rest : List Nat → List Nat
  | _ :: _ :: _ :: _ :: rest => crc32h_rest rest
  | l => l

/-- Body of the trailing-byte loop of `amba_calculate_crc32h_part`:
`crc = crc32_tab[0][(crc ^ octet) & 0xff] ^ (crc >> 8)`. -/
def crc32h_tailstep (octet crc : Nat) : Nat :=
  tabGet 0 ((crc ^^^ octet) &&& 0xff) ^^^ (crc >>> 8)

/-- The `while len_buf:` trailing-byte loop of
`amba_calculate_crc32h_part`, with explicit fuel.  The loop body of
the original never decrements `len_buf` nor advances `i`, so the
condition is re-tested with `len_buf` unchanged and `octet` fixed at
the first trailing byte. -/
def crc32h_tail : Nat → Nat → Nat → Nat → Option Nat
  | 0, _, _, _ => none
  | fuel + 1, lenBuf, octet, crc =>
      if lenBuf = 0 then some crc
      else crc32h_tail fuel lenBuf octet (crc32h_tailstep octet crc)

/-- `amba_calculate_crc32h_part(buf, pcrc)` with explicit fuel for its
trailing-byte loop: the 4-byte-group loop, then the trailing-byte loop
on the 1-3 leftover bytes (if any), then the final `& 0xffffffff`. -/
def amba_calculate_crc32h_part (fuel : Nat) (buf : List Nat) (pcrc : Nat) : Option Nat :=
  let crc1 := crc32h_groups buf pcrc
  match crc32h_rest buf with
  | [] => some (crc1 &&& mask32)
  | o :: r => (crc32h_tail fuel (o :: r).length o crc1).map (· &&& mask32)

/-- Fuel-free characterisation of `amba_calculate_crc32h_part`:
defined (via the group loop) exactly on buffers whose length is a
multiple of 4, `none` (divergence) otherwise.  `crc32h_part_eq_result`
proves it equal to the fuelled embedding for every fuel. -/
def crc32h_result (buf : List Nat) (pcrc : Nat) : Option Nat :=
  if buf.length % 4 = 0 then some (crc32h_groups buf pcrc &&& mask32) else none

/-- `amba_calculate_crc32h_part` diverges on `buf` from state `pcrc`:
the embedding returns `none` however much fuel it is given. -/
def crc32h_diverges (buf : List Nat) (pcrc : Nat) : Prop :=
  ∀ fuel, amba_calculate_crc32h_part fuel buf pcrc = none

theorem crc32h_rest_length : ∀ buf : List Nat, (crc32h_rest buf).length = buf.length % 4
  | b0 :: b1 :: b2 :: b3 :: rest => by
      have ih := crc32h_rest_length rest
      simp only [crc32h_rest, ih, List.length_cons]
      omega
  | [] => by simp [crc32h_rest]
  | [a] => by simp [crc32h_rest]
  | [a, b] => by simp [crc32h_rest]
  | [a, b, c] => by simp [crc32h_rest]

theorem crc32h_tail_none (octet lenBuf : Nat) (h : lenBuf ≠ 0) :
    ∀ fuel crc, crc32h_tail fuel lenBuf octet crc = none := by
  intro fuel
  induction fuel with
  | zero => intro crc; rfl
  | succ n ih => intro crc; simp only [crc32h_tail, if_neg h]; exact ih _

theorem crc32h_part_eq_result (fuel : Nat) (buf : List Nat) (pcrc : Nat) :
    amba_calculate_crc32h_part fuel buf pcrc = crc32h_result buf pcrc := by
  unfold amba_calculate_crc32h_part crc32h_result
  cases hrest : crc32h_rest buf with
  | nil =>
      have hlen := crc32h_rest_length buf
      rw [hrest] at hlen
      simp only [List.length_nil] at hlen
      simp [← hlen]
  | cons o r =>
      have hlen := crc32h_rest_length buf
      rw [hrest] at hlen
      simp only [List.length_cons] at hlen
      have h4 : buf.length % 4 ≠ 0 := by omega
      show (crc32h_tail fuel (o :: r).length o (crc32h_groups buf pcrc)).map (· &&& mask32) =
        if buf.length % 4 = 0 then some (crc32h_groups buf pcrc &&& mask32) else none
      rw [crc32h_tail_none o (o :: r).length (by simp)]
      simp [h4]

/-- C3: corrected.  The trailing-byte loop of
`amba_calculate_crc32h_part` never decrements its counter, so on the
one-byte buffer `[0]` with starting state 0 the function never
returns: the embedding yields `none` for every fuel. -/
theorem crc32h_single_byte_diverges : crc32h_diverges [0] 0 := by
  intro fuel
  rw [crc32h_part_eq_result]
  rfl

/-- C3 (amended): `amba_calculate_crc32h_part` is a pure transform
returning a next 32-bit state, consuming the buffer in 4-byte groups
via the four lookup tables, for every buffer whose length is a
multiple of 4; on any other buffer the trailing-byte loop never
advances through the 1-3 trailing bytes and the function does not
terminate. -/
theorem crc32h_part_total_iff (buf : List Nat) (pcrc : Nat) (_hpcrc : pcrc < 2 ^ 32) :
    (buf.length % 4 = 0 →
      ∀ fuel, amba_calculate_crc32h_part fuel buf pcrc =
        some (crc32h_groups buf pcrc &&& mask32)) ∧
    (buf.length % 4 ≠ 0 → crc32h_diverges buf pcrc) := by
  constructor
  · intro h fuel
    rw [crc32h_part_eq_result, crc32h_result, if_pos h]
  · intro h fuel
    rw [crc32h_part_eq_result, crc32h_result, if_neg h]

theorem crc32h_part_total_iff_witness :
    amba_calculate_crc32h_part 1 [1, 2, 3, 4] 0 =
      some (crc32h_groups [1, 2, 3, 4] 0 &&& mask32) :=
  (crc32h_part_total_iff [1, 2, 3, 4] 0 (by decide)).1 (by decide) 1

set_option maxRecDepth 4096 in
/-- Every entry of the four lookup tables fits in 32 bits. -/
theorem tab_entries_lt : ∀ row ∈ crc32_tab, ∀ x ∈ row, x < 2 ^ 32 := by decide

theorem getD_lt_of_all {n d : Nat} {l : List Nat} (hd : d < n) (hl : ∀ x ∈ l, x < n)
    (i : Nat) : l.getD i d < n := by
  rcases Nat.lt_or_ge i l.length with h | h
  · rw [List.getD_eq_getElem l d h]
    exact hl _ (List.getElem_mem h)
  · rw [List.getD_eq_default l d h]
    exact hd

theorem tabGet_lt (t i : Nat) : tabGet t i < 2 ^ 32 := by
  unfold tabGet
  apply getD_lt_of_all (by norm_num)
  intro x hx
  rcases Nat.lt_or_ge t crc32_tab.length with h | h
  · rw [List.getD_eq_getElem crc32_tab [] h] at hx
    exact tab_entries_lt _ (List.getElem_mem h) x hx
  · rw [List.getD_eq_default crc32_tab [] h] at hx
    simp at hx

theorem crc32h_step4_lt (crc b0 b1 b2 b3 : Nat) : crc32h_step4 crc b0 b1 b2 b3 < 2 ^ 32 :=
  Nat.xor_lt_two_pow
    (Nat.xor_lt_two_pow (Nat.xor_lt_two_pow (tabGet_lt _ _) (tabGet_lt _ _)) (tabGet_lt _ _))
    (tabGet_lt _ _)

theorem crc32h_groups_lt : ∀ (buf : List Nat) (s : Nat), s < 2 ^ 32 → crc32h_groups buf s < 2 ^ 32
  | b0 :: b1 :: b2 :: b3 :: rest, s, _ =>
      crc32h_groups_lt rest _ (crc32h_step4_lt s b0 b1 b2 b3)
  | [], _, hs => hs
  | [_], _, hs => hs
  | [_, _], _, hs => hs
  | [_, _, _], _, hs => hs

theorem crc32h_groups_append : ∀ (a : List Nat), a.length % 4 = 0 → ∀ (b : List Nat) (s : Nat),
    crc32h_groups (a ++ b) s = crc32h_groups b (crc32h_groups a s)
  | [], _, b, s => rfl
  | b0 :: b1 :: b2 :: b3 :: rest, h, b, s => by
      simp only [List.length_cons] at h
      simp only [List.cons_append, crc32h_groups]
      exact crc32h_groups_append rest (by omega) b _
  | [_], h, _, _ => by simp at h
  | [_, _], h, _, _ => by simp at h
  | [_, _, _], h, _, _ => by simp at h

/-- One byte of the standard (zlib) CRC-32 fold; `crc32_tab[0]` is the
standard reflected CRC-32 table. -/
def crc32b_byte (crc b : Nat) : Nat := tabGet 0 ((crc ^^^ b) &&& 0xff) ^^^ (crc >>> 8)

/-- Raw table fold of the standard CRC-32 (running state, without the
initial and final complement). -/
def crc32b_raw : List Nat → Nat → Nat
  | [], crc => crc
  | b :: rest, crc => crc32b_raw rest (crc32b_byte crc b)

/-- Modelled from the spec: `amba_calculate_crc32b_part(buf, pcrc)`
returns `zlib.crc32(buf, pcrc) & 0xffffffff`, "a standard crc32b
hashing algorithm, the same as used in ZIP/PNG"; the zlib library
itself is outside the repository.  Standard CRC-32: complement the
incoming value, fold each byte through the reflected-polynomial
table, complement again. -/
def amba_calculate_crc32b_part (buf : List Nat) (pcrc : Nat) : Nat :=
  (crc32b_raw buf ((pcrc &&& mask32) ^^^ mask32) ^^^ mask32) &&& mask32

/-- `amba_calculate_crc32(buf)` from the source: seed 0. -/
def amba_calculate_crc32 (buf : List Nat) : Nat := amba_calculate_crc32b_part buf 0

theorem crc32b_byte_lt (crc b : Nat) (h : crc < 2 ^ 32) : crc32b_byte crc b < 2 ^ 32 := by
  have h2 : crc >>> 8 < 2 ^ 32 := by
    rw [Nat.shiftRight_eq_div_pow]
    exact lt_of_le_of_lt (Nat.div_le_self _ _) h
  exact Nat.xor_lt_two_pow (tabGet_lt _ _) h2

theorem crc32b_raw_lt : ∀ (buf : List Nat) (s : Nat), s < 2 ^ 32 → crc32b_raw buf s < 2 ^ 32
  | [], _, hs => hs
  | b :: rest, s, hs => crc32b_raw_lt rest _ (crc32b_byte_lt s b hs)

theorem crc32b_raw_append (a b : List Nat) (s : Nat) :
    crc32b_raw (a ++ b) s = crc32b_raw b (crc32b_raw a s) := by
  induction a generalizing s with
  | nil => rfl
  | cons x rest ih =>
      simp only [List.cons_append, crc32b_raw]
      exact ih _

theorem and_mask32_of_lt {x : Nat} (h : x < 2 ^ 32) : x &&& mask32 = x := by
  have : mask32 = 2 ^ 32 - 1 := by decide
  rw [this, Nat.and_pow_two_sub_one_eq_mod, Nat.mod_eq_of_lt h]

theorem xor_mask32_lt {x : Nat} (h : x < 2 ^ 32) : x ^^^ mask32 < 2 ^ 32 := by
  have hm : mask32 < 2 ^ 32 := by decide
  exact Nat.xor_lt_two_pow h hm

theorem xor_mask32_xor_mask32 {x : Nat} : x ^^^ mask32 ^^^ mask32 = x := by
  rw [Nat.xor_assoc, Nat.xor_self, Nat.xor_zero]

/-- zlib-style seeding composes: feeding a second buffer with the first
buffer's checksum as seed continues the fold. -/
theorem crc32b_part_append (a b : List Nat) (s : Nat) :
    amba_calculate_crc32b_part b (amba_calculate_crc32b_part a s) =
      amba_calculate_crc32b_part (a ++ b) s := by
  unfold amba_calculate_crc32b_part
  have h0 : (s &&& mask32) ^^^ mask32 < 2 ^ 32 := by
    apply xor_mask32_lt
    have : mask32 = 2 ^ 32 - 1 := by decide
    rw [this, Nat.and_pow_two_sub_one_eq_mod]
    exact Nat.mod_lt _ (by norm_num)
  have hraw : crc32b_raw a ((s &&& mask32) ^^^ mask32) < 2 ^ 32 := crc32b_raw_lt _ _ h0
  have hx : crc32b_raw a ((s &&& mask32) ^^^ mask32) ^^^ mask32 < 2 ^ 32 := xor_mask32_lt hraw
  rw [and_mask32_of_lt hx, and_mask32_of_lt hx, xor_mask32_xor_mask32, crc32b_raw_append]

/-- Little-endian 32-bit serialisation (ctypes `c_uint` field layout). -/
def le32 (v : Nat) : List Nat :=
  [v % 256, v / 256 % 256, v / 65536 % 256, v / 16777216 % 256]

/-- Little-endian 32-bit read from four bytes. -/
def rd32 (b0 b1 b2 b3 : Nat) : Nat := b0 + 256 * b1 + 65536 * b2 + 16777216 * b3

/-- Little-endian 32-bit read at offset `i` of a byte list. -/
def rd32At (l : List Nat) (i : Nat) : Nat :=
  rd32 (l.getD i 0) (l.getD (i + 1) 0) (l.getD (i + 2) 0) (l.getD (i + 3) 0)

/-- `FwModA9Header`: 32-byte model name text plus cumulative checksum. -/
structure FwModA9Header where
  model_name : List Nat
  crc32 : Nat
deriving DecidableEq, Repr

/-- `FwModEntry`: one partition size-table entry. -/
structure FwModEntry where
  dt_len : Nat
  crc32 : Nat
deriving DecidableEq, Repr

/-- `FwModPartHeader`: the 256-byte per-partition header. -/
structure FwModPartHeader where
  crc32 : Nat
  version : Nat
  build_date : Nat
  dt_len : Nat
  mem_addr : Nat
  flag1 : Nat
  magic : Nat
  flag2 : Nat
  padding : List Nat
deriving DecidableEq, Repr

/-- `FwModPartHeader.version_major`. -/
def version_major (version : Nat) : Nat := (version >>> 16) &&& 65535

/-- `FwModPartHeader.version_minor`. -/
def version_minor (version : Nat) : Nat := version &&& 65535

/-- `FwModPartHeader.build_date_year`. -/
def build_date_year (d : Nat) : Nat := (d >>> 16) &&& 65535

/-- `FwModPartHeader.build_date_month`. -/
def build_date_month (d : Nat) : Nat := (d >>> 8) &&& 255

/-- `FwModPartHeader.build_date_day`. -/
def build_date_day (d : Nat) : Nat := d &&& 255

/-- Contents of a partition sidecar metadata file (`…_part_X.a9h`) as a
record of the fields `ini_export` writes and `amba_read_part_head`
reads back; the textual encoding itself is external to the core. -/
structure PartHeadFile where
  mem_addr : Nat
  flag1 : Nat
  flag2 : Nat
  version_major : Nat
  version_minor : Nat
  date_year : Nat
  date_month : Nat
  date_day : Nat
  added_part : String
deriving DecidableEq, Repr

/-- `amba_read_part_head`: build a `FwModPartHeader` from a sidecar
record.  `magic` is forced, `crc32`/`dt_len`/`padding` stay zero, the
version minor component is reduced `% 0xffff` and the other packed
components are masked. -/
def amba_read_part_head (f : PartHeadFile) : FwModPartHeader × String :=
  ({ crc32 := 0
     version := ((f.version_major &&& 0xffff) <<< 16) + f.version_minor % 0xffff
     build_date := ((f.date_year &&& 0xffff) <<< 16) + ((f.date_month &&& 0xff) <<< 8) +
       (f.date_day &&& 0xff)
     dt_len := 0
     mem_addr := f.mem_addr
     flag1 := f.flag1
     magic := 0xA324EB90
     flag2 := f.flag2
     padding := List.replicate 56 0 }, f.added_part)

/-- The sidecar record written for a partition header by
`amba_extract_part_head` (via `ini_export`), completed by the
`added_part` line appended later in `amba_extract`. -/
def exportPartHead (e : FwModPartHeader) (added : String) : PartHeadFile :=
  { mem_addr := e.mem_addr, flag1 := e.flag1, flag2 := e.flag2,
    version_major := version_major e.version, version_minor := version_minor e.version,
    date_year := build_date_year e.build_date, date_month := build_date_month e.build_date,
    date_day := build_date_day e.build_date, added_part := added }

theorem version_minor_eq_mod (v : Nat) : version_minor v = v % 2 ^ 16 := by
  unfold version_minor
  rw [show (65535 : Nat) = 2 ^ 16 - 1 by norm_num, Nat.and_pow_two_sub_one_eq_mod]

theorem version_major_eq_shift (v : Nat) (hv : v < 2 ^ 32) : version_major v = v >>> 16 := by
  unfold version_major
  rw [show (65535 : Nat) = 2 ^ 16 - 1 by norm_num, Nat.and_pow_two_sub_one_eq_mod]
  apply Nat.mod_eq_of_lt
  rw [Nat.shiftRight_eq_div_pow]
  omega

/-- C10: confirmed.  Exporting a partition header's version as its
(major, minor) components and reading them back through
`amba_read_part_head` reproduces the packed version word exactly when
the minor component is below 65535; when the minor component equals
65535 the re-read minor becomes 0 (the reader reduces it modulo
`0xffff` instead of masking to 16 bits), leaving only the major
component. -/
theorem version_sidecar_roundtrip (e : FwModPartHeader) (f : PartHeadFile)
    (hv : e.version < 2 ^ 32)
    (hmaj : f.version_major = version_major e.version)
    (hmin : f.version_minor = version_minor e.version) :
    (version_minor e.version < 65535 →
      (amba_read_part_head f).1.version = e.version) ∧
    (version_minor e.version = 65535 →
      (amba_read_part_head f).1.version = (e.version >>> 16) <<< 16) := by
  have hmajv := version_major_eq_shift e.version hv
  have hminv := version_minor_eq_mod e.version
  have hmaj32 : version_major e.version &&& 0xffff = version_major e.version := by
    rw [show (0xffff : Nat) = 2 ^ 16 - 1 by norm_num, Nat.and_pow_two_sub_one_eq_mod]
    apply Nat.mod_eq_of_lt
    rw [hmajv, Nat.shiftRight_eq_div_pow]
    omega
  constructor
  · intro hlt
    show (f.version_major &&& 0xffff) <<< 16 + f.version_minor % 0xffff = e.version
    rw [hmaj, hmin, hmaj32, hmajv, hminv, Nat.shiftLeft_eq, Nat.shiftRight_eq_div_pow,
      Nat.mod_eq_of_lt (by rw [hminv] at hlt; omega)]
    omega
  · intro heq
    show (f.version_major &&& 0xffff) <<< 16 + f.version_minor % 0xffff = (e.version >>> 16) <<< 16
    rw [hmaj, hmin, hmaj32, hmajv, heq]
    norm_num

/-- Concrete partition header (version "3.7") for the C10 witness. -/
def versionWitnessHdr : FwModPartHeader :=
  { crc32 := 0, version := 0x30007, build_date := 0, dt_len := 0, mem_addr := 0,
    flag1 := 0, magic := 0, flag2 := 0, padding := [] }

theorem version_sidecar_roundtrip_witness :
    (amba_read_part_head (exportPartHead versionWitnessHdr "")).1.version = 0x30007 :=
  (version_sidecar_roundtrip versionWitnessHdr (exportPartHead versionWitnessHdr "")
    (by decide) rfl rfl).1 (by decide)

/-- `part_entry_type_id` (specific to the Yi 4k). -/
def part_entry_type_id : List String :=
  ["bst", "bld", "fw_up", "", "lrtos", "dsp", "romfs", "lnx", "rfs"]

/-- `amba_a9_part_entry_type_id(i)`: positional type tag; an index past
the known table renders as a zero-padded decimal. -/
def amba_a9_part_entry_type_id (i : Nat) : String :=
  if i ≥ part_entry_type_id.length then
    (if i < 10 then "0" ++ toString i else toString i)
  else part_entry_type_id.getD i ""

/-- `FwModEntry` parsed from the first 8 bytes of a stream. -/
def parseEntry (l : List Nat) : FwModEntry := ⟨rd32At l 0, rd32At l 4⟩

/-- `FwModEntry` serialised to its 8-byte layout. -/
def serEntry (e : FwModEntry) : List Nat := le32 e.dt_len ++ le32 e.crc32

/-- The end-of-table test of the boundary detector:
`(dt_len & 0x3ff) == 0 and (crc32 & 0x3ff) == 0 and crc32 != 0`. -/
def entryStopPattern (e : FwModEntry) : Bool :=
  (e.dt_len &&& 0x3ff == 0) && (e.crc32 &&& 0x3ff == 0) && (e.crc32 != 0)

/-- How the boundary-detector scan stopped. -/
inductive DetectStop
  | stopPattern
  | overSize
deriving DecidableEq, Repr

/-- Outcome of the boundary-detector scan. -/
inductive DetectResult
  | ok (entries : List FwModEntry) (names : List String) (stop : DetectStop) (rest : List Nat)
  | eofError
  | capError
deriving DecidableEq, Repr

/-- The entry-detection loop of `amba_extract`, structural on `left`,
the number of entry reads still permitted: a call with
`left = 129 - i` performs the reads the original performs before its
`i += 1; if (i > 128): raise` cap fires.  `bytes` is the stream from
the current position; on a stop the just-read entry is not consumed
(the original seeks back by one entry size). -/
def detect_entries : Nat → Nat → Nat → List Nat → List FwModEntry → List String → DetectResult
  | 0, _, _, _, _, _ => .capError
  | left + 1, fileLen, i, bytes, entries, names =>
    if bytes.length < 8 then .eofError
    else
      let hde := parseEntry bytes
      if entryStopPattern hde then .ok entries names .stopPattern bytes
      else if 36 + i * 8 + hde.dt_len ≥ fileLen then .ok entries names .overSize bytes
      else
        detect_entries left fileLen (i + 1) (bytes.drop 8) (entries ++ [hde])
          (if hde.dt_len > 0 then names ++ [amba_a9_part_entry_type_id i] else names)

/-- Boundary detection as `amba_extract` runs it, on the stream
starting right after the 36-byte main header. -/
def amba_detect (fileLen : Nat) (bytes : List Nat) : DetectResult :=
  detect_entries 129 fileLen 0 bytes [] []

/-- The type names the detector records: one tag per entry with
`dt_len > 0`, positional, starting at index `i`. -/
def detectNamesFrom : Nat → List FwModEntry → List String
  | _, [] => []
  | i, e :: rest =>
      (if e.dt_len > 0 then [amba_a9_part_entry_type_id i] else []) ++
        detectNamesFrom (i + 1) rest

theorem le32_length (v : Nat) : (le32 v).length = 4 := rfl

theorem serEntry_length (e : FwModEntry) : (serEntry e).length = 8 := rfl

theorem rd32At_le32 (a : Nat) (ha : a < 2 ^ 32) (t : List Nat) : rd32At (le32 a ++ t) 0 = a := by
  show rd32 ((le32 a ++ t).getD 0 0) ((le32 a ++ t).getD 1 0) ((le32 a ++ t).getD 2 0)
    ((le32 a ++ t).getD 3 0) = a
  simp only [le32, List.cons_append, List.nil_append, List.getD_cons_zero, List.getD_cons_succ]
  unfold rd32
  omega

theorem rd32At_cons4 (x0 x1 x2 x3 : Nat) (t : List Nat) (i : Nat) :
    rd32At (x0 :: x1 :: x2 :: x3 :: t) (i + 4) = rd32At t i := by
  unfold rd32At
  simp only [show ∀ k, i + 4 + k = (i + k) + 4 by omega]
  simp only [List.getD_cons_succ]

theorem parseEntry_ser (e : FwModEntry) (t : List Nat)
    (h1 : e.dt_len < 2 ^ 32) (h2 : e.crc32 < 2 ^ 32) :
    parseEntry (serEntry e ++ t) = e := by
  cases e with
  | mk dt crc =>
    unfold parseEntry serEntry
    simp only at h1 h2 ⊢
    congr 1
    · exact rd32At_le32 dt h1 _
    · show rd32At (le32 dt ++ le32 crc ++ t) (0 + 4) = crc
      rw [List.append_assoc]
      show rd32At ((dt % 256) :: (dt / 256 % 256) :: (dt / 65536 % 256) ::
        (dt / 16777216 % 256) :: (le32 crc ++ t)) (0 + 4) = crc
      rw [rd32At_cons4]
      exact rd32At_le32 crc h2 _

theorem detect_entries_run (fileLen : Nat) : ∀ (es : List FwModEntry) (i left : Nat)
    (acc : List FwModEntry) (names : List String) (estop : FwModEntry) (rest : List Nat),
    (∀ e ∈ es, e.dt_len < 2 ^ 32 ∧ e.crc32 < 2 ^ 32) →
    estop.dt_len < 2 ^ 32 → estop.crc32 < 2 ^ 32 →
    (∀ j (hj : j < es.length),
      entryStopPattern es[j] = false ∧ 36 + (i + j) * 8 + es[j].dt_len < fileLen) →
    entryStopPattern estop = true →
    es.length < left →
    detect_entries left fileLen i ((es.map serEntry).flatten ++ (serEntry estop ++ rest))
        acc names =
      .ok (acc ++ es) (names ++ detectNamesFrom i es) .stopPattern (serEntry estop ++ rest)
  | [], i, left, acc, names, estop, rest => by
      intro _hin hs1 hs2 _hno hstop hleft
      match left, hleft with
      | l + 1, _ =>
        simp only [List.map_nil, List.flatten_nil, List.nil_append, detect_entries]
        rw [if_neg (by simp [serEntry_length])]
        simp only [parseEntry_ser estop rest hs1 hs2]
        rw [if_pos hstop]
        simp [detectNamesFrom]
  | e :: es2, i, left, acc, names, estop, rest => by
      intro hin hs1 hs2 hno hstop hleft
      match left, hleft with
      | l + 1, hl2 =>
        have hbytes : ((e :: es2).map serEntry).flatten ++ (serEntry estop ++ rest) =
            serEntry e ++ ((es2.map serEntry).flatten ++ (serEntry estop ++ rest)) := by
          simp [List.append_assoc]
        rw [hbytes]
        have he := hin e (by simp)
        have h0 := hno 0 (by simp)
        simp only [List.getElem_cons_zero, Nat.add_zero] at h0
        simp only [detect_entries]
        rw [if_neg (by simp [serEntry_length])]
        simp only [parseEntry_ser e _ he.1 he.2]
        rw [if_neg (by simp [h0.1]), if_neg (by omega),
          show (serEntry e ++ ((es2.map serEntry).flatten ++ (serEntry estop ++ rest))).drop 8 =
            (es2.map serEntry).flatten ++ (serEntry estop ++ rest) from
            serEntry_length e ▸ List.drop_left _ _]
        rw [detect_entries_run fileLen es2 (i + 1) l (acc ++ [e])
          (if e.dt_len > 0 then names ++ [amba_a9_part_entry_type_id i] else names) estop rest
          (fun x hx => hin x (by simp [hx])) hs1 hs2
          (fun j hj => by
            have := hno (j + 1) (by simpa using Nat.succ_lt_succ hj)
            simpa [show i + (j + 1) = i + 1 + j by omega] using this)
          hstop (by simpa using Nat.lt_of_succ_lt_succ hl2)]
        congr 1
        · simp
        · show (if e.dt_len > 0 then names ++ [amba_a9_part_entry_type_id i] else names) ++
              detectNamesFrom (i + 1) es2 = names ++ detectNamesFrom i (e :: es2)
          by_cases hdt : e.dt_len > 0 <;> simp [detectNamesFrom, hdt]

/-- C5: confirmed.  When the first stop-pattern entry appears at
position `es.length ≤ 128` and no earlier entry fires either stop
condition, the boundary detector retains exactly the entries read
before it — every earlier entry is appended, including zero-length
ones, which contribute no type name — and the stopping entry is not
consumed: the returned stream still begins with its 8 bytes. -/
theorem detector_retains_prefix (fileLen : Nat) (es : List FwModEntry)
    (estop : FwModEntry) (rest : List Nat)
    (hin : ∀ e ∈ es, e.dt_len < 2 ^ 32 ∧ e.crc32 < 2 ^ 32)
    (hs1 : estop.dt_len < 2 ^ 32) (hs2 : estop.crc32 < 2 ^ 32)
    (hno : ∀ j (hj : j < es.length),
      entryStopPattern es[j] = false ∧ 36 + j * 8 + es[j].dt_len < fileLen)
    (hstop : entryStopPattern estop = true)
    (hcap : es.length ≤ 128) :
    amba_detect fileLen ((es.map serEntry).flatten ++ (serEntry estop ++ rest)) =
      .ok es (detectNamesFrom 0 es) .stopPattern (serEntry estop ++ rest) := by
  have h := detect_entries_run fileLen es 0 129 [] [] estop rest hin hs1 hs2
    (by simpa using hno) hstop (by omega)
  simpa [amba_detect] using h

theorem detector_retains_prefix_witness :
    amba_detect 1000
        (([⟨16, 5⟩, ⟨0, 7⟩].map serEntry).flatten ++ (serEntry ⟨1024, 2048⟩ ++ [])) =
      .ok [⟨16, 5⟩, ⟨0, 7⟩] (detectNamesFrom 0 [⟨16, 5⟩, ⟨0, 7⟩]) .stopPattern
        (serEntry ⟨1024, 2048⟩ ++ []) :=
  detector_retains_prefix 1000 [⟨16, 5⟩, ⟨0, 7⟩] ⟨1024, 2048⟩ []
    (by decide) (by decide) (by decide) (by decide) (by decide) (by decide)

theorem detect_entries_ok_length : ∀ (left fileLen i : Nat) (bytes : List Nat)
    (acc : List FwModEntry) (names ns : List String) (es : List FwModEntry)
    (stop : DetectStop) (rest : List Nat),
    detect_entries left fileLen i bytes acc names = .ok es ns stop rest →
    es.length ≤ acc.length + left - 1
  | 0, _, _, _, _, _, _, _, _, _ => by intro h; exact absurd h (by simp [detect_entries])
  | left + 1, fileLen, i, bytes, acc, names, ns, es, stop, rest => by
      intro h
      simp only [detect_entries] at h
      by_cases h8 : bytes.length < 8
      · rw [if_pos h8] at h; exact absurd h (by simp)
      · rw [if_neg h8] at h
        by_cases hp : entryStopPattern (parseEntry bytes) = true
        · rw [if_pos hp] at h
          injection h with h1 h2 h3 h4
          subst h1
          omega
        · rw [if_neg hp] at h
          by_cases hsz : 36 + i * 8 + (parseEntry bytes).dt_len ≥ fileLen
          · rw [if_pos hsz] at h
            injection h with h1 h2 h3 h4
            subst h1
            omega
          · rw [if_neg hsz] at h
            have := detect_entries_ok_length left fileLen (i + 1) (bytes.drop 8)
              (acc ++ [parseEntry bytes]) _ ns es stop rest h
            simp only [List.length_append, List.length_cons, List.length_nil] at this
            omega

/-- Every one of the first `n` 8-byte records of `bytes` is readable
and fires neither detector stop condition, scanning from entry index
`i`. -/
def noStopWithin : Nat → Nat → Nat → List Nat → Bool
  | 0, _, _, _ => true
  | n + 1, fileLen, i, bytes =>
      decide (8 ≤ bytes.length) &&
      !entryStopPattern (parseEntry bytes) &&
      decide (36 + i * 8 + (parseEntry bytes).dt_len < fileLen) &&
      noStopWithin n fileLen (i + 1) (bytes.drop 8)

theorem detect_entries_cap : ∀ (left fileLen i : Nat) (bytes : List Nat)
    (acc : List FwModEntry) (names : List String),
    noStopWithin left fileLen i bytes = true →
    detect_entries left fileLen i bytes acc names = .capError
  | 0, _, _, _, _, _ => by intro _; rfl
  | left + 1, fileLen, i, bytes, acc, names => by
      intro h
      simp only [noStopWithin, Bool.and_eq_true, decide_eq_true_eq, Bool.not_eq_true'] at h
      obtain ⟨⟨⟨h8, hp⟩, hsz⟩, hrec⟩ := h
      simp only [detect_entries]
      rw [if_neg (by omega), if_neg (by simp [hp]), if_neg (by omega)]
      exact detect_entries_cap left fileLen (i + 1) (bytes.drop 8) _ _ hrec

/-- C6 (amended): the boundary-detector scan performs at most 129
entry reads: if neither stop condition fires within the first 129
entries read, it raises the fatal format error; and the detected
table never contains more than 128 entries (a stop condition may
legitimately fire on the 129th entry read, retaining 128 entries). -/
theorem detector_cap (fileLen : Nat) (bytes : List Nat) :
    (∀ es ns stop rest, amba_detect fileLen bytes = .ok es ns stop rest →
      es.length ≤ 128) ∧
    (noStopWithin 129 fileLen 0 bytes = true →
      amba_detect fileLen bytes = .capError) := by
  constructor
  · intro es ns stop rest h
    have := detect_entries_ok_length 129 fileLen 0 bytes [] [] ns es stop rest h
    simpa using this
  · intro h
    exact detect_entries_cap 129 fileLen 0 bytes [] [] h

/-- Stream of 129 entry records none of which fires a stop condition. -/
def capBytes : List Nat := (List.replicate 129 (serEntry ⟨16, 0⟩)).flatten

/-- Stream whose first 128 entry records fire no stop condition while
its 129th record carries the stop pattern. -/
def capEdgeBytes : List Nat :=
  (List.replicate 128 (serEntry ⟨16, 0⟩)).flatten ++ serEntry ⟨1024, 1024⟩

set_option maxRecDepth 40000 in
theorem detector_cap_witness : amba_detect 1000000 capBytes = .capError :=
  (detector_cap 1000000 capBytes).2 (by decide)

set_option maxRecDepth 40000 in
/-- C6: counterexample to the claim as stated.  In this stream neither
stop condition fires within the first 128 entries, yet the detector
does not raise a fatal error: it reads a 129th entry, finds the stop
pattern there, and succeeds, retaining 128 entries. -/
theorem detector_cap_counterexample :
    noStopWithin 128 1000000 0 capEdgeBytes = true ∧
      amba_detect 1000000 capEdgeBytes =
        .ok (List.replicate 128 ⟨16, 0⟩) (detectNamesFrom 0 (List.replicate 128 ⟨16, 0⟩))
          .stopPattern (serEntry ⟨1024, 1024⟩) := by
  constructor
  · decide
  · decide

theorem crc32h_result_append_aligned (a b : List Nat) (s : Nat) (ha : a.length % 4 = 0)
    (hs : s < 2 ^ 32) :
    crc32h_result (a ++ b) s = (crc32h_result a s).bind (fun v => crc32h_result b v) := by
  unfold crc32h_result
  rw [if_pos ha]
  have hg : crc32h_groups a s < 2 ^ 32 := crc32h_groups_lt a s hs
  simp only [Option.some_bind]
  rw [and_mask32_of_lt hg]
  have hlen : (a ++ b).length % 4 = b.length % 4 := by
    rw [List.length_append]
    omega
  by_cases hb : b.length % 4 = 0
  · rw [if_pos (by omega : (a ++ b).length % 4 = 0), if_pos hb,
      crc32h_groups_append a ha b s]
  · rw [if_neg (by omega : ¬(a ++ b).length % 4 = 0), if_neg hb]

/-- Result `crc32h_result` yields on the empty buffer from an in-range state. -/
theorem crc32h_result_nil (st : Nat) (h : st < 2 ^ 32) : crc32h_result [] st = some st := by
  show some (crc32h_groups [] st &&& mask32) = some st
  rw [show crc32h_groups [] st = st from rfl, and_mask32_of_lt h]

theorem crc32h_result_some_lt {buf : List Nat} {st v : Nat}
    (h : crc32h_result buf st = some v) : v < 2 ^ 32 := by
  unfold crc32h_result at h
  by_cases h4 : buf.length % 4 = 0
  · rw [if_pos h4] at h
    injection h with h1
    have hle := Nat.and_le_right (n := crc32h_groups buf st) (m := mask32)
    have : mask32 < 2 ^ 32 := by decide
    omega
  · rw [if_neg h4] at h
    exact absurd h (by simp)

/-- The payload streaming loop of `amba_extract`: reads
`min(1024*1024, dt_len - n)`-byte chunks from the input, writing each
chunk to the partition artifact while updating the per-partition
standard checksum `ptcrc` and the cumulative state `hdcrc`; an empty
read breaks the loop.  Result: (artifact bytes, ptcrc, hdcrc); `none`
models divergence of the cumulative fold inside a chunk (or exhausted
fuel, which `extract_part_data_spec` rules out). -/
def extract_part_data : Nat → List Nat → Nat → Nat → Nat → Option (List Nat × Nat × Nat)
  | 0, _, _, _, _ => none
  | fuel + 1, data, rem, ptcrc, hdcrc =>
    if rem = 0 then some ([], ptcrc, hdcrc)
    else
      let chunk := data.take (min 1048576 rem)
      if chunk.length = 0 then some ([], ptcrc, hdcrc)
      else
        (crc32h_result chunk hdcrc).bind fun hdcrc2 =>
          (extract_part_data fuel (data.drop chunk.length) (rem - chunk.length)
            (amba_calculate_crc32b_part chunk ptcrc) hdcrc2).map
            fun r => (chunk ++ r.1, r.2.1, r.2.2)

/-- The per-partition fold of `amba_create`'s second (checksum) pass:
reads `min(1024*1024, e.dt_len - n)`-byte chunks of the payload
artifact, folding each into the cumulative state; an empty read
breaks the loop. -/
def create_part_crc : Nat → List Nat → Nat → Nat → Option Nat
  | 0, _, _, _ => none
  | fuel + 1, data, rem, hdcrc =>
    if rem = 0 then some hdcrc
    else
      let chunk := data.take (min 1048576 rem)
      if chunk.length = 0 then some hdcrc
      else
        (crc32h_result chunk hdcrc).bind fun hdcrc2 =>
          create_part_crc fuel (data.drop chunk.length) (rem - chunk.length) hdcrc2

theorem create_part_crc_spec : ∀ (fuel : Nat) (data : List Nat) (rem st : Nat),
    rem < fuel → st < 2 ^ 32 →
    create_part_crc fuel data rem st = crc32h_result (data.take rem) st
  | 0, _, _, _ => by omega
  | fuel + 1, data, rem, st => by
    intro hfuel hst
    simp only [create_part_crc]
    by_cases h0 : rem = 0
    · rw [if_pos h0, h0, List.take_zero, crc32h_result_nil st hst]
    · rw [if_neg h0]
      set chunk := data.take (min 1048576 rem) with hchunk
      have hclen : chunk.length = min (min 1048576 rem) data.length := by
        rw [hchunk, List.length_take]
      have hc_le_m : chunk.length ≤ min 1048576 rem := by omega
      have hc_le_rem : chunk.length ≤ rem := le_trans hc_le_m (Nat.min_le_right _ _)
      have h1 : data.take chunk.length = chunk := by
        have h2 := List.take_take chunk.length (min 1048576 rem) (l := data)
        rw [Nat.min_eq_left hc_le_m] at h2
        rw [← h2, hchunk, List.take_length]
      have hsplit : data.take rem =
          chunk ++ (data.drop chunk.length).take (rem - chunk.length) := by
        have hr : rem = chunk.length + (rem - chunk.length) := by omega
        conv_lhs => rw [hr]
        rw [List.take_add, h1]
      by_cases hd0 : chunk.length = 0
      · rw [if_pos hd0]
        have hdata : data = [] := by
          rcases hdata2 : data with _ | ⟨x, xs⟩
          · rfl
          · exfalso
            rw [hclen, hdata2] at hd0
            simp at hd0
            omega
        subst hdata
        rw [List.take_nil, crc32h_result_nil st hst]
      · rw [if_neg hd0]
        by_cases hc4 : chunk.length % 4 = 0
        · have hcr : crc32h_result chunk st = some (crc32h_groups chunk st &&& mask32) := by
            rw [crc32h_result, if_pos hc4]
          rw [hcr]
          simp only [Option.some_bind]
          have hv : crc32h_groups chunk st &&& mask32 < 2 ^ 32 := by
            have hle := Nat.and_le_right (n := crc32h_groups chunk st) (m := mask32)
            have : mask32 < 2 ^ 32 := by decide
            omega
          rw [create_part_crc_spec fuel (data.drop chunk.length) (rem - chunk.length)
            (crc32h_groups chunk st &&& mask32) (by omega) hv]
          rw [hsplit, crc32h_result_append_aligned chunk _ st hc4 hst, hcr]
          rfl
        · have hcr : crc32h_result chunk st = none := by
            rw [crc32h_result, if_neg hc4]
          rw [hcr]
          simp only [Option.none_bind]
          have hrest : (data.drop chunk.length).take (rem - chunk.length) = [] := by
            rcases Nat.le_total data.length (min 1048576 rem) with hle | hle
            · have hcd : chunk.length = data.length := by omega
              rw [hcd, List.drop_length, List.take_nil]
            · have hcm : chunk.length = min 1048576 rem := by omega
              rcases Nat.le_total 1048576 rem with h6 | h6
              · exfalso
                rw [Nat.min_eq_left h6] at hcm
                omega
              · rw [Nat.min_eq_right h6] at hcm
                rw [show rem - chunk.length = 0 by omega, List.take_zero]
          rw [hsplit, hrest, List.append_nil, crc32h_result, if_neg hc4]

theorem crc32b_part_lt (buf : List Nat) (p : Nat) : amba_calculate_crc32b_part buf p < 2 ^ 32 := by
  unfold amba_calculate_crc32b_part
  have hle := Nat.and_le_right
    (n := crc32b_raw buf ((p &&& mask32) ^^^ mask32) ^^^ mask32) (m := mask32)
  have : mask32 < 2 ^ 32 := by decide
  omega

theorem crc32b_part_nil (p : Nat) (hp : p < 2 ^ 32) : amba_calculate_crc32b_part [] p = p := by
  show (((p &&& mask32) ^^^ mask32) ^^^ mask32) &&& mask32 = p
  rw [xor_mask32_xor_mask32, and_mask32_of_lt hp, and_mask32_of_lt hp]

theorem extract_part_data_spec : ∀ (fuel : Nat) (data : List Nat) (rem ptcrc st : Nat),
    rem < fuel → ptcrc < 2 ^ 32 → st < 2 ^ 32 →
    extract_part_data fuel data rem ptcrc st =
      (crc32h_result (data.take rem) st).map
        (fun v => (data.take rem, amba_calculate_crc32b_part (data.take rem) ptcrc, v))
  | 0, _, _, _, _ => by omega
  | fuel + 1, data, rem, ptcrc, st => by
    intro hfuel hpt hst
    simp only [extract_part_data]
    by_cases h0 : rem = 0
    · rw [if_pos h0, h0, List.take_zero, crc32h_result_nil st hst]
      simp [crc32b_part_nil ptcrc hpt]
    · rw [if_neg h0]
      set chunk := data.take (min 1048576 rem) with hchunk
      have hclen : chunk.length = min (min 1048576 rem) data.length := by
        rw [hchunk, List.length_take]
      have hc_le_m : chunk.length ≤ min 1048576 rem := by omega
      have hc_le_rem : chunk.length ≤ rem := le_trans hc_le_m (Nat.min_le_right _ _)
      have h1 : data.take chunk.length = chunk := by
        have h2 := List.take_take chunk.length (min 1048576 rem) (l := data)
        rw [Nat.min_eq_left hc_le_m] at h2
        rw [← h2, hchunk, List.take_length]
      have hsplit : data.take rem =
          chunk ++ (data.drop chunk.length).take (rem - chunk.length) := by
        have hr : rem = chunk.length + (rem - chunk.length) := by omega
        conv_lhs => rw [hr]
        rw [List.take_add, h1]
      by_cases hd0 : chunk.length = 0
      · rw [if_pos hd0]
        have hdata : data = [] := by
          rcases hdata2 : data with _ | ⟨x, xs⟩
          · rfl
          · exfalso
            rw [hclen, hdata2] at hd0
            simp at hd0
            omega
        subst hdata
        rw [List.take_nil, crc32h_result_nil st hst]
        simp [crc32b_part_nil ptcrc hpt]
      · rw [if_neg hd0]
        by_cases hc4 : chunk.length % 4 = 0
        · have hcr : crc32h_result chunk st = some (crc32h_groups chunk st &&& mask32) := by
            rw [crc32h_result, if_pos hc4]
          rw [hcr]
          simp only [Option.some_bind]
          have hv : crc32h_groups chunk st &&& mask32 < 2 ^ 32 := by
            have hle := Nat.and_le_right (n := crc32h_groups chunk st) (m := mask32)
            have : mask32 < 2 ^ 32 := by decide
            omega
          rw [extract_part_data_spec fuel (data.drop chunk.length) (rem - chunk.length)
            (amba_calculate_crc32b_part chunk ptcrc) (crc32h_groups chunk st &&& mask32)
            (by omega) (crc32b_part_lt _ _) hv]
          rw [hsplit, crc32h_result_append_aligned chunk _ st hc4 hst, hcr]
          simp only [Option.some_bind]
          cases hrr : crc32h_result ((data.drop chunk.length).take (rem - chunk.length))
              (crc32h_groups chunk st &&& mask32) with
          | none => rfl
          | some w =>
              simp only [Option.map_some']
              rw [crc32b_part_append]
        · have hcr : crc32h_result chunk st = none := by
            rw [crc32h_result, if_neg hc4]
          rw [hcr]
          simp only [Option.none_bind]
          have hrest : (data.drop chunk.length).take (rem - chunk.length) = [] := by
            rcases Nat.le_total data.length (min 1048576 rem) with hle | hle
            · have hcd : chunk.length = data.length := by omega
              rw [hcd, List.drop_length, List.take_nil]
            · have hcm : chunk.length = min 1048576 rem := by omega
              rcases Nat.le_total 1048576 rem with h6 | h6
              · exfalso
                rw [Nat.min_eq_left h6] at hcm
                omega
              · rw [Nat.min_eq_right h6] at hcm
                rw [show rem - chunk.length = 0 by omega, List.take_zero]
          rw [hsplit, hrest, List.append_nil, crc32h_result, if_neg hc4]
          rfl

theorem extract_part_data_crc : ∀ (fuel : Nat) (data : List Nat) (rem ptcrc hdcrc : Nat),
    (extract_part_data fuel data rem ptcrc hdcrc).map (fun r => r.2.2) =
      create_part_crc fuel data rem hdcrc
  | 0, _, _, _, _ => rfl
  | fuel + 1, data, rem, ptcrc, hdcrc => by
    simp only [extract_part_data, create_part_crc]
    by_cases h0 : rem = 0
    · rw [if_pos h0, if_pos h0, Option.map_some']
    · rw [if_neg h0, if_neg h0]
      by_cases hd0 : (data.take (min 1048576 rem)).length = 0
      · rw [if_pos hd0, if_pos hd0, Option.map_some']
      · rw [if_neg hd0, if_neg hd0]
        cases hcr : crc32h_result (data.take (min 1048576 rem)) hdcrc with
        | none => simp
        | some v =>
            simp only [Option.some_bind, Option.map_map]
            have hfun : ((fun r : List Nat × Nat × Nat => r.2.2) ∘
                fun r : List Nat × Nat × Nat =>
                  (data.take (min 1048576 rem) ++ r.1, r.2.1, r.2.2)) =
                fun r : List Nat × Nat × Nat => r.2.2 := rfl
            rw [hfun]
            exact extract_part_data_crc fuel _ _ _ v

set_option linter.unusedVariables false in
/-- Cumulative-state evolution over one partition during extraction:
the 256 raw header bytes are folded, then the primary payload of
`dtLen` bytes through the streaming loop; the sub-payload `sub` that
`amba_extract` copies out afterwards (when the size-table entry length
exceeds header size plus `dt_len`) is never folded and does not
influence the state. -/
def extract_entry_cumulative (hdrBytes payload sub : List Nat) (dtLen hdcrc : Nat) :
    Option Nat :=
  (crc32h_result hdrBytes hdcrc).bind fun st =>
    (extract_part_data (dtLen + 1) payload dtLen 0 st).map fun r => r.2.2

/-- Cumulative-state evolution over one partition during
construction's second pass: the stored header bytes, then `dt_len`
bytes of the payload artifact through the same chunking. -/
def create_entry_cumulative (hdrBytes payload : List Nat) (dtLen hdcrc : Nat) : Option Nat :=
  (crc32h_result hdrBytes hdcrc).bind fun st =>
    create_part_crc (dtLen + 1) payload dtLen st

/-- C9: confirmed.  Extraction folds the running cumulative state over
a partition's header bytes and its `dt_len` primary-payload bytes
only; any sub-payload is copied out without being folded.
Construction's second pass folds exactly the same bytes with the same
chunking, so for identical content both directions compute identical
per-entry cumulative values, whatever the sub-payload is. -/
theorem entry_cumulative_extract_eq_create (hdrBytes payload sub : List Nat)
    (dtLen hdcrc : Nat) :
    extract_entry_cumulative hdrBytes payload sub dtLen hdcrc =
      create_entry_cumulative hdrBytes payload dtLen hdcrc := by
  unfold extract_entry_cumulative create_entry_cumulative
  cases crc32h_result hdrBytes hdcrc with
  | none => rfl
  | some st =>
      simp only [Option.some_bind]
      exact extract_part_data_crc (dtLen + 1) payload dtLen 0 st
/-- The fixed 192-byte post-header block constant (`post_head_data`). -/
def post_head_data : List Nat := [
0x1C, 0xCA, 0x00, 0x10, 0x01, 0x00, 0x00, 0x00, 0x00, 0x10, 0x00, 0x00,
          0x28, 0xCA, 0x00, 0x10, 0x01, 0x00, 0x00, 0x00, 0x00, 0x00, 0x04, 0x00,
          0x34, 0xCA, 0x00, 0x10, 0x01, 0x00, 0x00, 0x00, 0x00, 0x00, 0x10, 0x00,
          0x80, 0xC9, 0x00, 0x10, 0x00, 0x00, 0x00, 0x00, 0x00, 0x10, 0x00, 0x00,
          0x8C, 0xC9, 0x00, 0x10, 0x09, 0x00, 0x00, 0x00, 0x00, 0x00, 0x00, 0x02,
          0x94, 0xC9, 0x00, 0x10, 0x01, 0x00, 0x00, 0x00, 0x00, 0x00, 0x50, 0x00,
          0xA0, 0xC9, 0x00, 0x10, 0x01, 0x00, 0x00, 0x00, 0x00, 0x00, 0x40, 0x01,
          0xAC, 0xC9, 0x00, 0x10, 0x09, 0x00, 0x00, 0x00, 0x00, 0x00, 0xA0, 0x00,
          0xBC, 0xC9, 0x00, 0x10, 0x00, 0x00, 0x00, 0x00, 0x00, 0x00, 0xC0, 0x03,
          0xC8, 0xC9, 0x00, 0x10, 0x00, 0x00, 0x00, 0x00, 0x00, 0x00, 0xE0, 0x01,
          0xD8, 0xC9, 0x00, 0x10, 0x10, 0x00, 0x00, 0x00, 0x00, 0x00, 0x80, 0x01,
          0xE8, 0xC9, 0x00, 0x10, 0x10, 0x00, 0x00, 0x00, 0x00, 0x00, 0x10, 0x00,
          0xF0, 0xC9, 0x00, 0x10, 0x10, 0x00, 0x00, 0x00, 0x00, 0x00, 0x04, 0x00,
          0x00, 0xCA, 0x00, 0x10, 0x10, 0x00, 0x00, 0x00, 0x00, 0x00, 0x50, 0x00,
          0x08, 0xCA, 0x00, 0x10, 0x10, 0x00, 0x00, 0x00, 0x00, 0x00, 0x50, 0x00,
          0x10, 0xCA, 0x00, 0x10, 0x00, 0x00, 0x00, 0x00, 0x00, 0x00, 0x58, 0x03
]

/-- The fixed 16-byte trailer block constant (`post_file_data`). -/
def post_file_data : List Nat := [
0x58, 0x69, 0x61, 0x6F, 0x59, 0x69, 0x5F, 0x7A,
          0x68, 0x2D, 0x63, 0x6E, 0x00, 0x00, 0x00, 0x00
]

/-- Split a byte list into little-endian 32-bit words (trailing
incomplete groups dropped), as ctypes presents a `c_uint` array. -/
def rd32s : List Nat → List Nat
  | b0 :: b1 :: b2 :: b3 :: rest => rd32 b0 b1 b2 b3 :: rd32s rest
  | _ => []

/-- Parse a `FwModPartHeader` from its 256-byte layout. -/
def parsePartHead (l : List Nat) : FwModPartHeader :=
  { crc32 := rd32At l 0, version := rd32At l 4, build_date := rd32At l 8,
    dt_len := rd32At l 12, mem_addr := rd32At l 16, flag1 := rd32At l 20,
    magic := rd32At l 24, flag2 := rd32At l 28, padding := rd32s ((l.take 256).drop 32) }

/-- Serialise a `FwModPartHeader` to its 256-byte layout (the padding
list carries 56 words). -/
def serPartHead (e : FwModPartHeader) : List Nat :=
  le32 e.crc32 ++ le32 e.version ++ le32 e.build_date ++ le32 e.dt_len ++ le32 e.mem_addr ++
    le32 e.flag1 ++ le32 e.magic ++ le32 e.flag2 ++ (e.padding.map le32).flatten

/-- Outcome of the partition-header read step of `amba_extract`. -/
inductive HeadReadOutcome
  | eofSuccess
  | endMarker (isMatch : Bool)
  | truncError (got : Nat)
  | header (e : FwModPartHeader)
deriving DecidableEq, Repr

/-- The partition-header read of the `amba_extract` main loop:
`stream` is the remaining input, `i` the slot index, `tableLen` the
number of detected size-table entries; `readinto` obtains
`min 256 stream.length` bytes.  A zero read ends the loop
successfully; a short read of `n` bytes with `n - 4` equal to the
trailer-constant length, at slot index `tableLen`, is the trailer end
marker (`isMatch` records whether the first `n - 4` bytes equal the
trailer constant — a warning otherwise, either way no error); any
other short read is the fatal truncation error. -/
def amba_read_head_step (stream : List Nat) (i tableLen : Nat) : HeadReadOutcome :=
  let n := min 256 stream.length
  if n = 0 then .eofSuccess
  else if n ≠ 256 then
    if (n : Int) - 4 = (post_file_data.length : Int) ∧ i = tableLen then
      .endMarker (stream.take (n - 4) == post_file_data)
    else .truncError n
  else .header (parsePartHead (stream.take 256))

/-- C8: counterexample.  A short read of exactly the 16-byte trailer
signature length is not treated as an end marker: with precisely the
16 trailer-constant bytes remaining, at slot index equal to the table
length, the read raises the fatal truncation error, because the
end-marker test compares `n - 4` — not `n` — against the trailer
length. -/
theorem head_read_trailer_len_counterexample :
    amba_read_head_step post_file_data 3 3 = .truncError 16 := by decide

/-- C8 (amended): when reading a partition header, a zero-byte read
ends the loop as normal end-of-stream; a short read of exactly
`len(post_file_data) + 4 = 20` bytes occurring at slot index equal to
the detected table length is treated as the normal end marker (a
content mismatch only warns); every other nonzero short read —
including one of exactly the 16-byte trailer length — raises the
fatal truncation error. -/
theorem head_read_short_classification (stream : List Nat) (i tableLen : Nat)
    (hshort : stream.length < 256) :
    (stream.length = 0 → amba_read_head_step stream i tableLen = .eofSuccess) ∧
    (stream.length = post_file_data.length + 4 → i = tableLen →
      amba_read_head_step stream i tableLen =
        .endMarker (stream.take post_file_data.length == post_file_data)) ∧
    (stream.length ≠ 0 → (stream.length ≠ post_file_data.length + 4 ∨ i ≠ tableLen) →
      amba_read_head_step stream i tableLen = .truncError stream.length) := by
  have hm : min 256 stream.length = stream.length := Nat.min_eq_right (le_of_lt hshort)
  unfold amba_read_head_step
  simp only [hm]
  have hpf : post_file_data.length = 16 := rfl
  refine ⟨fun h0 => by rw [if_pos h0], fun h20 hi => ?_, fun h0 hother => ?_⟩
  · rw [hpf] at h20 ⊢
    rw [if_neg (by omega), if_pos (by omega), if_pos ⟨by rw [h20]; norm_num, hi⟩, h20]
  · rw [hpf] at hother ⊢
    rw [if_neg h0, if_pos (by omega)]
    rcases hother with hne | hne
    · rw [if_neg]
      intro hand
      have := hand.1
      omega
    · rw [if_neg]
      intro hand
      exact hne hand.2

theorem head_read_short_classification_witness :
    amba_read_head_step (post_file_data ++ [0, 0, 0, 0]) 2 2 =
      .endMarker ((post_file_data ++ [0, 0, 0, 0]).take post_file_data.length ==
        post_file_data) :=
  (head_read_short_classification (post_file_data ++ [0, 0, 0, 0]) 2 2 (by decide)).2.1
    (by decide) rfl

/-- The all-zero `FwModPartHeader()` ctypes default. -/
def zeroPartHead : FwModPartHeader :=
  { crc32 := 0, version := 0, build_date := 0, dt_len := 0, mem_addr := 0, flag1 := 0,
    magic := 0, flag2 := 0, padding := List.replicate 56 0 }

/-- A blank sidecar record. -/
def emptyHeadFile : PartHeadFile :=
  { mem_addr := 0, flag1 := 0, flag2 := 0, version_major := 0, version_minor := 0,
    date_year := 0, date_month := 0, date_day := 0, added_part := "" }

/-- `FwModA9Header` serialised to its 36-byte layout: model-name bytes
NUL-padded to 32, then the checksum word. -/
def serModHead (h : FwModA9Header) : List Nat :=
  (h.model_name.take 32 ++ List.replicate (32 - h.model_name.length) 0) ++ le32 h.crc32

/-- The artifacts `amba_create` consumes: the container sidecar record
(model name, `part_load` tag list, `part_size` list), the optional
post-header/trailer override files, and the per-tag payload and
sidecar files.  File lookups are total functions from tag to content;
a payload file that does not exist reads as empty. -/
structure Artifacts where
  model_name : List Nat
  part_load : List String
  part_sizes : List Nat
  post_head_override : Option (List Nat)
  post_file_override : Option (List Nat)
  payload : String → List Nat
  headfile : String → PartHeadFile

/-- The payload copy loop of `amba_create`'s first pass: reads 1MB
chunks until an empty read, counting the bytes and folding the
standard checksum. -/
def create_copy_data : Nat → List Nat → Nat → Nat → Nat × Nat
  | 0, _, n, ptcrc => (n, ptcrc)
  | fuel + 1, data, n, ptcrc =>
    let chunk := data.take 1048576
    if chunk.length = 0 then (n, ptcrc)
    else create_copy_data fuel (data.drop chunk.length) (n + chunk.length)
      (amba_calculate_crc32b_part chunk ptcrc)

theorem take_append_drop_len (l : List Nat) (n : Nat) :
    l.take n ++ l.drop (l.take n).length = l := by
  rcases Nat.le_total n l.length with h | h
  · rw [List.length_take, Nat.min_eq_left h, List.take_append_drop]
  · rw [List.take_of_length_le h, List.drop_length, List.append_nil]

theorem create_copy_data_spec : ∀ (fuel : Nat) (data : List Nat) (n ptcrc : Nat),
    data.length < fuel → ptcrc < 2 ^ 32 →
    create_copy_data fuel data n ptcrc =
      (n + data.length, amba_calculate_crc32b_part data ptcrc)
  | 0, _, _, _ => by omega
  | fuel + 1, data, n, ptcrc => by
    intro hfuel hpt
    simp only [create_copy_data]
    by_cases hd0 : (data.take 1048576).length = 0
    · have hdata : data = [] := by
        rcases hdata2 : data with _ | ⟨x, xs⟩
        · rfl
        · rw [hdata2] at hd0
          simp [List.length_take] at hd0
      subst hdata
      rw [if_pos hd0, crc32b_part_nil ptcrc hpt]
      simp
    · rw [if_neg hd0]
      have hlen : (data.take 1048576).length = min 1048576 data.length := List.length_take ..
      have hrec := create_copy_data_spec fuel (data.drop (data.take 1048576).length)
        (n + (data.take 1048576).length) (amba_calculate_crc32b_part (data.take 1048576) ptcrc)
        (by
          rw [List.length_drop]
          omega)
        (crc32b_part_lt _ _)
      rw [hrec, crc32b_part_append]
      rw [take_append_drop_len]
      congr 1
      rw [List.length_drop]
      omega

/-- First construction pass, one slot: if the slot's tag is absent
from `part_load`, or its payload artifact is empty, nothing is
written and an all-zero placeholder header is recorded; otherwise the
slot's bytes are the patched header, the payload, and any `added_part`
sub-payload, and the size-table entry length becomes
`sizeof(header) + dt_len + sub length`. -/
def create_slot (a : Artifacts) (i : Nat) (hde : FwModEntry) :
    List Nat × FwModPartHeader × FwModEntry :=
  let ptyp := amba_a9_part_entry_type_id i
  if ptyp ∉ a.part_load then ([], zeroPartHead, hde)
  else if (a.payload ptyp).length < 1 then ([], zeroPartHead, hde)
  else
    let ea := amba_read_part_head (a.headfile ptyp)
    let data := a.payload ptyp
    let nc := create_copy_data (data.length + 1) data 0 0
    let e := { ea.1 with dt_len := nc.1, crc32 := nc.2 }
    let sub := if ea.2 ≠ "" then a.payload ea.2 else []
    (serPartHead e ++ data ++ sub, e, { hde with dt_len := 256 + e.dt_len + sub.length })

/-- All slots of the first construction pass, in slot order. -/
def create_slots (a : Artifacts) : List (List Nat × FwModPartHeader × FwModEntry) :=
  (List.range a.part_sizes.length).map fun i => create_slot a i ⟨a.part_sizes.getD i 0, 0⟩

/-- The partition region of the output: concatenation of all slot blocks. -/
def create_blocks (a : Artifacts) : List Nat :=
  ((create_slots a).map fun s => s.1).flatten

/-- The (patched size-table entry, in-memory part header) pairs the
second pass walks. -/
def create_pairs (a : Artifacts) : List (FwModEntry × FwModPartHeader) :=
  (create_slots a).map fun s => (s.2.2, s.2.1)

/-- Second construction pass: walks the patched size-table entries,
skipping those with `dt_len < 1`, folding each used slot's stored
header bytes plus `dt_len` payload-artifact bytes into the cumulative
state, stamping the state into the entry's checksum field.  Returns
the stamped entries and the final state; `none` models a diverging
fold. -/
def create_crc_pass (a : Artifacts) : Nat → List (FwModEntry × FwModPartHeader) → Nat →
    Option (List FwModEntry × Nat)
  | _, [], hdcrc => some ([], hdcrc)
  | i, (hde, e) :: rest, hdcrc =>
    if hde.dt_len < 1 then
      (create_crc_pass a (i + 1) rest hdcrc).map fun r => (hde :: r.1, r.2)
    else
      (create_entry_cumulative (serPartHead e) (a.payload (amba_a9_part_entry_type_id i))
          e.dt_len hdcrc).bind fun st =>
        (create_crc_pass a (i + 1) rest st).map fun r =>
          ({ hde with crc32 := st } :: r.1, r.2)

/-- The post-header block construction writes: the override artifact
when present and non-empty, else the built-in constant. -/
def create_post_head (a : Artifacts) : List Nat :=
  match a.post_head_override with
  | some b => if b.length ≠ 0 then b else post_head_data
  | none => post_head_data

/-- The trailer block construction writes: the override artifact when
present and non-empty, else the built-in constant. -/
def create_post_file (a : Artifacts) : List Nat :=
  match a.post_file_override with
  | some b => if b.length ≠ 0 then b else post_file_data
  | none => post_file_data

/-- The final whole-file checksum loop of `amba_create`: chunked
standard CRC-32 over the first `epos` bytes of the finished file
(`epos` is set by `seek(-16, SEEK_END)`). -/
def create_footer_crc : Nat → List Nat → Nat → Nat → Nat
  | 0, _, _, ptcrc => ptcrc
  | fuel + 1, data, rem, ptcrc =>
    if rem = 0 then ptcrc
    else
      let chunk := data.take (min 1048576 rem)
      if chunk.length = 0 then ptcrc
      else create_footer_crc fuel (data.drop chunk.length) (rem - chunk.length)
        (amba_calculate_crc32b_part chunk ptcrc)

/-- Everything `amba_create` puts in the file before the footer, with
the stamped header checksum and stamped entries: the rewritten main
header and size table, the post-header block, the partition blocks,
and the trailer block. -/
def create_body (a : Artifacts) : Option (List Nat × Nat × List FwModEntry) :=
  (create_crc_pass a 0 (create_pairs a) 0xffffffff).map fun r =>
    let hdr := r.2 ^^^ mask32
    (serModHead ⟨a.model_name, hdr⟩ ++ (r.1.map serEntry).flatten ++ create_post_head a ++
        create_blocks a ++ create_post_file a,
      hdr, r.1)

/-- Outcome of `amba_create`. -/
inductive CreateResult
  | ok (file : List Nat)
  | badPartName
  | diverges
deriving DecidableEq, Repr

/-- `amba_create`: assemble a container from artifacts.  A `part_load`
tag outside the recognised type set is the fatal ValueError;
`diverges` models a non-terminating cumulative fold.  The returned
bytes reflect the header patch-backs and final header-region rewrite;
the footer is the standard checksum of the file up to 16 bytes before
its pre-footer end. -/
def amba_create (a : Artifacts) : CreateResult :=
  if ¬ a.part_load.all (fun t => t ∈ part_entry_type_id) then .badPartName
  else
    match create_body a with
    | none => .diverges
    | some r =>
        let epos := r.1.length - 16
        .ok (r.1 ++ le32 (create_footer_crc (epos + 1) (r.1.take epos) epos 0))

theorem create_footer_crc_spec : ∀ (fuel : Nat) (data : List Nat) (rem p : Nat),
    rem < fuel → p < 2 ^ 32 →
    create_footer_crc fuel data rem p = amba_calculate_crc32b_part (data.take rem) p
  | 0, _, _, _ => by omega
  | fuel + 1, data, rem, p => by
    intro hfuel hp
    simp only [create_footer_crc]
    by_cases h0 : rem = 0
    · rw [if_pos h0, h0, List.take_zero, crc32b_part_nil p hp]
    · rw [if_neg h0]
      set chunk := data.take (min 1048576 rem) with hchunk
      have hclen : chunk.length = min (min 1048576 rem) data.length := by
        rw [hchunk, List.length_take]
      have hc_le_m : chunk.length ≤ min 1048576 rem := by omega
      have hc_le_rem : chunk.length ≤ rem := le_trans hc_le_m (Nat.min_le_right _ _)
      have h1 : data.take chunk.length = chunk := by
        have h2 := List.take_take chunk.length (min 1048576 rem) (l := data)
        rw [Nat.min_eq_left hc_le_m] at h2
        rw [← h2, hchunk, List.take_length]
      have hsplit : data.take rem =
          chunk ++ (data.drop chunk.length).take (rem - chunk.length) := by
        have hr : rem = chunk.length + (rem - chunk.length) := by omega
        conv_lhs => rw [hr]
        rw [List.take_add, h1]
      by_cases hd0 : chunk.length = 0
      · rw [if_pos hd0]
        have hdata : data = [] := by
          rcases hdata2 : data with _ | ⟨x, xs⟩
          · rfl
          · exfalso
            rw [hclen, hdata2] at hd0
            simp at hd0
            omega
        subst hdata
        rw [List.take_nil, crc32b_part_nil p hp]
      · rw [if_neg hd0]
        rw [create_footer_crc_spec fuel (data.drop chunk.length) (rem - chunk.length)
          (amba_calculate_crc32b_part chunk p) (by omega) (crc32b_part_lt _ _)]
        rw [hsplit, crc32b_part_append]

theorem flatten_map_le32_length : ∀ l : List Nat, ((l.map le32).flatten).length = 4 * l.length
  | [] => rfl
  | x :: rest => by
      simp only [List.map_cons, List.flatten_cons, List.length_append, le32_length,
        List.length_cons, flatten_map_le32_length rest]
      omega

theorem serPartHead_length (e : FwModPartHeader) :
    (serPartHead e).length = 32 + 4 * e.padding.length := by
  unfold serPartHead
  simp only [List.length_append, le32_length, flatten_map_le32_length]

theorem serPartHead_length_mod4 (e : FwModPartHeader) : (serPartHead e).length % 4 = 0 := by
  rw [serPartHead_length]
  omega

theorem create_entry_cumulative_spec (hdr payload : List Nat) (dtLen st : Nat)
    (h4 : hdr.length % 4 = 0) (hst : st < 2 ^ 32) :
    create_entry_cumulative hdr payload dtLen st =
      crc32h_result (hdr ++ payload.take dtLen) st := by
  unfold create_entry_cumulative
  rw [crc32h_result_append_aligned hdr _ st h4 hst]
  cases hcr : crc32h_result hdr st with
  | none => rfl
  | some s2 =>
      simp only [Option.some_bind]
      exact create_part_crc_spec (dtLen + 1) payload dtLen s2 (by omega)
        (crc32h_result_some_lt hcr)

/-- Fold of the cumulative state over a list of byte blocks in order. -/
def cumulativeOverParts : List (List Nat) → Nat → Option Nat
  | [], st => some st
  | p :: rest, st => (crc32h_result p st).bind fun st2 => cumulativeOverParts rest st2

/-- The (header bytes ++ first `dt_len` payload-artifact bytes) blocks
of the used slots among `pairs`, in slot order from index `i`. -/
def usedBlocks (a : Artifacts) : Nat → List (FwModEntry × FwModPartHeader) → List (List Nat)
  | _, [] => []
  | i, (hde, e) :: rest =>
      (if hde.dt_len < 1 then [] else
        [serPartHead e ++ (a.payload (amba_a9_part_entry_type_id i)).take e.dt_len]) ++
      usedBlocks a (i + 1) rest

theorem create_crc_pass_state (a : Artifacts) :
    ∀ (pairs : List (FwModEntry × FwModPartHeader)) (i st : Nat), st < 2 ^ 32 →
    (create_crc_pass a i pairs st).map (fun r => r.2) =
      cumulativeOverParts (usedBlocks a i pairs) st
  | [], i, st => by intro _; rfl
  | (hde, e) :: rest, i, st => by
    intro hst
    simp only [create_crc_pass, usedBlocks]
    by_cases hd : hde.dt_len < 1
    · rw [if_pos hd, if_pos hd, List.nil_append, Option.map_map]
      have hfun : ((fun r : List FwModEntry × Nat => r.2) ∘
          fun r : List FwModEntry × Nat => (hde :: r.1, r.2)) =
          fun r : List FwModEntry × Nat => r.2 := rfl
      rw [hfun]
      exact create_crc_pass_state a rest (i + 1) st hst
    · rw [if_neg hd, if_neg hd,
        create_entry_cumulative_spec _ _ _ _ (serPartHead_length_mod4 e) hst]
      simp only [List.singleton_append, cumulativeOverParts]
      cases hcr : crc32h_result
          (serPartHead e ++ (a.payload (amba_a9_part_entry_type_id i)).take e.dt_len) st with
      | none => rfl
      | some w =>
          simp only [Option.some_bind, Option.map_map]
          have hfun : ((fun r : List FwModEntry × Nat => r.2) ∘
              fun r : List FwModEntry × Nat => ({ hde with crc32 := w } :: r.1, r.2)) =
              fun r : List FwModEntry × Nat => r.2 := rfl
          rw [hfun]
          exact create_crc_pass_state a rest (i + 1) w (crc32h_result_some_lt hcr)

/-- C2 (amended): the checksum stamped into the container header by
construction — the value extraction recomputes and compares — is the
complement of the running cumulative state, seeded at all-ones and
folded, in order, over the (header + `dt_len`-byte primary payload)
bytes of every used partition only; the partition-size-entry-table
bytes are NOT part of the fold. -/
theorem container_header_crc_formula (a : Artifacts) :
    (create_body a).map (fun r => r.2.1) =
      (cumulativeOverParts (usedBlocks a 0 (create_pairs a)) 0xffffffff).map
        (fun h => h ^^^ mask32) := by
  unfold create_body
  have hstate := create_crc_pass_state a (create_pairs a) 0 0xffffffff (by norm_num)
  cases hcp : create_crc_pass a 0 (create_pairs a) 0xffffffff with
  | none =>
      rw [hcp] at hstate
      rw [← hstate]
      rfl
  | some r =>
      rw [hcp] at hstate
      rw [← hstate]
      rfl

/-- The bytes `amba_create` produced, empty for a failure. -/
def createFile : CreateResult → List Nat
  | .ok f => f
  | _ => []

/-- Whether `amba_create` produced a file. -/
def createOk : CreateResult → Bool
  | .ok _ => true
  | _ => false

/-- Artifacts declaring a single slot that is not in `part_load`. -/
def unusedSlotArtifacts : Artifacts :=
  { model_name := List.replicate 32 0, part_load := [], part_sizes := [0],
    post_head_override := none, post_file_override := none,
    payload := fun _ => [], headfile := fun _ => emptyHeadFile }

/-- Artifacts declaring a single used slot with a 16-byte payload. -/
def onePartArtifacts : Artifacts :=
  { model_name := List.replicate 32 0, part_load := ["bst"], part_sizes := [0x110],
    post_head_override := none, post_file_override := none,
    payload := fun t =>
      if t = "bst" then [1, 2, 3, 4, 5, 6, 7, 8, 9, 10, 11, 12, 13, 14, 15, 16] else [],
    headfile := fun _ => { emptyHeadFile with mem_addr := 0x1000 } }

set_option maxRecDepth 100000 in
/-- C2: counterexample to the claim as stated.  For this concrete
single-partition construction, the checksum carried in the container
header does not equal the complement of the cumulative state folded
over the partition-size-entry-table bytes and the (header+payload)
bytes: the table bytes (the 8 bytes at offset 36) are not folded in. -/
theorem header_crc_table_bytes_counterexample :
    createOk (amba_create onePartArtifacts) = true ∧
    ¬ some (rd32At (createFile (amba_create onePartArtifacts)) 32) =
        (cumulativeOverParts
          [((createFile (amba_create onePartArtifacts)).drop 36).take 8,
           ((createFile (amba_create onePartArtifacts)).drop 236).take 272] 0xffffffff).map
          (fun h => h ^^^ mask32) := by
  constructor
  · decide
  · decide

/-- C7 (amended): for a construction slot with no corresponding
non-empty payload artifact — its tag absent from the declared
`part_load` list, or its artifact file empty — construction writes NO
bytes into the output container at that slot's position; the all-zero
placeholder `FwModPartHeader` is recorded only in the in-memory
`part_heads` list consumed by the checksum pass, and the slot's
size-table entry is passed through unchanged. -/
theorem create_slot_unused (a : Artifacts) (i : Nat) (hde : FwModEntry)
    (h : amba_a9_part_entry_type_id i ∉ a.part_load ∨
      (a.payload (amba_a9_part_entry_type_id i)).length < 1) :
    create_slot a i hde = ([], zeroPartHead, hde) := by
  unfold create_slot
  rcases h with h | h
  · rw [if_pos h]
  · by_cases h2 : amba_a9_part_entry_type_id i ∉ a.part_load
    · rw [if_pos h2]
    · rw [if_neg h2, if_pos h]

theorem create_slot_unused_witness :
    create_slot unusedSlotArtifacts 0 ⟨0, 0⟩ = ([], zeroPartHead, ⟨0, 0⟩) :=
  create_slot_unused unusedSlotArtifacts 0 ⟨0, 0⟩ (Or.inl (by decide))

set_option maxRecDepth 100000 in
/-- C7: counterexample to the claim as stated.  Constructing a
container whose single declared slot has no payload artifact yields a
256-byte file — main header (36) + one size-table entry (8) +
post-header block (192) + trailer (16) + footer (4) — which is too
short to contain the 256-byte all-zero placeholder PartitionHeader
the claim says is emitted into the container at the slot's position
(that would require at least 236 + 256 bytes). -/
theorem create_unused_placeholder_counterexample :
    createOk (amba_create unusedSlotArtifacts) = true ∧
      (createFile (amba_create unusedSlotArtifacts)).length = 256 := by
  constructor
  · decide
  · decide

/-- C4 (amended): the trailing 4-byte footer written at the end of
construction is the standard CRC-32 (seed 0) over the output file
excluding its last 20 bytes — the 16 bytes preceding the footer
position (the trailer block) and the 4-byte footer itself — because
the checksum loop stops at `seek(-16, SEEK_END)` before the footer is
appended. -/
theorem create_footer_spec (a : Artifacts) (out : List Nat)
    (hok : amba_create a = .ok out) :
    out.drop (out.length - 4) =
      le32 (amba_calculate_crc32 (out.take (out.length - 20))) := by
  unfold amba_create at hok
  by_cases hbad : ¬ a.part_load.all (fun t => t ∈ part_entry_type_id)
  · rw [if_pos hbad] at hok
    exact absurd hok (by simp)
  · rw [if_neg hbad] at hok
    cases hcb : create_body a with
    | none =>
        rw [hcb] at hok
        exact absurd hok (by simp)
    | some r =>
        rw [hcb] at hok
        simp only at hok
        injection hok with hout
        subst hout
        have hfoot := create_footer_crc_spec (r.1.length - 16 + 1) (r.1.take (r.1.length - 16))
          (r.1.length - 16) 0 (by omega) (by norm_num)
        rw [hfoot, List.take_take, Nat.min_self]
        have hlen : (r.1 ++
            le32 (amba_calculate_crc32b_part (r.1.take (r.1.length - 16)) 0)).length =
            r.1.length + 4 := by
          rw [List.length_append, le32_length]
        rw [hlen, show r.1.length + 4 - 4 = r.1.length by omega,
          show r.1.length + 4 - 20 = r.1.length - 16 by omega,
          List.drop_left, List.take_append_of_le_length (by omega)]
        rfl

/-- The file constructed from the single-unused-slot artifacts. -/
def unusedSlotOut : List Nat := createFile (amba_create unusedSlotArtifacts)

theorem createOk_eq (r : CreateResult) (h : createOk r = true) : r = .ok (createFile r) := by
  cases r with
  | ok f => rfl
  | badPartName => simp [createOk] at h
  | diverges => simp [createOk] at h

set_option maxRecDepth 100000 in
theorem create_footer_spec_witness :
    unusedSlotOut.drop (unusedSlotOut.length - 4) =
      le32 (amba_calculate_crc32 (unusedSlotOut.take (unusedSlotOut.length - 20))) :=
  create_footer_spec unusedSlotArtifacts unusedSlotOut
    (createOk_eq (amba_create unusedSlotArtifacts) (by decide))

set_option maxRecDepth 100000 in
/-- C4: counterexample to the claim as stated.  In this concrete
constructed container the trailing 4-byte footer does not equal the
standard CRC-32 of the file excluding only its last 4 bytes: the 16
trailer bytes before the footer are also excluded from the
checksummed range. -/
theorem create_footer_not_all_but_4_counterexample :
    createOk (amba_create unusedSlotArtifacts) = true ∧
      ¬ unusedSlotOut.drop (unusedSlotOut.length - 4) =
          le32 (amba_calculate_crc32 (unusedSlotOut.take (unusedSlotOut.length - 4))) := by
  constructor
  · decide
  · decide

/-- Bytes of a ctypes `c_char` field value: the content up to the
first NUL. -/
def cstr (l : List Nat) : List Nat := l.takeWhile (fun b => b ≠ 0)

/-- The byte string `b'YDXJ_Z16'` (the model storing its device tree
as the named `fdt` sub-payload). -/
def ydxj_z16 : List Nat := [0x59, 0x44, 0x58, 0x4A, 0x5F, 0x5A, 0x31, 0x36]

/-- Non-fatal anomalies `amba_extract` reports. -/
inductive Warn
  | detectUnusual
  | postHeadMismatch
  | endNotExpected
  | badMagic (i : Nat)
  | badSize (i : Nat)
  | dataAfterEntries (i : Nat)
  | ptcrcMismatch (i got exp : Nat)
  | cumulativeMismatch (i got exp : Nat)
  | dateInvalid (i : Nat)
  | dateOld (i : Nat)
  | paddingUsed (i : Nat)
  | totalMismatch (got exp : Nat)
deriving DecidableEq, Repr

/-- Fatal extraction errors. -/
inductive ExtractErr
  | headerTrunc
  | entriesTrunc
  | entriesCap
  | postHeadTrunc
  | partHeadTrunc (got : Nat)
  | diverges
  | fuelOut
deriving DecidableEq, Repr

/-- What extraction leaves on disk for one partition: the parsed
header (exported to the slot's sidecar file), the payload artifact,
the `added_part` line and, when present, the sub-payload artifact. -/
structure PartArtifact where
  idx : Nat
  head : FwModPartHeader
  payload : List Nat
  added_part : String
  sub : List Nat
deriving DecidableEq, Repr

/-- Everything a successful `amba_extract` produces: the main header,
the detected size table and type names (the container sidecar), the
post-header block (exported when it differs from the constant), the
partition artifacts, the trailer bytes (`some` exactly when they
differ from the constant and are exported), and the warnings. -/
structure ExtractResult where
  modhead : FwModA9Header
  entries : List FwModEntry
  ptyp_names : List String
  post_head : List Nat
  parts : List PartArtifact
  post_file : Option (List Nat)
  warns : List Warn
deriving DecidableEq, Repr

/-- The main loop of `amba_extract`: one iteration per slot index,
skipping size-table entries with `dt_len < 1`, reading a partition
header (`amba_read_head_step`), folding the cumulative state over the
header and payload, collecting warnings, copying out any sub-payload
without folding it, and stopping at end-of-stream or the trailer end
marker.  Returns the artifacts, warnings, final cumulative state and
the trailer bytes when they were exported. -/
def extract_loop (entriesAll : List FwModEntry) (modelName : List Nat) :
    Nat → Nat → List Nat → Nat → List PartArtifact → List Warn →
    Except ExtractErr (List PartArtifact × List Warn × Nat × Option (List Nat))
  | 0, _, _, _, _, _ => .error .fuelOut
  | fuel + 1, i, stream, hdcrc, parts, warns =>
    if i < entriesAll.length ∧ (entriesAll.getD i ⟨0, 0⟩).dt_len < 1 then
      extract_loop entriesAll modelName fuel (i + 1) stream hdcrc parts warns
    else
      let hde := if i < entriesAll.length then entriesAll.getD i ⟨0, 0⟩ else ⟨0, 0⟩
      match amba_read_head_step stream i entriesAll.length with
      | .eofSuccess => .ok (parts, warns, hdcrc, none)
      | .endMarker m =>
          if m then .ok (parts, warns, hdcrc, none)
          else .ok (parts, warns ++ [.endNotExpected], hdcrc,
            some (stream.take (min 256 stream.length - 4)))
      | .truncError n => .error (.partHeadTrunc n)
      | .header e =>
        match crc32h_result (stream.take 256) hdcrc with
        | none => .error .diverges
        | some hd1 =>
          match extract_part_data (e.dt_len + 1) (stream.drop 256) e.dt_len 0 hd1 with
          | none => .error .diverges
          | some (copied, ptcrc, hd2) =>
            let w :=
              (if e.magic ≠ 0xA324EB90 then [Warn.badMagic i] else []) ++
              (if e.dt_len < 16 ∨ 134217728 < e.dt_len then [Warn.badSize i] else []) ++
              (if entriesAll.length ≤ i then [Warn.dataAfterEntries i] else []) ++
              (if ptcrc ≠ e.crc32 then [Warn.ptcrcMismatch i ptcrc e.crc32] else []) ++
              (if hd2 ≠ hde.crc32 then [Warn.cumulativeMismatch i hd2 hde.crc32] else []) ++
              (if build_date_year e.build_date < 1970 ∨ build_date_month e.build_date < 1 ∨
                  12 < build_date_month e.build_date ∨ build_date_day e.build_date < 1 ∨
                  31 < build_date_day e.build_date then [Warn.dateInvalid i]
               else if build_date_year e.build_date < 2004 then [Warn.dateOld i] else []) ++
              (if e.padding.getD 0 0 ≠ 0 ∨
                  ¬ e.padding.all (fun x => x == e.padding.getD 0 0) then [Warn.paddingUsed i]
               else [])
            let stream2 := (stream.drop 256).drop copied.length
            if (hde.dt_len : Int) - 256 > (e.dt_len : Int) then
              let size_part := hde.dt_len - 256 - e.dt_len
              let added := if cstr modelName = ydxj_z16 then "fdt"
                else amba_a9_part_entry_type_id i ++ "_bis"
              let sub := stream2.take size_part
              let part : PartArtifact :=
                { idx := i, head := e, payload := copied, added_part := added, sub := sub }
              if sub.length = 0 then .ok (parts ++ [part], warns ++ w, hd2, none)
              else
                extract_loop entriesAll modelName fuel (i + 1) (stream2.drop size_part) hd2
                  (parts ++ [part]) (warns ++ w)
            else
              let part : PartArtifact :=
                { idx := i, head := e, payload := copied, added_part := "", sub := [] }
              extract_loop entriesAll modelName fuel (i + 1) stream2 hd2
                (parts ++ [part]) (warns ++ w)

/-- `amba_extract`: parse a container, detect its size table, stream
out the partitions. -/
def amba_extract (file : List Nat) : Except ExtractErr ExtractResult :=
  if file.length < 36 then .error .headerTrunc
  else
    match amba_detect file.length (file.drop 36) with
    | .eofError => .error .entriesTrunc
    | .capError => .error .entriesCap
    | .ok entries names stop rest =>
      if rest.length < 192 then .error .postHeadTrunc
      else
        let warns0 := (if stop = DetectStop.overSize then [Warn.detectUnusual] else []) ++
          (if rest.take 192 ≠ post_head_data then [Warn.postHeadMismatch] else [])
        match extract_loop entries (file.take 32) (entries.length + rest.length + 2) 0
            (rest.drop 192) 0xffffffff [] warns0 with
        | .error err => .error err
        | .ok (parts, warns, hdEnd, pfExport) =>
          let final := hdEnd ^^^ mask32
          let hcrc := rd32At file 32
          .ok { modhead := ⟨file.take 32, hcrc⟩, entries := entries, ptyp_names := names,
                post_head := rest.take 192, parts := parts, post_file := pfExport,
                warns := warns ++
                  (if final ≠ hcrc then [Warn.totalMismatch final hcrc] else []) }

/-- The artifact store on disk after a successful extraction, as the
construction pipeline reads it back: the container sidecar, the
per-tag payload/sub files and header sidecar records, and the
post-header/trailer overrides (present only when the block differed
from the constant). -/
def artifactsOfExtract (r : ExtractResult) : Artifacts :=
  { model_name := cstr r.modhead.model_name
    part_load := r.ptyp_names
    part_sizes := r.entries.map (fun e => e.dt_len)
    post_head_override := if r.post_head = post_head_data then none else some r.post_head
    post_file_override := r.post_file
    payload := fun t =>
      match r.parts.find? (fun p => amba_a9_part_entry_type_id p.idx == t) with
      | some p => p.payload
      | none =>
        match r.parts.find? (fun p => p.added_part == t && p.added_part != "") with
        | some p => p.sub
        | none => []
    headfile := fun t =>
      match r.parts.find? (fun p => amba_a9_part_entry_type_id p.idx == t) with
      | some p => exportPartHead p.head p.added_part
      | none => emptyHeadFile }

theorem detect_entries_run2 (fileLen : Nat) : ∀ (es : List FwModEntry) (i left : Nat)
    (acc : List FwModEntry) (names : List String) (tail : List Nat),
    (∀ e ∈ es, e.dt_len < 2 ^ 32 ∧ e.crc32 < 2 ^ 32) →
    (∀ j (hj : j < es.length),
      entryStopPattern es[j] = false ∧ 36 + (i + j) * 8 + es[j].dt_len < fileLen) →
    8 ≤ tail.length →
    (entryStopPattern (parseEntry tail) = true ∨
      36 + (i + es.length) * 8 + (parseEntry tail).dt_len ≥ fileLen) →
    es.length < left →
    detect_entries left fileLen i ((es.map serEntry).flatten ++ tail) acc names =
      .ok (acc ++ es) (names ++ detectNamesFrom i es)
        (if entryStopPattern (parseEntry tail) then .stopPattern else .overSize) tail
  | [], i, left, acc, names, tail => by
      intro _hin hno h8 hstop hleft
      match left, hleft with
      | l + 1, _ =>
        simp only [List.map_nil, List.flatten_nil, List.nil_append, detect_entries]
        rw [if_neg (by omega)]
        rcases hp : entryStopPattern (parseEntry tail) with _ | _
        · rw [if_neg (by simp [hp])]
          rcases hstop with hstop | hstop
          · rw [hp] at hstop
            exact absurd hstop (by simp)
          · rw [if_pos (by simpa using hstop), if_neg (by simp [hp])]
            simp [detectNamesFrom]
        · rw [if_pos rfl, if_pos (by simp)]
          simp [detectNamesFrom]
  | e :: es2, i, left, acc, names, tail => by
      intro hin hno h8 hstop hleft
      match left, hleft with
      | l + 1, hl2 =>
        have hbytes : ((e :: es2).map serEntry).flatten ++ tail =
            serEntry e ++ ((es2.map serEntry).flatten ++ tail) := by
          simp [List.append_assoc]
        rw [hbytes]
        have he := hin e (by simp)
        have h0 := hno 0 (by simp)
        simp only [List.getElem_cons_zero, Nat.add_zero] at h0
        simp only [detect_entries]
        rw [if_neg (by simp [serEntry_length])]
        simp only [parseEntry_ser e _ he.1 he.2]
        rw [if_neg (by simp [h0.1]), if_neg (by omega),
          show (serEntry e ++ ((es2.map serEntry).flatten ++ tail)).drop 8 =
            (es2.map serEntry).flatten ++ tail from serEntry_length e ▸ List.drop_left _ _]
        rw [detect_entries_run2 fileLen es2 (i + 1) l (acc ++ [e])
          (if e.dt_len > 0 then names ++ [amba_a9_part_entry_type_id i] else names) tail
          (fun x hx => hin x (by simp [hx]))
          (fun j hj => by
            have := hno (j + 1) (by simpa using Nat.succ_lt_succ hj)
            simpa [show i + (j + 1) = i + 1 + j by omega] using this)
          h8
          (by
            rcases hstop with hs | hs
            · exact Or.inl hs
            · refine Or.inr ?_
              have : i + (e :: es2).length = i + 1 + es2.length := by simp; omega
              omega)
          (by simpa using Nat.lt_of_succ_lt_succ hl2)]
        have hnames : (if e.dt_len > 0 then names ++ [amba_a9_part_entry_type_id i]
            else names) ++ detectNamesFrom (i + 1) es2 =
            names ++ detectNamesFrom i (e :: es2) := by
          by_cases hdt : e.dt_len > 0 <;> simp [detectNamesFrom, hdt]
        rw [hnames, show (acc ++ [e]) ++ es2 = acc ++ e :: es2 by simp]

theorem rd32At_after_le32 (a : Nat) (rest : List Nat) (k : Nat) :
    rd32At (le32 a ++ rest) (k + 4) = rd32At rest k :=
  rd32At_cons4 _ _ _ _ rest k

theorem rd32s_flatten : ∀ l : List Nat, (∀ w ∈ l, w < 2 ^ 32) →
    rd32s ((l.map le32).flatten) = l
  | [], _ => rfl
  | w :: rest, h => by
      have hw := h w (by simp)
      have hr : rd32s ((rest.map le32).flatten) = rest :=
        rd32s_flatten rest (fun x hx => h x (by simp [hx]))
      show rd32s (le32 w ++ (rest.map le32).flatten) = w :: rest
      show rd32 (w % 256) (w / 256 % 256) (w / 65536 % 256) (w / 16777216 % 256) ::
        rd32s ((rest.map le32).flatten) = w :: rest
      rw [hr]
      congr 1
      unfold rd32
      omega

theorem parsePartHead_ser (e : FwModPartHeader) (t : List Nat)
    (h0 : e.crc32 < 2 ^ 32) (h1 : e.version < 2 ^ 32) (h2 : e.build_date < 2 ^ 32)
    (h3 : e.dt_len < 2 ^ 32) (h4 : e.mem_addr < 2 ^ 32) (h5 : e.flag1 < 2 ^ 32)
    (h6 : e.magic < 2 ^ 32) (h7 : e.flag2 < 2 ^ 32)
    (hp : ∀ w ∈ e.padding, w < 2 ^ 32) (hplen : e.padding.length = 56) :
    parsePartHead (serPartHead e ++ t) = e := by
  have hser : serPartHead e ++ t =
      le32 e.crc32 ++ (le32 e.version ++ (le32 e.build_date ++ (le32 e.dt_len ++
        (le32 e.mem_addr ++ (le32 e.flag1 ++ (le32 e.magic ++ (le32 e.flag2 ++
          ((e.padding.map le32).flatten ++ t)))))))) := by
    unfold serPartHead
    simp [List.append_assoc]
  have hlen : (serPartHead e).length = 256 := by
    rw [serPartHead_length, hplen]
  have htake : (serPartHead e ++ t).take 256 = serPartHead e := by
    rw [← hlen, List.take_left]
  have hdrop : ((serPartHead e ++ t).take 256).drop 32 = (e.padding.map le32).flatten := by
    rw [htake]
    unfold serPartHead
    rw [show le32 e.crc32 ++ le32 e.version ++ le32 e.build_date ++ le32 e.dt_len ++
        le32 e.mem_addr ++ le32 e.flag1 ++ le32 e.magic ++ le32 e.flag2 ++
        (e.padding.map le32).flatten =
        (le32 e.crc32 ++ le32 e.version ++ le32 e.build_date ++ le32 e.dt_len ++
          le32 e.mem_addr ++ le32 e.flag1 ++ le32 e.magic ++ le32 e.flag2) ++
        (e.padding.map le32).flatten by simp [List.append_assoc]]
    rw [show (32 : Nat) = (le32 e.crc32 ++ le32 e.version ++ le32 e.build_date ++
        le32 e.dt_len ++ le32 e.mem_addr ++ le32 e.flag1 ++ le32 e.magic ++
        le32 e.flag2).length by simp [le32_length], List.drop_left]
  unfold parsePartHead
  rw [hdrop, rd32s_flatten e.padding hp]
  rw [hser]
  rw [show ∀ z : List Nat, rd32At z 4 = rd32At z (0 + 4) from fun z => rfl,
    show ∀ z : List Nat, rd32At z 8 = rd32At z (0 + 4 + 4) from fun z => rfl,
    show ∀ z : List Nat, rd32At z 12 = rd32At z (0 + 4 + 4 + 4) from fun z => rfl,
    show ∀ z : List Nat, rd32At z 16 = rd32At z (0 + 4 + 4 + 4 + 4) from fun z => rfl,
    show ∀ z : List Nat, rd32At z 20 = rd32At z (0 + 4 + 4 + 4 + 4 + 4) from fun z => rfl,
    show ∀ z : List Nat, rd32At z 24 = rd32At z (0 + 4 + 4 + 4 + 4 + 4 + 4) from fun z => rfl,
    show ∀ z : List Nat, rd32At z 28 = rd32At z (0 + 4 + 4 + 4 + 4 + 4 + 4 + 4) from
      fun z => rfl]
  simp only [rd32At_after_le32]
  rw [rd32At_le32 _ h0 _, rd32At_le32 _ h1 _, rd32At_le32 _ h2 _, rd32At_le32 _ h3 _,
    rd32At_le32 _ h4 _, rd32At_le32 _ h5 _, rd32At_le32 _ h6 _, rd32At_le32 _ h7 _]

theorem parsePartHead_ser_nil (e : FwModPartHeader)
    (h0 : e.crc32 < 2 ^ 32) (h1 : e.version < 2 ^ 32) (h2 : e.build_date < 2 ^ 32)
    (h3 : e.dt_len < 2 ^ 32) (h4 : e.mem_addr < 2 ^ 32) (h5 : e.flag1 < 2 ^ 32)
    (h6 : e.magic < 2 ^ 32) (h7 : e.flag2 < 2 ^ 32)
    (hp : ∀ w ∈ e.padding, w < 2 ^ 32) (hplen : e.padding.length = 56) :
    parsePartHead (serPartHead e) = e := by
  have h := parsePartHead_ser e [] h0 h1 h2 h3 h4 h5 h6 h7 hp hplen
  rwa [List.append_nil] at h

/-- One partition of a structured container: its header, primary
payload, and (possibly empty) sub-payload. -/
structure PartS where
  head : FwModPartHeader
  payload : List Nat
  sub : List Nat
deriving DecidableEq, Repr

/-- A structured container: the fields a container file is assembled
from.  `parts` has one element per size-table entry; `none` marks an
unused slot that occupies no bytes in the partition region. -/
structure ContainerS where
  model_name : List Nat
  header_crc : Nat
  entries : List FwModEntry
  post_head : List Nat
  parts : List (Option PartS)
  post_file : List Nat
  footer : List Nat
deriving DecidableEq, Repr

/-- The partition region of a structured container. -/
def renderParts : List (Option PartS) → List Nat
  | [] => []
  | none :: rest => renderParts rest
  | some p :: rest => serPartHead p.head ++ (p.payload ++ (p.sub ++ renderParts rest))

/-- The byte file of a structured container. -/
def render (S : ContainerS) : List Nat :=
  S.model_name ++ (le32 S.header_crc ++ ((S.entries.map serEntry).flatten ++
    (S.post_head ++ (renderParts S.parts ++ (S.post_file ++ S.footer)))))

/-- Structural well-formedness of one (size-table entry, slot) pair:
an unused slot is declared by the all-zero size-table entry; a used slot's declared
length is header size + payload + sub-payload, its header's `dt_len`
is the payload length, the payload is non-empty, of length a multiple
of 4 (the cumulative checksum terminates) and the header is in
canonical form: 32-bit fields, magic constant, all-zero padding,
version minor below the reader's modulus, and the per-partition
checksum field holding the payload's standard checksum. -/
def SlotOk (e : FwModEntry) : Option PartS → Prop
  | none => e = ⟨0, 0⟩
  | some p =>
      e.dt_len = 256 + p.payload.length + p.sub.length ∧
      p.head.dt_len = p.payload.length ∧
      1 ≤ p.payload.length ∧ p.payload.length % 4 = 0 ∧
      p.head.padding = List.replicate 56 0 ∧
      p.head.magic = 0xA324EB90 ∧
      p.head.crc32 = amba_calculate_crc32 p.payload ∧
      version_minor p.head.version ≠ 65535 ∧
      p.head.crc32 < 2 ^ 32 ∧ p.head.version < 2 ^ 32 ∧ p.head.build_date < 2 ^ 32 ∧
      p.head.dt_len < 2 ^ 32 ∧ p.head.mem_addr < 2 ^ 32 ∧ p.head.flag1 < 2 ^ 32 ∧
      p.head.flag2 < 2 ^ 32

instance instDecSlotOk (e : FwModEntry) (op : Option PartS) : Decidable (SlotOk e op) := by
  cases op <;> · unfold SlotOk; infer_instance

/-- The per-entry cumulative-checksum chain: each used slot's
size-table checksum snapshot equals the cumulative state after
folding that slot's header+payload from the previous state. -/
def chainOkB : List (FwModEntry × Option PartS) → Nat → Bool
  | [], _ => true
  | (_, none) :: rest, st => chainOkB rest st
  | (e, some p) :: rest, st =>
      match crc32h_result (serPartHead p.head ++ p.payload) st with
      | none => false
      | some st2 => e.crc32 == st2 && chainOkB rest st2

/-- The cumulative state after folding all used slots. -/
def chainEnd : List (FwModEntry × Option PartS) → Nat → Option Nat
  | [], st => some st
  | (_, none) :: rest, st => chainEnd rest st
  | (_, some p) :: rest, st =>
      (crc32h_result (serPartHead p.head ++ p.payload) st).bind (chainEnd rest)

/-- The partition artifacts extraction produces for slots from index
`i` on. -/
def partArtifactsFrom (modelName : List Nat) : Nat → List (FwModEntry × Option PartS) →
    List PartArtifact
  | _, [] => []
  | i, (_, none) :: rest => partArtifactsFrom modelName (i + 1) rest
  | i, (_, some p) :: rest =>
      { idx := i, head := p.head, payload := p.payload,
        added_part := if p.sub.length ≠ 0 then
            (if cstr modelName = ydxj_z16 then "fdt"
             else amba_a9_part_entry_type_id i ++ "_bis")
          else "",
        sub := p.sub } :: partArtifactsFrom modelName (i + 1) rest

/-- The non-checksum warnings the extraction loop emits for slots from
index `i` on (magic, size, build-date and padding checks; checksum
comparisons all match on a checksum-correct container). -/
def benignWarnsFrom : Nat → List (FwModEntry × Option PartS) → List Warn
  | _, [] => []
  | i, (_, none) :: rest => benignWarnsFrom (i + 1) rest
  | i, (_, some p) :: rest =>
      (if p.head.magic ≠ 0xA324EB90 then [Warn.badMagic i] else []) ++
      (if p.head.dt_len < 16 ∨ 134217728 < p.head.dt_len then [Warn.badSize i] else []) ++
      (if build_date_year p.head.build_date < 1970 ∨ build_date_month p.head.build_date < 1 ∨
          12 < build_date_month p.head.build_date ∨ build_date_day p.head.build_date < 1 ∨
          31 < build_date_day p.head.build_date then [Warn.dateInvalid i]
       else if build_date_year p.head.build_date < 2004 then [Warn.dateOld i] else []) ++
      (if p.head.padding.getD 0 0 ≠ 0 ∨
          ¬ p.head.padding.all (fun x => x == p.head.padding.getD 0 0) then [Warn.paddingUsed i]
       else []) ++
      benignWarnsFrom (i + 1) rest

set_option maxHeartbeats 2000000 in
theorem extract_loop_run (modelName : List Nat) (entriesAll : List FwModEntry) :
    ∀ (pairs : List (FwModEntry × Option PartS)) (i fuel st : Nat)
      (parts0 : List PartArtifact) (warns0 : List Warn) (tail20 : List Nat),
    i + pairs.length = entriesAll.length →
    (∀ j (hj : j < pairs.length), entriesAll.getD (i + j) ⟨0, 0⟩ = pairs[j].1) →
    (∀ j (hj : j < pairs.length), SlotOk pairs[j].1 pairs[j].2) →
    chainOkB pairs st = true →
    st < 2 ^ 32 →
    tail20.length = 20 →
    (renderParts (pairs.map (fun q => q.2))).length + 21 + pairs.length ≤ fuel →
    ∃ stF, chainEnd pairs st = some stF ∧
      extract_loop entriesAll modelName fuel i
          (renderParts (pairs.map (fun q => q.2)) ++ tail20) st parts0 warns0 =
        .ok (parts0 ++ partArtifactsFrom modelName i pairs,
          warns0 ++ benignWarnsFrom i pairs ++
            (if tail20.take 16 = post_file_data then [] else [Warn.endNotExpected]),
          stF,
          if tail20.take 16 = post_file_data then none else some (tail20.take 16))
  | [], i, fuel, st, parts0, warns0, tail20 => by
    intro hiN _hent _hslots _hchain hst htail hfuel
    simp only [List.length_nil, Nat.add_zero] at hiN
    refine ⟨st, rfl, ?_⟩
    obtain ⟨f, rfl⟩ : ∃ f, fuel = f + 1 := ⟨fuel - 1, by omega⟩
    simp only [List.map_nil, renderParts, List.nil_append, extract_loop]
    rw [if_neg (fun h => absurd h.1 (by omega))]
    have hstep : amba_read_head_step tail20 i entriesAll.length =
        .endMarker (tail20.take (20 - 4) == post_file_data) := by
      unfold amba_read_head_step
      rw [htail, show min 256 20 = 20 from rfl]
      rw [if_neg (by omega), if_pos (by omega),
        if_pos ⟨by rw [show (post_file_data.length : Int) = 16 from rfl]; norm_num, by omega⟩]
    rw [hstep]
    by_cases hm : tail20.take 16 = post_file_data
    · rw [show (tail20.take (20 - 4) == post_file_data) = true by
        rw [show (20 : Nat) - 4 = 16 from rfl]; exact beq_iff_eq.mpr hm]
      simp [partArtifactsFrom, benignWarnsFrom, hm]
    · simp only [hstep]
      rw [show (tail20.take (20 - 4) == post_file_data) = false by
        rw [show (20 : Nat) - 4 = 16 from rfl]; exact beq_eq_false_iff_ne.mpr hm]
      rw [if_neg (show ¬((false : Bool) = true) by simp)]
      rw [if_neg hm, if_neg hm, htail]
      simp [partArtifactsFrom, benignWarnsFrom]
  | (e, none) :: rest, i, fuel, st, parts0, warns0, tail20 => by
    intro hiN hent hslots hchain hst htail hfuel
    have hslot0 : SlotOk e none := by
      have := hslots 0 (by simp)
      simpa using this
    have hdt0 : e.dt_len = 0 := by rw [show e = (⟨0, 0⟩ : FwModEntry) from hslot0]
    have hent0 : entriesAll.getD i ⟨0, 0⟩ = e := by
      have := hent 0 (by simp)
      simpa using this
    have hiNlt : i < entriesAll.length := by
      simp only [List.length_cons] at hiN
      omega
    match fuel, hfuel with
    | 0, hf => exact absurd hf (by omega)
    | f + 1, hf2 =>
      simp only [List.map_cons, renderParts, extract_loop]
      rw [if_pos ⟨hiNlt, by rw [hent0]; omega⟩]
      have ih := extract_loop_run modelName entriesAll rest (i + 1) f st parts0 warns0 tail20
        (by simp only [List.length_cons] at hiN; omega)
        (fun j hj => by
          have := hent (j + 1) (by simpa using Nat.succ_lt_succ hj)
          simpa [show i + (j + 1) = i + 1 + j by omega] using this)
        (fun j hj => by
          have := hslots (j + 1) (by simpa using Nat.succ_lt_succ hj)
          simpa using this)
        (by simpa [chainOkB] using hchain)
        hst htail
        (by
          simp only [List.map_cons, renderParts, List.length_cons] at hf2 ⊢
          omega)
      obtain ⟨stF, hend, hrun⟩ := ih
      exact ⟨stF, by simpa [chainEnd] using hend,
        by rw [hrun]; simp [partArtifactsFrom, benignWarnsFrom]⟩
  | (e, some p) :: rest, i, fuel, st, parts0, warns0, tail20 => by
    intro hiN hent hslots hchain hst htail hfuel
    have hslot0 : SlotOk e (some p) := by
      have := hslots 0 (by simp)
      simpa using this
    obtain ⟨hdt, hhdl, hp1, hp4, hpad, hmagic, hcrcf, hminor, hw0, hw1, hw2, hw3, hw4,
      hw5, hw7⟩ := hslot0
    have hent0 : entriesAll.getD i ⟨0, 0⟩ = e := by
      have := hent 0 (by simp)
      simpa using this
    have hiNlt : i < entriesAll.length := by
      simp only [List.length_cons] at hiN
      omega
    have hserlen : (serPartHead p.head).length = 256 := by
      rw [serPartHead_length, hpad]
      simp
    -- unpack the chain step
    have hchain2 := hchain
    simp only [chainOkB] at hchain2
    cases hcomb : crc32h_result (serPartHead p.head ++ p.payload) st with
    | none => rw [hcomb] at hchain2; exact absurd hchain2 (by simp)
    | some st2 =>
      rw [hcomb] at hchain2
      simp only [Bool.and_eq_true, beq_iff_eq] at hchain2
      obtain ⟨hecrc, hchainrest⟩ := hchain2
      have hsplit := crc32h_result_append_aligned (serPartHead p.head) p.payload st
        (serPartHead_length_mod4 p.head) hst
      rw [hcomb] at hsplit
      cases hhd1 : crc32h_result (serPartHead p.head) st with
      | none => rw [hhd1] at hsplit; exact absurd hsplit.symm (by simp)
      | some h1 =>
        rw [hhd1] at hsplit
        simp only [Option.some_bind] at hsplit
        -- hsplit : some st2 = crc32h_result p.payload h1
        match fuel, hfuel with
        | 0, hf => exact absurd hf (by omega)
        | f + 1, hf2 =>
          simp only [List.map_cons, renderParts, extract_loop]
          rw [if_neg (by rw [hent0]; omega)]
          have hstream : serPartHead p.head ++ (p.payload ++ (p.sub ++
              renderParts (rest.map (fun q => q.2)))) ++ tail20 =
              serPartHead p.head ++ (p.payload ++ (p.sub ++
                (renderParts (rest.map (fun q => q.2)) ++ tail20))) := by
            simp [List.append_assoc]
          rw [hstream]
          set R := renderParts (rest.map (fun q => q.2)) ++ tail20 with hR
          set stream := serPartHead p.head ++ (p.payload ++ (p.sub ++ R)) with hstreamdef
          have hslen : 256 ≤ stream.length := by
            rw [hstreamdef, List.length_append, hserlen]
            omega
          have htake256 : stream.take 256 = serPartHead p.head := by
            rw [hstreamdef, ← hserlen, List.take_left]
          have hdrop256 : stream.drop 256 = p.payload ++ (p.sub ++ R) := by
            rw [hstreamdef, ← hserlen, List.drop_left]
          have hstep : amba_read_head_step stream i entriesAll.length =
              .header p.head := by
            unfold amba_read_head_step
            rw [Nat.min_eq_left hslen]
            rw [if_neg (by omega), if_neg (by simp), htake256]
            rw [parsePartHead_ser_nil p.head hw0 hw1 hw2 hw3 hw4 hw5
              (by rw [hmagic]; norm_num) hw7
              (by rw [hpad]; intro w hw; simp at hw; omega)
              (by rw [hpad]; simp)]
          have hpd := extract_part_data_spec (p.head.dt_len + 1) (stream.drop 256)
            p.head.dt_len 0 h1 (by omega) (by norm_num) (crc32h_result_some_lt hhd1)
          rw [hdrop256] at hpd
          have htakepay : (p.payload ++ (p.sub ++ R)).take p.head.dt_len = p.payload := by
            rw [hhdl]
            exact List.take_left _ _
          rw [htakepay, ← hsplit] at hpd
          simp only [Option.map_some'] at hpd
          simp only [hstep, htake256, hhd1, hdrop256, hpd]
          have hst2lt : st2 < 2 ^ 32 := crc32h_result_some_lt hcomb
          have hdroppay : (p.payload ++ (p.sub ++ R)).drop p.payload.length = p.sub ++ R :=
            List.drop_left _ _
          have ihargs : (∀ j (hj : j < rest.length),
              entriesAll.getD (i + 1 + j) ⟨0, 0⟩ = rest[j].1) ∧
              (∀ j (hj : j < rest.length), SlotOk rest[j].1 rest[j].2) := by
            constructor
            · intro j hj
              have := hent (j + 1) (by simpa using Nat.succ_lt_succ hj)
              simpa [show i + (j + 1) = i + 1 + j by omega] using this
            · intro j hj
              have := hslots (j + 1) (by simpa using Nat.succ_lt_succ hj)
              simpa using this
          have hfuel2 : (renderParts (rest.map (fun q => q.2))).length + 21 + rest.length
              ≤ f := by
            simp only [List.map_cons, renderParts, List.length_cons, List.length_append,
              hserlen] at hf2 ⊢
            omega
          by_cases hsl : p.sub.length = 0
          · have hsubnil : p.sub = [] := List.length_eq_zero.mp hsl
            have hcond : ¬ ((e.dt_len : Int) - 256 > (p.head.dt_len : Int)) := by
              rw [hdt, hhdl, hsl]
              push_cast
              omega
            obtain ⟨stF, hend, hrun⟩ := extract_loop_run modelName entriesAll rest (i + 1) f
              st2 (parts0 ++ [{ idx := i, head := p.head, payload := p.payload, added_part := "", sub := [] }])
              (warns0 ++
                ((if p.head.magic ≠ 0xA324EB90 then [Warn.badMagic i] else []) ++
                ((if p.head.dt_len < 16 ∨ 134217728 < p.head.dt_len then [Warn.badSize i]
                  else []) ++
                ((if build_date_year p.head.build_date < 1970 ∨
                    build_date_month p.head.build_date < 1 ∨
                    12 < build_date_month p.head.build_date ∨
                    build_date_day p.head.build_date < 1 ∨
                    31 < build_date_day p.head.build_date then [Warn.dateInvalid i]
                  else if build_date_year p.head.build_date < 2004 then [Warn.dateOld i]
                  else []) ++
                (if p.head.padding.getD 0 0 ≠ 0 ∨
                    ¬ p.head.padding.all (fun x => x == p.head.padding.getD 0 0)
                  then [Warn.paddingUsed i] else [])))))
              tail20
              (by simp only [List.length_cons] at hiN; omega)
              ihargs.1 ihargs.2 hchainrest hst2lt htail hfuel2
            refine ⟨stF, ?_, ?_⟩
            · simp only [chainEnd, hcomb, Option.some_bind]
              exact hend
            · rw [hent0, if_pos hiNlt, hdroppay, hsubnil]
              simp only [List.nil_append]
              rw [if_neg hcond]
              rw [if_neg (by omega : ¬ entriesAll.length ≤ i),
                if_neg (show ¬ (amba_calculate_crc32b_part p.payload 0 ≠ p.head.crc32) by
                  rw [hcrcf]; exact fun h => h rfl),
                if_neg (show ¬ (st2 ≠ e.crc32) by rw [hecrc]; exact fun h => h rfl)]
              rw [← hR] at hrun
              simp only [List.append_assoc, List.append_nil] at hrun ⊢
              rw [hrun]
              simp only [partArtifactsFrom, benignWarnsFrom,
                if_neg (show ¬ p.sub.length ≠ 0 by omega)]
              rw [hsubnil]
              simp [List.append_assoc]
          · have hcond : ((e.dt_len : Int) - 256 > (p.head.dt_len : Int)) := by
              rw [hdt, hhdl]
              push_cast
              omega
            have hsize : e.dt_len - 256 - p.head.dt_len = p.sub.length := by
              rw [hdt, hhdl]
              omega
            have htakesub : (p.sub ++ R).take p.sub.length = p.sub := List.take_left _ _
            have hdropsub : (p.sub ++ R).drop p.sub.length = R := List.drop_left _ _
            obtain ⟨stF, hend, hrun⟩ := extract_loop_run modelName entriesAll rest (i + 1) f
              st2 (parts0 ++ [{ idx := i, head := p.head, payload := p.payload, added_part := (if cstr modelName = ydxj_z16 then "fdt" else amba_a9_part_entry_type_id i ++ "_bis"), sub := p.sub }])
              (warns0 ++
                ((if p.head.magic ≠ 0xA324EB90 then [Warn.badMagic i] else []) ++
                ((if p.head.dt_len < 16 ∨ 134217728 < p.head.dt_len then [Warn.badSize i]
                  else []) ++
                ((if build_date_year p.head.build_date < 1970 ∨
                    build_date_month p.head.build_date < 1 ∨
                    12 < build_date_month p.head.build_date ∨
                    build_date_day p.head.build_date < 1 ∨
                    31 < build_date_day p.head.build_date then [Warn.dateInvalid i]
                  else if build_date_year p.head.build_date < 2004 then [Warn.dateOld i]
                  else []) ++
                (if p.head.padding.getD 0 0 ≠ 0 ∨
                    ¬ p.head.padding.all (fun x => x == p.head.padding.getD 0 0)
                  then [Warn.paddingUsed i] else [])))))
              tail20
              (by simp only [List.length_cons] at hiN; omega)
              ihargs.1 ihargs.2 hchainrest hst2lt htail hfuel2
            refine ⟨stF, ?_, ?_⟩
            · simp only [chainEnd, hcomb, Option.some_bind]
              exact hend
            · rw [hent0, if_pos hiNlt, hdroppay]
              rw [if_pos hcond, hsize, htakesub, hdropsub]
              rw [if_neg hsl]
              rw [if_neg (by omega : ¬ entriesAll.length ≤ i),
                if_neg (show ¬ (amba_calculate_crc32b_part p.payload 0 ≠ p.head.crc32) by
                  rw [hcrcf]; exact fun h => h rfl),
                if_neg (show ¬ (st2 ≠ e.crc32) by rw [hecrc]; exact fun h => h rfl)]
              rw [← hR] at hrun
              simp only [List.append_assoc, List.append_nil] at hrun ⊢
              rw [hrun]
              simp only [partArtifactsFrom, benignWarnsFrom,
                if_pos (show p.sub.length ≠ 0 from hsl)]
              simp [List.append_assoc]

theorem flatten_map_serEntry_length : ∀ es : List FwModEntry,
    ((es.map serEntry).flatten).length = 8 * es.length
  | [] => rfl
  | e :: rest => by
      simp only [List.map_cons, List.flatten_cons, List.length_append, serEntry_length,
        List.length_cons, flatten_map_serEntry_length rest]
      omega

def slotLen : Option PartS → Nat
  | none => 0
  | some p => (serPartHead p.head).length + p.payload.length + p.sub.length

theorem renderParts_length : ∀ ps : List (Option PartS), (renderParts ps).length =
    (ps.map slotLen).sum
  | [] => rfl
  | none :: rest => by
      simp only [renderParts, List.map_cons, List.sum_cons, renderParts_length rest, slotLen]
      omega
  | some p :: rest => by
      simp only [renderParts, List.map_cons, List.sum_cons, renderParts_length rest,
        List.length_append, slotLen]
      omega

theorem parseEntry_append (a b : List Nat) (h : 8 ≤ a.length) :
    parseEntry (a ++ b) = parseEntry a := by
  unfold parseEntry rd32At
  rw [List.getD_append _ _ _ _ (by omega), List.getD_append _ _ _ _ (by omega),
    List.getD_append _ _ _ _ (by omega), List.getD_append _ _ _ _ (by omega),
    List.getD_append _ _ _ _ (by omega), List.getD_append _ _ _ _ (by omega),
    List.getD_append _ _ _ _ (by omega), List.getD_append _ _ _ _ (by omega)]

theorem rd32At_append_right (a b : List Nat) (k : Nat) :
    rd32At (a ++ b) (a.length + k) = rd32At b k := by
  unfold rd32At
  rw [List.getD_append_right _ _ _ _ (show a.length ≤ a.length + k by omega),
    List.getD_append_right _ _ _ _ (show a.length ≤ a.length + k + 1 by omega),
    List.getD_append_right _ _ _ _ (show a.length ≤ a.length + k + 2 by omega),
    List.getD_append_right _ _ _ _ (show a.length ≤ a.length + k + 3 by omega)]
  simp only [show a.length + k - a.length = k from by omega,
    show a.length + k + 1 - a.length = k + 1 from by omega,
    show a.length + k + 2 - a.length = k + 2 from by omega,
    show a.length + k + 3 - a.length = k + 3 from by omega]

theorem zip_map_snd : ∀ (as : List FwModEntry) (bs : List (Option PartS)),
    as.length = bs.length → (as.zip bs).map (fun q => q.2) = bs
  | [], [], _ => rfl
  | [], _ :: _, h => by simp at h
  | _ :: _, [], h => by simp at h
  | a :: as, b :: bs, h => by
      simp only [List.zip_cons_cons, List.map_cons, List.cons.injEq, true_and]
      exact zip_map_snd as bs (by simpa using h)

/-- Total length of a rendered container. -/
theorem render_length (S : ContainerS) : (render S).length =
    S.model_name.length + 4 + 8 * S.entries.length + S.post_head.length +
      (S.parts.map slotLen).sum + S.post_file.length + S.footer.length := by
  unfold render
  simp only [List.length_append, le32_length, flatten_map_serEntry_length, renderParts_length]
  omega

/-- Whether a slot carries a non-empty sub-payload. -/
def subUsed : Option PartS → Bool
  | none => false
  | some p => p.sub.length != 0

/-- Validity of a structured container: canonical NUL-padded model
name, the fixed block lengths, one slot per size-table entry, at most
128 entries with used slots confined to the 9 recognised type tags,
32-bit table fields, no entry matching the detector's stop pattern
while the post-header block (read as an entry) does stop the scan,
per-slot structural well-formedness, a terminating cumulative-checksum
chain whose per-entry snapshots and final complement match the stored
checksum fields, and (on the `YDXJ_Z16` model) at most one sub-payload
slot. -/
def ValidC (S : ContainerS) : Prop :=
  S.model_name.length = 32 ∧
  S.model_name = cstr S.model_name ++ List.replicate (32 - (cstr S.model_name).length) 0 ∧
  S.post_head.length = 192 ∧
  S.post_file.length = 16 ∧
  S.footer.length = 4 ∧
  S.parts.length = S.entries.length ∧
  S.entries.length ≤ 128 ∧
  S.header_crc < 2 ^ 32 ∧
  (∀ e ∈ S.entries, e.dt_len < 2 ^ 32 ∧ e.crc32 < 2 ^ 32) ∧
  (∀ j (hj : j < S.entries.length), entryStopPattern S.entries[j] = false ∧
    36 + j * 8 + S.entries[j].dt_len < (render S).length) ∧
  (entryStopPattern (parseEntry S.post_head) = true ∨
    36 + S.entries.length * 8 + (parseEntry S.post_head).dt_len ≥ (render S).length) ∧
  (∀ j (hj : j < (S.entries.zip S.parts).length),
    SlotOk (S.entries.zip S.parts)[j].1 (S.entries.zip S.parts)[j].2) ∧
  chainEnd (S.entries.zip S.parts) mask32 = some (S.header_crc ^^^ mask32) ∧
  chainOkB (S.entries.zip S.parts) mask32 = true ∧
  (∀ j (hj : j < S.parts.length), S.parts[j] ≠ none → j < 9) ∧
  (cstr S.model_name = ydxj_z16 →
    ∀ j (hj : j < S.parts.length) k (hk : k < S.parts.length),
      subUsed S.parts[j] = true → subUsed S.parts[k] = true → j = k)

instance instDecValidC (S : ContainerS) : Decidable (ValidC S) := by
  unfold ValidC
  infer_instance

/-- On a valid container, `amba_extract` succeeds and returns exactly
the container's structural content: its model name and header
checksum, its size table and the detector's positional type names,
its post-header block, one artifact per used slot (in slot order, with
payload, sub-payload and `added_part` line), the trailer exactly when
it differs from the constant, and only benign (non-checksum)
warnings. -/
theorem amba_extract_render (S : ContainerS) (hv : ValidC S) :
    amba_extract (render S) = .ok
      { modhead := ⟨S.model_name, S.header_crc⟩
        entries := S.entries
        ptyp_names := detectNamesFrom 0 S.entries
        post_head := S.post_head
        parts := partArtifactsFrom S.model_name 0 (S.entries.zip S.parts)
        post_file := if S.post_file = post_file_data then none else some S.post_file
        warns :=
          (if entryStopPattern (parseEntry S.post_head) = true then []
            else [Warn.detectUnusual]) ++
          (if S.post_head = post_head_data then [] else [Warn.postHeadMismatch]) ++
          benignWarnsFrom 0 (S.entries.zip S.parts) ++
          (if S.post_file = post_file_data then [] else [Warn.endNotExpected]) } := by
  obtain ⟨h32, hpad, h192, h16, h4, hplen, hN, hcrclt, hbounds, hents, hstop, hslots,
    hchainEnd, hchainOk, hused9, hsub1⟩ := hv
  have hzlen : (S.entries.zip S.parts).length = S.entries.length := by
    rw [List.length_zip, hplen, Nat.min_self]
  have hmapsnd : (S.entries.zip S.parts).map (fun q => q.2) = S.parts :=
    zip_map_snd S.entries S.parts hplen.symm
  have hfile_eq : render S = (S.model_name ++ le32 S.header_crc) ++
      ((S.entries.map serEntry).flatten ++ (S.post_head ++
        (renderParts S.parts ++ (S.post_file ++ S.footer)))) := by
    unfold render
    simp only [List.append_assoc]
  have hlen36 : (S.model_name ++ le32 S.header_crc).length = 36 := by
    rw [List.length_append, h32, le32_length]
  have htail8 :
      8 ≤ (S.post_head ++ (renderParts S.parts ++ (S.post_file ++ S.footer))).length := by
    rw [List.length_append]
    omega
  have hparse : parseEntry (S.post_head ++ (renderParts S.parts ++ (S.post_file ++ S.footer)))
      = parseEntry S.post_head :=
    parseEntry_append _ _ (by omega)
  have hdet := detect_entries_run2 (render S).length S.entries 0 129 [] []
    (S.post_head ++ (renderParts S.parts ++ (S.post_file ++ S.footer)))
    hbounds
    (fun j hj => by
      have h2 := hents j hj
      exact ⟨h2.1, by simpa using h2.2⟩)
    htail8
    (by
      rw [hparse]
      rcases hstop with h | h
      · exact Or.inl h
      · exact Or.inr (by simpa using h))
    (by omega)
  have htake32 : (render S).take 32 = S.model_name := by
    unfold render
    exact List.take_left' h32
  have hrd : rd32At (render S) 32 = S.header_crc := by
    unfold render
    rw [show (32 : Nat) = S.model_name.length + 0 by omega, rd32At_append_right,
      rd32At_le32 _ hcrclt]
  have hdrop36 : (render S).drop 36 = (S.entries.map serEntry).flatten ++
      (S.post_head ++ (renderParts S.parts ++ (S.post_file ++ S.footer))) := by
    rw [hfile_eq, ← hlen36, List.drop_left]
  have htake192 : (S.post_head ++ (renderParts S.parts ++ (S.post_file ++ S.footer))).take 192
      = S.post_head := List.take_left' h192
  have hdrop192 : (S.post_head ++ (renderParts S.parts ++ (S.post_file ++ S.footer))).drop 192
      = renderParts S.parts ++ (S.post_file ++ S.footer) := List.drop_left' h192
  have hloop := extract_loop_run S.model_name S.entries (S.entries.zip S.parts) 0
    (S.entries.length +
      (S.post_head ++ (renderParts S.parts ++ (S.post_file ++ S.footer))).length + 2)
    0xffffffff []
    ((if (if entryStopPattern (parseEntry S.post_head) then DetectStop.stopPattern
        else DetectStop.overSize) = DetectStop.overSize then [Warn.detectUnusual] else []) ++
      (if S.post_head ≠ post_head_data then [Warn.postHeadMismatch] else []))
    (S.post_file ++ S.footer)
    (by simpa using hzlen)
    (fun j hj => by
      have hj' : j < S.entries.length := by rw [← hzlen]; exact hj
      rw [Nat.zero_add, List.getD_eq_getElem _ _ hj', List.getElem_zip])
    hslots
    hchainOk
    (by norm_num)
    (by rw [List.length_append, h16, h4])
    (by
      rw [hmapsnd, hzlen]
      simp only [List.length_append]
      omega)
  obtain ⟨stF, hce, hrun⟩ := hloop
  have hstF : stF = S.header_crc ^^^ mask32 := by
    have h1 : some (S.header_crc ^^^ mask32) = some stF := by
      rw [← hce]
      exact hchainEnd.symm
    exact (Option.some.injEq _ _ ▸ h1).symm
  unfold amba_extract
  rw [if_neg (show ¬ (render S).length < 36 by
    rw [hfile_eq, List.length_append, hlen36]; omega)]
  unfold amba_detect
  rw [hdrop36]
  simp only [hdet, List.nil_append]
  rw [if_neg (show ¬ (S.post_head ++
      (renderParts S.parts ++ (S.post_file ++ S.footer))).length < 192 by
    rw [List.length_append]; omega)]
  rw [htake192, hdrop192, htake32, hrd, hparse]
  rw [hmapsnd] at hrun
  simp only [hrun, List.nil_append]
  rw [hstF, xor_mask32_xor_mask32,
    if_neg (show ¬ S.header_crc ≠ S.header_crc from fun h => h rfl)]
  rw [show (S.post_file ++ S.footer).take 16 = S.post_file from List.take_left' h16]
  by_cases hsp : entryStopPattern (parseEntry S.post_head) = true
  · rw [if_pos hsp, if_pos hsp,
      if_neg (show ¬ DetectStop.stopPattern = DetectStop.overSize by simp)]
    by_cases hph : S.post_head = post_head_data
    · rw [if_neg (show ¬ S.post_head ≠ post_head_data from fun h => h hph), if_pos hph]
      by_cases hpf : S.post_file = post_file_data
      · simp [hpf, List.append_assoc]
      · simp [hpf, List.append_assoc]
    · rw [if_pos (show S.post_head ≠ post_head_data from hph), if_neg hph]
      by_cases hpf : S.post_file = post_file_data
      · simp [hpf, List.append_assoc]
      · simp [hpf, List.append_assoc]
  · rw [if_neg hsp, if_neg hsp, if_pos rfl]
    by_cases hph : S.post_head = post_head_data
    · rw [if_neg (show ¬ S.post_head ≠ post_head_data from fun h => h hph), if_pos hph]
      by_cases hpf : S.post_file = post_file_data
      · simp [hpf, List.append_assoc]
      · simp [hpf, List.append_assoc]
    · rw [if_pos (show S.post_head ≠ post_head_data from hph), if_neg hph]
      by_cases hpf : S.post_file = post_file_data
      · simp [hpf, List.append_assoc]
      · simp [hpf, List.append_assoc]

set_option maxRecDepth 40000 in
theorem tag_inj : ∀ i, i < 129 → ∀ j, j < 9 →
    amba_a9_part_entry_type_id i = amba_a9_part_entry_type_id j → i = j := by decide

theorem tag_ne_fdt : ∀ j, j < 9 → amba_a9_part_entry_type_id j ≠ "fdt" := by decide

theorem tag_ne_bis : ∀ i, i < 9 → ∀ j, j < 9 →
    amba_a9_part_entry_type_id i ≠ amba_a9_part_entry_type_id j ++ "_bis" := by decide

theorem tag_bis_inj : ∀ i, i < 9 → ∀ j, j < 9 →
    amba_a9_part_entry_type_id i ++ "_bis" = amba_a9_part_entry_type_id j ++ "_bis" →
    i = j := by decide

theorem tag_bis_ne_empty : ∀ j, j < 9 → amba_a9_part_entry_type_id j ++ "_bis" ≠ "" := by
  decide

theorem tag_mem_types : ∀ j, j < 9 → amba_a9_part_entry_type_id j ∈ part_entry_type_id := by
  decide

/-- Reading back an exported partition-header sidecar reproduces the
header, up to the `crc32` and `dt_len` fields the reader zeroes, for
any canonical header (32-bit version and build date, minor version
below the reader's modulus, the magic constant and all-zero
padding). -/
theorem read_export_part_head (h : FwModPartHeader) (added : String)
    (hver : h.version < 2 ^ 32) (hvm : version_minor h.version ≠ 65535)
    (hbd : h.build_date < 2 ^ 32)
    (hmagic : h.magic = 0xA324EB90) (hpad : h.padding = List.replicate 56 0) :
    amba_read_part_head (exportPartHead h added) =
      ({ h with crc32 := 0, dt_len := 0 }, added) := by
  have hverx : ((version_major h.version &&& 0xffff) <<< 16) +
      version_minor h.version % 0xffff = h.version := by
    have hmajv := version_major_eq_shift h.version hver
    have hminv := version_minor_eq_mod h.version
    have hmaj32 : version_major h.version &&& 0xffff = version_major h.version := by
      rw [show (0xffff : Nat) = 2 ^ 16 - 1 by norm_num, Nat.and_pow_two_sub_one_eq_mod]
      apply Nat.mod_eq_of_lt
      rw [hmajv, Nat.shiftRight_eq_div_pow]
      omega
    have hmlt : version_minor h.version < 65535 := by
      have : version_minor h.version ≤ 65535 := by
        rw [hminv]
        omega
      omega
    rw [hmaj32, hmajv, hminv, Nat.shiftLeft_eq, Nat.shiftRight_eq_div_pow,
      Nat.mod_eq_of_lt (by omega)]
    omega
  have hbdx : ((build_date_year h.build_date &&& 0xffff) <<< 16) +
      ((build_date_month h.build_date &&& 0xff) <<< 8) +
      (build_date_day h.build_date &&& 0xff) = h.build_date := by
    unfold build_date_year build_date_month build_date_day
    rw [show (65535 : Nat) = 2 ^ 16 - 1 by norm_num, show (255 : Nat) = 2 ^ 8 - 1 by norm_num]
    simp only [Nat.and_pow_two_sub_one_eq_mod, Nat.shiftRight_eq_div_pow, Nat.shiftLeft_eq]
    rw [show (2 : Nat) ^ 16 = 65536 by norm_num, show (2 : Nat) ^ 8 = 256 by norm_num]
    omega
  unfold amba_read_part_head exportPartHead
  simp only
  rw [hverx, hbdx, ← hmagic, ← hpad]

theorem partArtifactsFrom_mem (modelName : List Nat) :
    ∀ (pairs : List (FwModEntry × Option PartS)) (i0 : Nat) (q : PartArtifact),
    q ∈ partArtifactsFrom modelName i0 pairs →
    ∃ j, ∃ hj : j < pairs.length, ∃ p : PartS, pairs[j].2 = some p ∧ q.idx = i0 + j ∧
      q.head = p.head ∧ q.payload = p.payload ∧ q.sub = p.sub ∧
      q.added_part = (if p.sub.length ≠ 0 then
        (if cstr modelName = ydxj_z16 then "fdt"
         else amba_a9_part_entry_type_id (i0 + j) ++ "_bis") else "")
  | [], i0, q => by
      intro h
      exact absurd h (by simp [partArtifactsFrom])
  | (e, none) :: rest, i0, q => by
      intro h
      obtain ⟨j, hj, p, h1, h2, h3, h4, h5, h6⟩ :=
        partArtifactsFrom_mem modelName rest (i0 + 1) q (by simpa [partArtifactsFrom] using h)
      refine ⟨j + 1, by simpa using Nat.succ_lt_succ hj, p, ?_, ?_, h3, h4, h5, ?_⟩
      · simpa using h1
      · omega
      · rw [h6, show i0 + 1 + j = i0 + (j + 1) by omega]
  | (e, some p0) :: rest, i0, q => by
      intro h
      simp only [partArtifactsFrom, List.mem_cons] at h
      rcases h with h | h
      · refine ⟨0, by simp, p0, by simp, ?_, ?_, ?_, ?_, ?_⟩ <;>
          rw [h] <;> simp
      · obtain ⟨j, hj, p, h1, h2, h3, h4, h5, h6⟩ :=
          partArtifactsFrom_mem modelName rest (i0 + 1) q h
        refine ⟨j + 1, by simpa using Nat.succ_lt_succ hj, p, ?_, ?_, h3, h4, h5, ?_⟩
        · simpa using h1
        · omega
        · rw [h6, show i0 + 1 + j = i0 + (j + 1) by omega]

/-- The artifact extraction records for the used slot at index `i`
holding `p`. -/
def artifactFor (modelName : List Nat) (i : Nat) (p : PartS) : PartArtifact :=
  { idx := i, head := p.head, payload := p.payload,
    added_part := if p.sub.length ≠ 0 then
        (if cstr modelName = ydxj_z16 then "fdt"
         else amba_a9_part_entry_type_id i ++ "_bis")
      else "",
    sub := p.sub }

theorem partArtifactsFrom_find_tag (modelName : List Nat) :
    ∀ (pairs : List (FwModEntry × Option PartS)) (i0 j : Nat) (hj : j < pairs.length)
      (p : PartS),
    pairs[j].2 = some p →
    (∀ k, k < pairs.length →
      amba_a9_part_entry_type_id (i0 + k) = amba_a9_part_entry_type_id (i0 + j) → k = j) →
    (partArtifactsFrom modelName i0 pairs).find?
        (fun q => amba_a9_part_entry_type_id q.idx == amba_a9_part_entry_type_id (i0 + j)) =
      some (artifactFor modelName (i0 + j) p)
  | [], i0, j, hj, p => by
      intro _ _
      exact absurd hj (by simp)
  | (e, none) :: rest, i0, j, hj, p => by
      intro hsome hinj
      match j, hj with
      | 0, hj0 => exact absurd hsome (by simp)
      | k + 1, hjk =>
        have hrec := partArtifactsFrom_find_tag modelName rest (i0 + 1) k
          (by simpa using hjk) p (by simpa using hsome)
          (fun k2 hk2 heq => by
            have := hinj (k2 + 1) (by simpa using Nat.succ_lt_succ hk2)
              (by rw [show i0 + (k2 + 1) = i0 + 1 + k2 by omega,
                show i0 + (k + 1) = i0 + 1 + k by omega]; exact heq)
            omega)
        simp only [partArtifactsFrom]
        rw [show i0 + (k + 1) = i0 + 1 + k by omega]
        exact hrec
  | (e, some p0) :: rest, i0, j, hj, p => by
      intro hsome hinj
      match j, hj with
      | 0, hj0 =>
        have hp : p0 = p := by simpa using hsome
        simp only [partArtifactsFrom]
        rw [List.find?_cons_of_pos _ (by simp)]
        rw [hp, Nat.add_zero]
        rfl
      | k + 1, hjk =>
        have hne : amba_a9_part_entry_type_id i0 ≠ amba_a9_part_entry_type_id (i0 + (k + 1)) := by
          intro heq
          have := hinj 0 (by simp) (by rw [Nat.add_zero]; exact heq)
          omega
        simp only [partArtifactsFrom]
        rw [List.find?_cons_of_neg _ (by simpa using hne)]
        have hrec := partArtifactsFrom_find_tag modelName rest (i0 + 1) k
          (by simpa using hjk) p (by simpa using hsome)
          (fun k2 hk2 heq => by
            have := hinj (k2 + 1) (by simpa using Nat.succ_lt_succ hk2)
              (by rw [show i0 + (k2 + 1) = i0 + 1 + k2 by omega,
                show i0 + (k + 1) = i0 + 1 + k by omega]; exact heq)
            omega)
        rw [show i0 + (k + 1) = i0 + 1 + k by omega]
        exact hrec


theorem partArtifactsFrom_find_added (modelName : List Nat) :
    ∀ (pairs : List (FwModEntry × Option PartS)) (i0 j : Nat) (hj : j < pairs.length)
      (p : PartS) (t : String),
    pairs[j].2 = some p → p.sub.length ≠ 0 →
    t = (if cstr modelName = ydxj_z16 then "fdt"
         else amba_a9_part_entry_type_id (i0 + j) ++ "_bis") →
    t ≠ "" →
    (∀ k, k < pairs.length → ∀ q : PartS, (pairs.getD k (⟨0, 0⟩, none)).2 = some q →
      q.sub.length ≠ 0 →
      (if cstr modelName = ydxj_z16 then "fdt"
       else amba_a9_part_entry_type_id (i0 + k) ++ "_bis") = t → k = j) →
    (partArtifactsFrom modelName i0 pairs).find?
        (fun q => q.added_part == t && q.added_part != "") =
      some (artifactFor modelName (i0 + j) p)
  | [], i0, j, hj, p, t => by
      intro _ _ _ _ _
      exact absurd hj (by simp)
  | (e, none) :: rest, i0, j, hj, p, t => by
      intro hsome hsub ht htne huniq
      match j, hj with
      | 0, hj0 => exact absurd hsome (by simp)
      | k + 1, hjk =>
        have hrec := partArtifactsFrom_find_added modelName rest (i0 + 1) k
          (by simpa using hjk) p t (by simpa using hsome) hsub
          (by rw [ht, show i0 + (k + 1) = i0 + 1 + k by omega])
          htne
          (fun k2 hk2 q hq hqs heq => by
            have := huniq (k2 + 1) (by simpa using Nat.succ_lt_succ hk2) q
              (by rw [List.getD_cons_succ]; exact hq)
              hqs
              (by rw [show i0 + (k2 + 1) = i0 + 1 + k2 by omega]; exact heq)
            omega)
        simp only [partArtifactsFrom]
        rw [show i0 + (k + 1) = i0 + 1 + k by omega]
        exact hrec
  | (e, some p0) :: rest, i0, j, hj, p, t => by
      intro hsome hsub ht htne huniq
      match j, hj with
      | 0, hj0 =>
        have hp : p0 = p := by simpa using hsome
        subst hp
        rw [Nat.add_zero] at ht
        simp only [partArtifactsFrom]
        rw [List.find?_cons_of_pos _ (by
          simp only [if_pos hsub, ← ht, beq_self_eq_true, Bool.true_and, bne_iff_ne, ne_eq]
          simpa using htne)]
        rw [Nat.add_zero]
        show some _ = some (artifactFor modelName i0 p0)
        unfold artifactFor
        rw [if_pos hsub]
      | k + 1, hjk =>
        have hpred : ((if p0.sub.length ≠ 0 then
            (if cstr modelName = ydxj_z16 then "fdt"
             else amba_a9_part_entry_type_id i0 ++ "_bis") else "") == t &&
            (if p0.sub.length ≠ 0 then
            (if cstr modelName = ydxj_z16 then "fdt"
             else amba_a9_part_entry_type_id i0 ++ "_bis") else "") != "") = false := by
          by_cases hs0 : p0.sub.length ≠ 0
          · rw [if_pos hs0]
            have hne : (if cstr modelName = ydxj_z16 then "fdt"
                else amba_a9_part_entry_type_id i0 ++ "_bis") ≠ t := by
              intro heq
              have := huniq 0 (by simp) p0 (by simp) hs0 (by rw [Nat.add_zero]; exact heq)
              omega
            rw [beq_eq_false_iff_ne.mpr hne, Bool.false_and]
          · rw [if_neg hs0]
            simp
        simp only [partArtifactsFrom]
        rw [List.find?_cons_of_neg _ (by rw [hpred]; simp)]
        have hrec := partArtifactsFrom_find_added modelName rest (i0 + 1) k
          (by simpa using hjk) p t (by simpa using hsome) hsub
          (by rw [ht, show i0 + (k + 1) = i0 + 1 + k by omega])
          htne
          (fun k2 hk2 q hq hqs heq => by
            have := huniq (k2 + 1) (by simpa using Nat.succ_lt_succ hk2) q
              (by rw [List.getD_cons_succ]; exact hq)
              hqs
              (by rw [show i0 + (k2 + 1) = i0 + 1 + k2 by omega]; exact heq)
            omega)
        rw [show i0 + (k + 1) = i0 + 1 + k by omega]
        exact hrec

theorem detectNamesFrom_mem : ∀ (es : List FwModEntry) (i0 : Nat) (t : String),
    t ∈ detectNamesFrom i0 es ↔
      ∃ j, ∃ hj : j < es.length, 0 < es[j].dt_len ∧ amba_a9_part_entry_type_id (i0 + j) = t
  | [], i0, t => by
      simp [detectNamesFrom]
  | e :: rest, i0, t => by
      simp only [detectNamesFrom, List.mem_append]
      constructor
      · intro h
        rcases h with h | h
        · by_cases hd : e.dt_len > 0
          · rw [if_pos hd] at h
            simp only [List.mem_singleton] at h
            exact ⟨0, by simp, by simpa using hd, by rw [Nat.add_zero]; exact h.symm⟩
          · rw [if_neg hd] at h
            simp at h
        · obtain ⟨j, hj, hd, he⟩ := (detectNamesFrom_mem rest (i0 + 1) t).mp h
          exact ⟨j + 1, by simpa using Nat.succ_lt_succ hj, by simpa using hd,
            by rw [show i0 + (j + 1) = i0 + 1 + j by omega]; exact he⟩
      · intro ⟨j, hj, hd, he⟩
        match j, hj with
        | 0, hj0 =>
          left
          rw [if_pos (by simpa using hd)]
          simp only [List.mem_singleton]
          rw [← he, Nat.add_zero]
        | k + 1, hjk =>
          right
          exact (detectNamesFrom_mem rest (i0 + 1) t).mpr
            ⟨k, by simpa using hjk, by simpa using hd,
              by rw [show i0 + 1 + k = i0 + (k + 1) by omega]; exact he⟩

/-- The in-memory header the first construction pass records for a slot. -/
def headOf : Option PartS → FwModPartHeader
  | none => zeroPartHead
  | some p => p.head

/-- The bytes the first construction pass writes for a slot. -/
def blockOf : Option PartS → List Nat
  | none => []
  | some p => serPartHead p.head ++ p.payload ++ p.sub

/-- On artifacts that resolve the slot's tag to the slot's own payload,
sidecar and sub-payload, the first construction pass reproduces the
slot byte-for-byte: its block is the slot's header, payload and
sub-payload, the recorded header is the slot's header, and the patched
size-table entry re-declares the original length. -/
theorem create_slot_used_eq (a : Artifacts) (i : Nat) (e : FwModEntry) (p : PartS) (A : String)
    (hslot : SlotOk e (some p))
    (hmem : amba_a9_part_entry_type_id i ∈ a.part_load)
    (hpay : a.payload (amba_a9_part_entry_type_id i) = p.payload)
    (hhf : a.headfile (amba_a9_part_entry_type_id i) =
      exportPartHead p.head (if p.sub.length ≠ 0 then A else ""))
    (hsubA : p.sub.length ≠ 0 → A ≠ "" ∧ a.payload A = p.sub) :
    create_slot a i ⟨e.dt_len, 0⟩ =
      (serPartHead p.head ++ p.payload ++ p.sub, p.head, ⟨e.dt_len, 0⟩) := by
  obtain ⟨hlen, hdt, hp1, hp4, hpad, hmagic, hcrc, hvm, hc32, hv32, hb32, hd32, hm32, hf32⟩ :=
    hslot
  simp only [create_slot]
  rw [if_neg (not_not_intro hmem), hpay, if_neg (by omega), hhf,
    read_export_part_head p.head _ hv32 hvm hb32 hmagic hpad,
    create_copy_data_spec _ _ _ _ (by omega) (by norm_num)]
  simp only [Nat.zero_add]
  have hcrcb : amba_calculate_crc32b_part p.payload 0 = p.head.crc32 := hcrc.symm
  by_cases hps : p.sub.length ≠ 0
  · obtain ⟨hAne, hApay⟩ := hsubA hps
    rw [if_pos hps]
    rw [if_pos hAne, hApay, ← hdt, hcrcb]
    rw [show 256 + p.head.dt_len + p.sub.length = e.dt_len by omega]
  · have hsubnil : p.sub = [] := List.length_eq_zero.mp (not_not.mp hps)
    rw [if_neg hps]
    rw [if_neg (by simp), hsubnil, ← hdt, hcrcb]
    simp only [List.append_nil, List.length_nil]
    rw [show 256 + p.head.dt_len + 0 = e.dt_len by omega]

theorem create_slot_unused_eq (a : Artifacts) (i : Nat) (d : Nat)
    (hnm : amba_a9_part_entry_type_id i ∉ a.part_load) :
    create_slot a i ⟨d, 0⟩ = ([], zeroPartHead, ⟨d, 0⟩) := by
  simp only [create_slot]
  rw [if_pos hnm]

theorem create_slots_range' (a : Artifacts) :
    ∀ (pairs : List (FwModEntry × Option PartS)) (i0 : Nat),
    (∀ j (hj : j < pairs.length), a.part_sizes.getD (i0 + j) 0 = pairs[j].1.dt_len) →
    (∀ j (hj : j < pairs.length),
      create_slot a (i0 + j) ⟨pairs[j].1.dt_len, 0⟩ =
        (blockOf pairs[j].2, headOf pairs[j].2, ⟨pairs[j].1.dt_len, 0⟩)) →
    ((List.range' i0 pairs.length).map
        fun i => create_slot a i ⟨a.part_sizes.getD i 0, 0⟩) =
      pairs.map fun q => (blockOf q.2, headOf q.2, (⟨q.1.dt_len, 0⟩ : FwModEntry))
  | [], i0 => by
      intro _ _
      rfl
  | q :: rest, i0 => by
      intro hsz hcs
      show ((i0 :: List.range' (i0 + 1) rest.length).map
          fun i => create_slot a i ⟨a.part_sizes.getD i 0, 0⟩) = _
      rw [List.map_cons, List.map_cons]
      have h0 : a.part_sizes.getD i0 0 = q.1.dt_len := by
        have := hsz 0 (by simp)
        simpa using this
      have hc0 : create_slot a i0 ⟨q.1.dt_len, 0⟩ = (blockOf q.2, headOf q.2, ⟨q.1.dt_len, 0⟩) := by
        have := hcs 0 (by simp)
        simpa using this
      rw [h0, hc0]
      rw [create_slots_range' a rest (i0 + 1)
        (fun j hj => by
          have := hsz (j + 1) (by simpa using Nat.succ_lt_succ hj)
          rw [show i0 + (j + 1) = i0 + 1 + j by omega] at this
          simpa using this)
        (fun j hj => by
          have := hcs (j + 1) (by simpa using Nat.succ_lt_succ hj)
          rw [show i0 + (j + 1) = i0 + 1 + j by omega] at this
          simpa using this)]

theorem flatten_blockOf : ∀ parts : List (Option PartS),
    (parts.map blockOf).flatten = renderParts parts
  | [] => rfl
  | none :: rest => by
      simp only [List.map_cons, List.flatten_cons, blockOf, renderParts,
        flatten_blockOf rest, List.nil_append]
  | some p :: rest => by
      simp only [List.map_cons, List.flatten_cons, blockOf, renderParts,
        flatten_blockOf rest, List.append_assoc]

/-- The second construction pass, walked over slot pairs whose
recorded headers and payload artifacts match a checksum-correct
chain: every stamped entry reproduces the original size-table entry,
and the final state is the chain's end state. -/
theorem create_crc_pass_run (a : Artifacts) :
    ∀ (pairs : List (FwModEntry × Option PartS)) (i0 st : Nat),
    st < 2 ^ 32 →
    (∀ j (hj : j < pairs.length), SlotOk pairs[j].1 pairs[j].2) →
    chainOkB pairs st = true →
    (∀ j (hj : j < pairs.length) (p : PartS), pairs[j].2 = some p →
      a.payload (amba_a9_part_entry_type_id (i0 + j)) = p.payload) →
    ∃ stF, chainEnd pairs st = some stF ∧
      create_crc_pass a i0
          (pairs.map fun q => ((⟨q.1.dt_len, 0⟩ : FwModEntry), headOf q.2)) st =
        some (pairs.map (fun q => q.1), stF)
  | [], i0, st => by
      intro _ _ _ _
      exact ⟨st, rfl, rfl⟩
  | (e, none) :: rest, i0, st => by
      intro hst hslots hchain hpay
      have he : e = ⟨0, 0⟩ := by
        have := hslots 0 (by simp)
        simpa [SlotOk] using this
      obtain ⟨stF, hce, hcp⟩ := create_crc_pass_run a rest (i0 + 1) st hst
        (fun j hj => by
          have := hslots (j + 1) (by simpa using Nat.succ_lt_succ hj)
          simpa using this)
        (by simpa [chainOkB] using hchain)
        (fun j hj p hp => by
          have := hpay (j + 1) (by simpa using Nat.succ_lt_succ hj) p (by simpa using hp)
          rw [show i0 + (j + 1) = i0 + 1 + j by omega] at this
          exact this)
      refine ⟨stF, by simpa [chainEnd] using hce, ?_⟩
      simp only [List.map_cons, create_crc_pass]
      rw [if_pos (show (⟨e.dt_len, 0⟩ : FwModEntry).dt_len < 1 by rw [he]; decide)]
      rw [hcp]
      simp only [Option.map_some']
      rw [show (⟨e.dt_len, 0⟩ : FwModEntry) = e by rw [he]]
  | (e, some p) :: rest, i0, st => by
      intro hst hslots hchain hpay
      have hslot0 : SlotOk e (some p) := by
        have := hslots 0 (by simp)
        simpa using this
      obtain ⟨hlen, hdt, hp1, hp4, hpadh, hmagic, hcrch, hvm, hc32, hv32, hb32, hd32,
        hm32, hf32⟩ := hslot0
      have hpay0 : a.payload (amba_a9_part_entry_type_id i0) = p.payload := by
        have := hpay 0 (by simp) p (by simp)
        simpa using this
      simp only [chainOkB] at hchain
      cases hcr : crc32h_result (serPartHead p.head ++ p.payload) st with
      | none => rw [hcr] at hchain; exact absurd hchain (by simp)
      | some st2 =>
        rw [hcr] at hchain
        have hecrc : e.crc32 = st2 := by
          have := (Bool.and_eq_true _ _).mp hchain
          exact beq_iff_eq.mp this.1
        have hchain2 : chainOkB rest st2 = true :=
          ((Bool.and_eq_true _ _).mp hchain).2
        obtain ⟨stF, hce, hcp⟩ := create_crc_pass_run a rest (i0 + 1) st2
          (crc32h_result_some_lt hcr)
          (fun j hj => by
            have := hslots (j + 1) (by simpa using Nat.succ_lt_succ hj)
            simpa using this)
          hchain2
          (fun j hj q hq => by
            have := hpay (j + 1) (by simpa using Nat.succ_lt_succ hj) q (by simpa using hq)
            rw [show i0 + (j + 1) = i0 + 1 + j by omega] at this
            exact this)
        refine ⟨stF, ?_, ?_⟩
        · simp only [chainEnd, hcr, Option.some_bind]
          exact hce
        · simp only [List.map_cons, create_crc_pass]
          rw [if_neg (show ¬ (⟨e.dt_len, 0⟩ : FwModEntry).dt_len < 1 by
            show ¬ e.dt_len < 1
            omega)]
          rw [show headOf (some p) = p.head from rfl]
          rw [create_entry_cumulative_spec _ _ _ _ (serPartHead_length_mod4 p.head) hst]
          rw [hpay0, hdt, List.take_length, hcr]
          simp only [Option.some_bind]
          rw [hcp]
          simp only [Option.map_some']
          rw [show ({ (⟨e.dt_len, 0⟩ : FwModEntry) with crc32 := st2 } : FwModEntry) = e by
            rw [← hecrc]]

theorem zip_map_fst : ∀ (as : List FwModEntry) (bs : List (Option PartS)),
    as.length = bs.length → (as.zip bs).map (fun q => q.1) = as
  | [], [], _ => rfl
  | [], _ :: _, h => by simp at h
  | _ :: _, [], h => by simp at h
  | a :: as, b :: bs, h => by
      simp only [List.zip_cons_cons, List.map_cons, List.cons.injEq, true_and]
      exact zip_map_fst as bs (by simpa using h)

/-- The extraction result on a valid container (`amba_extract_render`). -/
def extractOut (S : ContainerS) : ExtractResult :=
  { modhead := ⟨S.model_name, S.header_crc⟩
    entries := S.entries
    ptyp_names := detectNamesFrom 0 S.entries
    post_head := S.post_head
    parts := partArtifactsFrom S.model_name 0 (S.entries.zip S.parts)
    post_file := if S.post_file = post_file_data then none else some S.post_file
    warns :=
      (if entryStopPattern (parseEntry S.post_head) = true then []
        else [Warn.detectUnusual]) ++
      (if S.post_head = post_head_data then [] else [Warn.postHeadMismatch]) ++
      benignWarnsFrom 0 (S.entries.zip S.parts) ++
      (if S.post_file = post_file_data then [] else [Warn.endNotExpected]) }

/-- The canonical footer construction writes back for a container. -/
def canonFooter (S : ContainerS) : List Nat :=
  le32 (amba_calculate_crc32 ((render S).take ((render S).length - 20)))

/-- A container after one extract/construct round trip: identical
except for the recomputed footer. -/
def recreated (S : ContainerS) : ContainerS := { S with footer := canonFooter S }

theorem payload_of_find_tag (r : ExtractResult) (t : String) (q : PartArtifact)
    (h : r.parts.find? (fun p => amba_a9_part_entry_type_id p.idx == t) = some q) :
    (artifactsOfExtract r).payload t = q.payload := by
  unfold artifactsOfExtract
  simp only [h]

theorem headfile_of_find_tag (r : ExtractResult) (t : String) (q : PartArtifact)
    (h : r.parts.find? (fun p => amba_a9_part_entry_type_id p.idx == t) = some q) :
    (artifactsOfExtract r).headfile t = exportPartHead q.head q.added_part := by
  unfold artifactsOfExtract
  simp only [h]

theorem payload_of_find_added (r : ExtractResult) (t : String) (q : PartArtifact)
    (h1 : r.parts.find? (fun p => amba_a9_part_entry_type_id p.idx == t) = none)
    (h2 : r.parts.find? (fun p => p.added_part == t && p.added_part != "") = some q) :
    (artifactsOfExtract r).payload t = q.sub := by
  unfold artifactsOfExtract
  simp only [h1, h2]

/-- Constructing from the artifact store of a valid container's
extraction reproduces the container byte-for-byte, except that the
4-byte footer is recomputed over the new file. -/
theorem amba_create_of_valid (S : ContainerS) (hv : ValidC S) :
    amba_create (artifactsOfExtract (extractOut S)) = .ok (render (recreated S)) := by
  obtain ⟨h32, hpad, h192, h16, h4, hplen, hN, hcrclt, hbounds, hents, hstop, hslots,
    hchainEnd, hchainOk, hused9, hsub1⟩ := hv
  have hzlen : (S.entries.zip S.parts).length = S.entries.length := by
    rw [List.length_zip, hplen, Nat.min_self]
  have hmapsnd : (S.entries.zip S.parts).map (fun q => q.2) = S.parts :=
    zip_map_snd S.entries S.parts hplen.symm
  have hmapfst : (S.entries.zip S.parts).map (fun q => q.1) = S.entries :=
    zip_map_fst S.entries S.parts hplen.symm
  have husedlt9 : ∀ j (hj : j < (S.entries.zip S.parts).length) (p : PartS),
      (S.entries.zip S.parts)[j].2 = some p → j < 9 := by
    intro j hj p hp
    have hj2 : j < S.parts.length := by rw [hplen]; omega
    apply hused9 j hj2
    rw [List.getElem_zip] at hp
    simp only at hp
    rw [hp]
    simp
  have hdtpos : ∀ j (hj : j < (S.entries.zip S.parts).length) (p : PartS),
      (S.entries.zip S.parts)[j].2 = some p →
      (S.entries.zip S.parts)[j].1.dt_len = 256 + p.payload.length + p.sub.length := by
    intro j hj p hp
    have hsl := hslots j hj
    rw [hp] at hsl
    exact hsl.1
  have hinjpairs : ∀ j (hj : j < (S.entries.zip S.parts).length) (p : PartS),
      (S.entries.zip S.parts)[j].2 = some p →
      ∀ k, k < (S.entries.zip S.parts).length →
        amba_a9_part_entry_type_id (0 + k) = amba_a9_part_entry_type_id (0 + j) → k = j := by
    intro j hj p hp k hk heq
    have hj9 := husedlt9 j hj p hp
    simp only [Nat.zero_add] at heq
    exact tag_inj k (by omega) j (by omega) heq
  have hfindtag : ∀ j (hj : j < (S.entries.zip S.parts).length) (p : PartS),
      (S.entries.zip S.parts)[j].2 = some p →
      (partArtifactsFrom S.model_name 0 (S.entries.zip S.parts)).find?
          (fun q => amba_a9_part_entry_type_id q.idx == amba_a9_part_entry_type_id j) =
        some (artifactFor S.model_name j p) := by
    intro j hj p hp
    have hf := partArtifactsFrom_find_tag S.model_name (S.entries.zip S.parts) 0 j hj p hp
      (hinjpairs j hj p hp)
    simpa using hf
  have hpayj : ∀ j (hj : j < (S.entries.zip S.parts).length) (p : PartS),
      (S.entries.zip S.parts)[j].2 = some p →
      (artifactsOfExtract (extractOut S)).payload (amba_a9_part_entry_type_id j) =
        p.payload := by
    intro j hj p hp
    exact payload_of_find_tag (extractOut S) _ _ (hfindtag j hj p hp)
  have hhfj : ∀ j (hj : j < (S.entries.zip S.parts).length) (p : PartS),
      (S.entries.zip S.parts)[j].2 = some p →
      (artifactsOfExtract (extractOut S)).headfile (amba_a9_part_entry_type_id j) =
        exportPartHead p.head (if p.sub.length ≠ 0 then
          (if cstr S.model_name = ydxj_z16 then "fdt"
           else amba_a9_part_entry_type_id j ++ "_bis") else "") := by
    intro j hj p hp
    have hhf := headfile_of_find_tag (extractOut S) _ _ (hfindtag j hj p hp)
    rw [hhf]
    rfl
  have hmemj : ∀ j (hj : j < (S.entries.zip S.parts).length) (p : PartS),
      (S.entries.zip S.parts)[j].2 = some p →
      amba_a9_part_entry_type_id j ∈ (artifactsOfExtract (extractOut S)).part_load := by
    intro j hj p hp
    show amba_a9_part_entry_type_id j ∈ detectNamesFrom 0 S.entries
    apply (detectNamesFrom_mem S.entries 0 _).mpr
    have hjN : j < S.entries.length := by omega
    refine ⟨j, hjN, ?_, by rw [Nat.zero_add]⟩
    have hd := hdtpos j hj p hp
    rw [List.getElem_zip] at hd
    simp only at hd
    omega
  have hsubj : ∀ j (hj : j < (S.entries.zip S.parts).length) (p : PartS),
      (S.entries.zip S.parts)[j].2 = some p → p.sub.length ≠ 0 →
      (if cstr S.model_name = ydxj_z16 then "fdt"
        else amba_a9_part_entry_type_id j ++ "_bis") ≠ "" ∧
      (artifactsOfExtract (extractOut S)).payload
          (if cstr S.model_name = ydxj_z16 then "fdt"
           else amba_a9_part_entry_type_id j ++ "_bis") = p.sub := by
    intro j hj p hp hps
    have hj9 := husedlt9 j hj p hp
    have htne : (if cstr S.model_name = ydxj_z16 then "fdt"
        else amba_a9_part_entry_type_id j ++ "_bis") ≠ "" := by
      by_cases hy : cstr S.model_name = ydxj_z16
      · rw [if_pos hy]
        decide
      · rw [if_neg hy]
        exact tag_bis_ne_empty j (by omega)
    refine ⟨htne, ?_⟩
    have hnone : (partArtifactsFrom S.model_name 0 (S.entries.zip S.parts)).find?
        (fun q => amba_a9_part_entry_type_id q.idx ==
          (if cstr S.model_name = ydxj_z16 then "fdt"
           else amba_a9_part_entry_type_id j ++ "_bis")) = none := by
      rw [List.find?_eq_none]
      intro q hq
      obtain ⟨k, hk, pk, hpk, hqidx, _, _, _, _⟩ :=
        partArtifactsFrom_mem S.model_name _ 0 q hq
      have hk9 := husedlt9 k hk pk hpk
      simp only [Bool.not_eq_true]
      rw [beq_eq_false_iff_ne]
      rw [hqidx, Nat.zero_add]
      by_cases hy : cstr S.model_name = ydxj_z16
      · rw [if_pos hy]
        exact tag_ne_fdt k (by omega)
      · rw [if_neg hy]
        exact tag_ne_bis k (by omega) j (by omega)
    have huniq : ∀ k, k < (S.entries.zip S.parts).length → ∀ q : PartS,
        ((S.entries.zip S.parts).getD k (⟨0, 0⟩, none)).2 = some q → q.sub.length ≠ 0 →
        (if cstr S.model_name = ydxj_z16 then "fdt"
         else amba_a9_part_entry_type_id (0 + k) ++ "_bis") =
        (if cstr S.model_name = ydxj_z16 then "fdt"
         else amba_a9_part_entry_type_id j ++ "_bis") → k = j := by
      intro k hk q hq hqs heq
      rw [List.getD_eq_getElem _ _ hk] at hq
      have hk9 := husedlt9 k hk q hq
      by_cases hy : cstr S.model_name = ydxj_z16
      · have hkp : k < S.parts.length := by rw [hplen]; omega
        have hjp : j < S.parts.length := by rw [hplen]; omega
        have hq2 : subUsed S.parts[k] = true := by
          rw [List.getElem_zip] at hq
          simp only at hq
          rw [hq]
          simp only [subUsed, bne_iff_ne]
          exact hqs
        have hp2 : subUsed S.parts[j] = true := by
          have hp' := hp
          rw [List.getElem_zip] at hp'
          simp only at hp'
          rw [hp']
          simp only [subUsed, bne_iff_ne]
          exact hps
        exact hsub1 hy k hkp j hjp hq2 hp2
      · rw [if_neg hy, if_neg hy] at heq
        simp only [Nat.zero_add] at heq
        exact tag_bis_inj k (by omega) j (by omega) heq
    have hfadd := partArtifactsFrom_find_added S.model_name (S.entries.zip S.parts) 0 j
      hj p (if cstr S.model_name = ydxj_z16 then "fdt"
        else amba_a9_part_entry_type_id j ++ "_bis") hp hps
      (by rw [Nat.zero_add]) htne huniq
    rw [Nat.zero_add] at hfadd
    exact payload_of_find_added (extractOut S) _ _ hnone hfadd
  have hnotmem : ∀ j (hj : j < (S.entries.zip S.parts).length),
      (S.entries.zip S.parts)[j].2 = none →
      amba_a9_part_entry_type_id j ∉ (artifactsOfExtract (extractOut S)).part_load := by
    intro j hj hnone hmem
    obtain ⟨k, hk, hdk, htag⟩ := (detectNamesFrom_mem S.entries 0 _).mp hmem
    have hkz : k < (S.entries.zip S.parts).length := by omega
    cases hq : (S.entries.zip S.parts)[k].2 with
    | none =>
        have hsl := hslots k hkz
        rw [hq] at hsl
        have hke : (S.entries.zip S.parts)[k].1 = (⟨0, 0⟩ : FwModEntry) := hsl
        rw [List.getElem_zip] at hke
        simp only at hke
        rw [hke] at hdk
        simp at hdk
    | some q =>
        have hk9 := husedlt9 k hkz q hq
        rw [Nat.zero_add] at htag
        have hjN : j < S.entries.length := by omega
        have hjk := tag_inj j (by omega) k (by omega) htag.symm
        subst hjk
        rw [hnone] at hq
        exact Option.noConfusion hq
  have hsz : ∀ j (hj : j < (S.entries.zip S.parts).length),
      (artifactsOfExtract (extractOut S)).part_sizes.getD (0 + j) 0 =
        (S.entries.zip S.parts)[j].1.dt_len := by
    intro j hj
    show (S.entries.map (fun e => e.dt_len)).getD (0 + j) 0 = _
    rw [Nat.zero_add, List.getD_eq_getElem _ _ (by rw [List.length_map]; omega),
      List.getElem_map, List.getElem_zip]
  have hcs : ∀ j (hj : j < (S.entries.zip S.parts).length),
      create_slot (artifactsOfExtract (extractOut S)) (0 + j)
          ⟨(S.entries.zip S.parts)[j].1.dt_len, 0⟩ =
        (blockOf (S.entries.zip S.parts)[j].2, headOf (S.entries.zip S.parts)[j].2,
          ⟨(S.entries.zip S.parts)[j].1.dt_len, 0⟩) := by
    intro j hj
    rw [Nat.zero_add]
    cases hq : (S.entries.zip S.parts)[j].2 with
    | none => exact create_slot_unused_eq _ j _ (hnotmem j hj hq)
    | some p =>
        have hsl := hslots j hj
        rw [hq] at hsl
        exact create_slot_used_eq _ j _ p _ hsl (hmemj j hj p hq) (hpayj j hj p hq)
          (hhfj j hj p hq) (hsubj j hj p hq)
  have hslotsEq : create_slots (artifactsOfExtract (extractOut S)) =
      (S.entries.zip S.parts).map
        (fun q => (blockOf q.2, headOf q.2, (⟨q.1.dt_len, 0⟩ : FwModEntry))) := by
    unfold create_slots
    have hlenEq : (artifactsOfExtract (extractOut S)).part_sizes.length =
        (S.entries.zip S.parts).length := by
      show (S.entries.map (fun e => e.dt_len)).length = _
      rw [List.length_map, hzlen]
    rw [hlenEq, List.range_eq_range']
    exact create_slots_range' _ _ 0 hsz hcs
  have hblocks : create_blocks (artifactsOfExtract (extractOut S)) = renderParts S.parts := by
    unfold create_blocks
    rw [hslotsEq, List.map_map]
    rw [show ((fun s : List Nat × FwModPartHeader × FwModEntry => s.1) ∘
        (fun q : FwModEntry × Option PartS =>
          (blockOf q.2, headOf q.2, (⟨q.1.dt_len, 0⟩ : FwModEntry)))) =
        (blockOf ∘ fun q : FwModEntry × Option PartS => q.2) from rfl]
    rw [← List.map_map, hmapsnd, flatten_blockOf]
  have hcpairs : create_pairs (artifactsOfExtract (extractOut S)) =
      (S.entries.zip S.parts).map
        (fun q => ((⟨q.1.dt_len, 0⟩ : FwModEntry), headOf q.2)) := by
    unfold create_pairs
    rw [hslotsEq, List.map_map]
    rfl
  have hpayAll : ∀ j (hj : j < (S.entries.zip S.parts).length) (p : PartS),
      (S.entries.zip S.parts)[j].2 = some p →
      (artifactsOfExtract (extractOut S)).payload (amba_a9_part_entry_type_id (0 + j)) =
        p.payload := by
    intro j hj p hp
    rw [Nat.zero_add]
    exact hpayj j hj p hp
  obtain ⟨stF, hce, hcp⟩ := create_crc_pass_run (artifactsOfExtract (extractOut S))
    (S.entries.zip S.parts) 0 0xffffffff (by norm_num) hslots hchainOk hpayAll
  have hstF : stF = S.header_crc ^^^ mask32 := by
    have h1 : chainEnd (S.entries.zip S.parts) mask32 = some stF := hce
    rw [hchainEnd] at h1
    exact (Option.some.inj h1).symm
  have hserM : serModHead ⟨(artifactsOfExtract (extractOut S)).model_name, S.header_crc⟩ =
      S.model_name ++ le32 S.header_crc := by
    show serModHead ⟨cstr S.model_name, S.header_crc⟩ = _
    have hcl : (cstr S.model_name).length ≤ 32 := by
      unfold cstr
      calc (S.model_name.takeWhile _).length ≤ S.model_name.length :=
            (List.takeWhile_prefix _).length_le
        _ = 32 := h32
    simp only [serModHead]
    rw [List.take_of_length_le hcl]
    conv_rhs => rw [hpad]
  have hch : create_post_head (artifactsOfExtract (extractOut S)) = S.post_head := by
    unfold create_post_head
    have hov : (artifactsOfExtract (extractOut S)).post_head_override =
        if S.post_head = post_head_data then none else some S.post_head := rfl
    rw [hov]
    by_cases hph : S.post_head = post_head_data
    · rw [if_pos hph]
      exact hph.symm
    · rw [if_neg hph]
      show (if S.post_head.length ≠ 0 then S.post_head else post_head_data) = S.post_head
      rw [if_pos (by rw [h192]; omega)]
  have hcf : create_post_file (artifactsOfExtract (extractOut S)) = S.post_file := by
    unfold create_post_file
    have hov : (artifactsOfExtract (extractOut S)).post_file_override =
        if S.post_file = post_file_data then none else some S.post_file := rfl
    rw [hov]
    by_cases hpf : S.post_file = post_file_data
    · rw [if_pos hpf]
      exact hpf.symm
    · rw [if_neg hpf]
      show (if S.post_file.length ≠ 0 then S.post_file else post_file_data) = S.post_file
      rw [if_pos (by rw [h16]; omega)]
  have hbody : create_body (artifactsOfExtract (extractOut S)) =
      some (S.model_name ++ le32 S.header_crc ++ (S.entries.map serEntry).flatten ++
          S.post_head ++ renderParts S.parts ++ S.post_file,
        S.header_crc, S.entries) := by
    unfold create_body
    rw [hcpairs, hcp]
    simp only [Option.map_some']
    rw [hmapfst, hstF, xor_mask32_xor_mask32, hblocks, hserM, hch, hcf]
  have hall : (artifactsOfExtract (extractOut S)).part_load.all
      (fun t => t ∈ part_entry_type_id) = true := by
    rw [List.all_eq_true]
    intro t ht
    obtain ⟨k, hk, hdk, htag⟩ := (detectNamesFrom_mem S.entries 0 t).mp ht
    have hkz : k < (S.entries.zip S.parts).length := by omega
    cases hq : (S.entries.zip S.parts)[k].2 with
    | none =>
        have hsl := hslots k hkz
        rw [hq] at hsl
        have hke : (S.entries.zip S.parts)[k].1 = (⟨0, 0⟩ : FwModEntry) := hsl
        rw [List.getElem_zip] at hke
        simp only at hke
        rw [hke] at hdk
        simp at hdk
    | some q =>
        have hk9 := husedlt9 k hkz q hq
        rw [Nat.zero_add] at htag
        rw [← htag]
        simp only [decide_eq_true_eq]
        exact tag_mem_types k (by omega)
  unfold amba_create
  rw [if_neg (show ¬¬ ((artifactsOfExtract (extractOut S)).part_load.all
      (fun t => t ∈ part_entry_type_id) = true) from not_not_intro hall)]
  simp only [hbody]
  rw [create_footer_crc_spec _ _ _ _ (by omega) (by norm_num)]
  rw [List.take_take, Nat.min_self]
  have hrB : render S = (S.model_name ++ le32 S.header_crc ++
      (S.entries.map serEntry).flatten ++ S.post_head ++ renderParts S.parts ++
      S.post_file) ++ S.footer := by
    unfold render
    simp [List.append_assoc]
  have htakeEq : (S.model_name ++ le32 S.header_crc ++ (S.entries.map serEntry).flatten ++
        S.post_head ++ renderParts S.parts ++ S.post_file).take
        ((S.model_name ++ le32 S.header_crc ++ (S.entries.map serEntry).flatten ++
          S.post_head ++ renderParts S.parts ++ S.post_file).length - 16) =
      (render S).take ((render S).length - 20) := by
    have h1 : (render S).length = (S.model_name ++ le32 S.header_crc ++
        (S.entries.map serEntry).flatten ++ S.post_head ++ renderParts S.parts ++
        S.post_file).length + 4 := by
      rw [hrB, List.length_append _ S.footer, h4]
    rw [h1, show (S.model_name ++ le32 S.header_crc ++ (S.entries.map serEntry).flatten ++
        S.post_head ++ renderParts S.parts ++ S.post_file).length + 4 - 20 =
        (S.model_name ++ le32 S.header_crc ++ (S.entries.map serEntry).flatten ++
          S.post_head ++ renderParts S.parts ++ S.post_file).length - 16 by omega, hrB]
    conv_rhs => rw [List.take_append_of_le_length (by omega)]
  rw [htakeEq]
  show CreateResult.ok _ = CreateResult.ok _
  congr 1
  simp only [recreated, canonFooter, render, amba_calculate_crc32]
  simp [List.append_assoc]

theorem ValidC_recreated (S : ContainerS) (hv : ValidC S) : ValidC (recreated S) := by
  obtain ⟨h32, hpad, h192, h16, h4, hplen, hN, hcrclt, hbounds, hents, hstop, hslots,
    hchainEnd, hchainOk, hused9, hsub1⟩ := hv
  have hlen : (render (recreated S)).length = (render S).length := by
    rw [render_length, render_length]
    simp only [recreated, canonFooter, le32_length]
    rw [h4]
  unfold ValidC
  refine ⟨h32, hpad, h192, h16, by simp [recreated, canonFooter, le32_length], hplen, hN,
    hcrclt, hbounds, ?_, ?_, hslots, hchainEnd, hchainOk, hused9, hsub1⟩
  · intro j hj
    refine ⟨(hents j hj).1, ?_⟩
    rw [hlen]
    exact (hents j hj).2
  · rcases hstop with h | h
    · exact Or.inl h
    · right
      rw [hlen]
      exact h

/-- Whether a warning is one of the three checksum-comparison
warnings extraction can emit. -/
def isChecksumWarn : Warn → Bool
  | .ptcrcMismatch .. => true
  | .cumulativeMismatch .. => true
  | .totalMismatch .. => true
  | _ => false

theorem benignWarnsFrom_mem : ∀ (i : Nat) (pairs : List (FwModEntry × Option PartS))
    (w : Warn), w ∈ benignWarnsFrom i pairs → isChecksumWarn w = false
  | i, [], w => by
      intro h
      exact absurd h (by simp [benignWarnsFrom])
  | i, (e, none) :: rest, w => by
      intro h
      exact benignWarnsFrom_mem (i + 1) rest w (by simpa [benignWarnsFrom] using h)
  | i, (e, some p) :: rest, w => by
      intro h
      simp only [benignWarnsFrom, List.mem_append] at h
      rcases h with ((((h | h) | h) | h) | h)
      · split at h <;> simp_all [isChecksumWarn]
      · split at h <;> simp_all [isChecksumWarn]
      · split at h <;> (try split at h) <;> simp_all [isChecksumWarn]
      · split at h <;> simp_all [isChecksumWarn]
      · exact benignWarnsFrom_mem (i + 1) rest w h

theorem extractOut_warns_no_checksum (S : ContainerS) :
    (extractOut S).warns.filter isChecksumWarn = [] := by
  rw [List.filter_eq_nil_iff]
  intro w hw
  show ¬ isChecksumWarn w = true
  have hw2 : w ∈ (if entryStopPattern (parseEntry S.post_head) = true then []
        else [Warn.detectUnusual]) ++
      (if S.post_head = post_head_data then [] else [Warn.postHeadMismatch]) ++
      benignWarnsFrom 0 (S.entries.zip S.parts) ++
      (if S.post_file = post_file_data then [] else [Warn.endNotExpected]) := hw
  simp only [List.mem_append] at hw2
  rcases hw2 with (((h | h) | h) | h)
  · split at h <;> simp_all [isChecksumWarn]
  · split at h <;> simp_all [isChecksumWarn]
  · rw [benignWarnsFrom_mem 0 _ w h]
    simp
  · split at h <;> simp_all [isChecksumWarn]

/-- C1 (amended): for every valid container, extraction succeeds,
construction from the resulting artifact store succeeds, the
reconstructed container's partition artifacts — slot index, partition
header, payload bytes, `added_part` line and sub-payload bytes — are
identical to the original extraction's, and re-running extraction on
the reconstructed container emits none of the three checksum warnings:
the per-partition checksums, the per-entry cumulative snapshots and
the container-header cumulative checksum all validate.  The trailing
whole-file footer is recomputed by construction but never examined by
extraction. -/
theorem container_roundtrip (S : ContainerS) (hv : ValidC S) :
    ∃ r out r2,
      amba_extract (render S) = .ok r ∧
      amba_create (artifactsOfExtract r) = .ok out ∧
      amba_extract out = .ok r2 ∧
      r2.parts = r.parts ∧
      r2.warns.filter isChecksumWarn = [] :=
  ⟨extractOut S, render (recreated S), extractOut (recreated S),
    amba_extract_render S hv, amba_create_of_valid S hv,
    amba_extract_render (recreated S) (ValidC_recreated S hv), rfl,
    extractOut_warns_no_checksum (recreated S)⟩

/-- Partition header of the witness container's used slot. -/
def wHead0 : FwModPartHeader :=
  { crc32 := amba_calculate_crc32 [1, 2, 3, 4, 5, 6, 7, 8, 9, 10, 11, 12, 13, 14, 15, 16]
    version := 0x30007
    build_date := 0x07E10A0F
    dt_len := 16
    mem_addr := 0x1000
    flag1 := 0
    magic := 0xA324EB90
    flag2 := 0
    padding := List.replicate 56 0 }

/-- Used slot of the witness container: a 16-byte payload and an
8-byte sub-payload. -/
def wPart0 : PartS :=
  { head := wHead0
    payload := [1, 2, 3, 4, 5, 6, 7, 8, 9, 10, 11, 12, 13, 14, 15, 16]
    sub := [9, 9, 9, 9, 9, 9, 9, 9] }

/-- A concrete valid container: model `TEST`, one used slot and one
unused slot, a post-header block starting with a stop-pattern entry,
the constant trailer and a blank footer. -/
def roundtripWitnessS : ContainerS :=
  { model_name := [84, 69, 83, 84] ++ List.replicate 28 0
    header_crc := 1810939481
    entries := [⟨280, 2484027814⟩, ⟨0, 0⟩]
    post_head := le32 1024 ++ le32 1024 ++ List.replicate 184 0
    parts := [some wPart0, none]
    post_file := post_file_data
    footer := [0, 0, 0, 0] }

set_option maxRecDepth 200000 in
theorem container_roundtrip_witness :
    ValidC roundtripWitnessS ∧
    ∃ r out r2,
      amba_extract (render roundtripWitnessS) = .ok r ∧
      amba_create (artifactsOfExtract r) = .ok out ∧
      amba_extract out = .ok r2 ∧
      r2.parts = r.parts ∧
      r2.warns.filter isChecksumWarn = [] :=
  ⟨by decide, container_roundtrip roundtripWitnessS (by decide)⟩

/-- The witness container with a corrupted trailing whole-file
checksum. -/
def footerBadWitnessS : ContainerS :=
  { roundtripWitnessS with footer := [222, 173, 190, 239] }

instance instDecEqExceptExtract : DecidableEq (Except ExtractErr ExtractResult) := fun a b =>
  match a, b with
  | .error x, .error y => decidable_of_iff (x = y) (by simp)
  | .ok x, .ok y => decidable_of_iff (x = y) (by simp)
  | .error _, .ok _ => isFalse (by simp)
  | .ok _, .error _ => isFalse (by simp)

set_option maxRecDepth 200000 in
/-- C1: counterexample to the claim as stated.  Extraction never reads
the trailing 4-byte whole-file checksum: corrupting the footer of a
valid container changes the container's bytes but leaves the entire
extraction result — warnings included — unchanged, so the trailing
whole-file checksum is not among the checksums that "validate when the
reconstructed container is fed back through extraction". -/
theorem roundtrip_footer_ignored_counterexample :
    render footerBadWitnessS ≠ render roundtripWitnessS ∧
    amba_extract (render footerBadWitnessS) = amba_extract (render roundtripWitnessS) := by
  constructor
  · decide
  · decide
